import Mathlib

/-! ArgumentParser: option value model and parsing engine.

A shallow embedding of `src/lib/CommandLineOption.{h,cpp}` and
`src/lib/ArgParser.{h,cpp}`.

* `std::string` is a list of characters (`Str`), `char` is `Char`, `int` is `Int`
  (the only producer of `int` values in the parser is `std::stoi`, which checks the
  32-bit range), `size_t` is `Nat` with wrap-around modulo `2 ^ 64` at subtraction.
* An object mutated through a reference is passed and returned explicitly.  A call that
  may throw returns a `Res`: the state of the object when the call ended together with
  the exception, because several methods mutate the object before they throw.
* `std::reference_wrapper` bindings to caller storage are modelled by the current
  contents of the referenced storage.
-/

namespace ArgumentParser

/-- A `std::string`: a sequence of `char`. -/
abbrev Str := List Char

/-- The exceptions (all derived from `std::exception`) that the code can throw. -/
inductive Exn where
  | logic_error
  | invalid_argument
  | out_of_range
  | bad_variant_access
  deriving DecidableEq, Repr

deriving instance DecidableEq for Except

/-- Result of a call on a mutable object: normal return with the new state, or an
exception together with the state the object was left in. -/
inductive Res (σ : Type) where
  | ok (s : σ)
  | throws (e : Exn) (s : σ)
  deriving DecidableEq, Repr

/-- State of the object after the call, whether it threw or not. -/
def Res.state {σ : Type} : Res σ → σ
  | .ok s => s
  | .throws _ s => s

/-- Whether the call returned normally. -/
def Res.succeeded {σ : Type} : Res σ → Bool
  | .ok _ => true
  | .throws _ _ => false

/-! ## CommandLineOption.h -/

/-- Embeds `enum class OptionType`. -/
inductive OptionType where
  | FlagOption
  | IntegerOption
  | StringOption
  | HelpOption
  deriving DecidableEq, Repr

/-- Embeds `ValueType = std::variant<std::monostate, bool, int, std::string>`. -/
inductive ValueType where
  | monostate
  | bool (b : Bool)
  | int (i : Int)
  | string (s : Str)
  deriving DecidableEq, Repr

/-- Embeds `ArrayType = std::variant<Vec<bool>, Vec<int>, Vec<std::string>>`. -/
inductive ArrayType where
  | bools (v : List Bool)
  | ints (v : List Int)
  | strings (v : List Str)
  deriving DecidableEq, Repr

/-- Embeds `ArgumentStorageType = std::variant<ValueType, ArrayType>`. -/
inductive ArgumentStorageType where
  | value (v : ValueType)
  | array (a : ArrayType)
  deriving DecidableEq, Repr

/-- Embeds `ValueRefType = std::variant<Ref<bool>, Ref<int>, Ref<std::string>>`; each
alternative carries the current contents of the referenced caller variable. -/
inductive ValueRefType where
  | bool (b : Bool)
  | int (i : Int)
  | string (s : Str)
  deriving DecidableEq, Repr

/-- Embeds `ArrayRefType = std::variant<Ref<Vec<bool>>, Ref<Vec<int>>, Ref<Vec<std::string>>>`;
each alternative carries the current contents of the referenced caller vector. -/
inductive ArrayRefType where
  | bools (v : List Bool)
  | ints (v : List Int)
  | strings (v : List Str)
  deriving DecidableEq, Repr

/-- Embeds `ExternalStorageType = std::variant<std::monostate, ValueRefType, ArrayRefType>`. -/
inductive ExternalStorageType where
  | monostate
  | valueRef (r : ValueRefType)
  | arrayRef (r : ArrayRefType)
  deriving DecidableEq, Repr

/-- The data members of `class CommandLineOption`. -/
structure CommandLineOption where
  option_type : OptionType
  short_opt : Char
  long_opt : Str
  description : Str
  default_value : ValueType
  argument_values : ArgumentStorageType
  external_values : ExternalStorageType
  is_positional : Bool
  is_multi_value : Bool
  min_args_count : Nat
  deriving DecidableEq, Repr

namespace CommandLineOption

/-! ## CommandLineOption.cpp -/

/-- The constructor `CommandLineOption(optionType, shortOpt, longOpt, desc)`. -/
def new (optionType : OptionType) (shortOpt : Char) (longOpt desc : Str) :
    CommandLineOption :=
  { option_type := optionType
    short_opt := shortOpt
    long_opt := longOpt
    description := desc
    default_value :=
      if optionType = OptionType.FlagOption then ValueType.bool false else ValueType.monostate
    argument_values :=
      if optionType = OptionType.HelpOption then ArgumentStorageType.value (ValueType.bool false)
      else ArgumentStorageType.value ValueType.monostate
    external_values := ExternalStorageType.monostate
    is_positional := false
    is_multi_value := false
    min_args_count := 0 }

/-- Embeds `Default(bool value)`. -/
def DefaultBool (o : CommandLineOption) (value : Bool) : Res CommandLineOption :=
  if o.option_type ≠ OptionType.FlagOption then Res.throws Exn.logic_error o
  else Res.ok { o with default_value := ValueType.bool value }

/-- Embeds `Default(int value)`. -/
def DefaultInt (o : CommandLineOption) (value : Int) : Res CommandLineOption :=
  if o.option_type ≠ OptionType.IntegerOption then Res.throws Exn.logic_error o
  else Res.ok { o with default_value := ValueType.int value }

/-- Embeds `Default(std::string value)`. -/
def DefaultString (o : CommandLineOption) (value : Str) : Res CommandLineOption :=
  if o.option_type ≠ OptionType.StringOption then Res.throws Exn.logic_error o
  else Res.ok { o with default_value := ValueType.string value }

/-- Embeds `MultiValue(size_t minArgsCount)`: the two members are written before the kind is
inspected, so they stay written when the call throws. -/
def MultiValue (o : CommandLineOption) (minArgsCount : Nat) : Res CommandLineOption :=
  let o1 := { o with is_multi_value := true, min_args_count := minArgsCount }
  if o1.option_type = OptionType.IntegerOption then
    Res.ok { o1 with argument_values := ArgumentStorageType.array (ArrayType.ints []) }
  else if o1.option_type = OptionType.StringOption then
    Res.ok { o1 with argument_values := ArgumentStorageType.array (ArrayType.strings []) }
  else Res.throws Exn.logic_error o1

/-- Embeds `Positional()`. -/
def Positional (o : CommandLineOption) : Res CommandLineOption :=
  if o.option_type ≠ OptionType.IntegerOption ∧ o.option_type ≠ OptionType.StringOption then
    Res.throws Exn.logic_error o
  else Res.ok { o with is_positional := true }

/-- Embeds `StoreValue(bool& ref)`; `ref` is the current contents of the caller variable. -/
def StoreValueBool (o : CommandLineOption) (ref : Bool) : Res CommandLineOption :=
  if o.option_type ≠ OptionType.FlagOption then Res.throws Exn.logic_error o
  else Res.ok { o with external_values := ExternalStorageType.valueRef (ValueRefType.bool ref) }

/-- Embeds `StoreValue(int& ref)`. -/
def StoreValueInt (o : CommandLineOption) (ref : Int) : Res CommandLineOption :=
  if o.option_type ≠ OptionType.IntegerOption then Res.throws Exn.logic_error o
  else Res.ok { o with external_values := ExternalStorageType.valueRef (ValueRefType.int ref) }

/-- Embeds `StoreValue(std::string& ref)`. -/
def StoreValueString (o : CommandLineOption) (ref : Str) : Res CommandLineOption :=
  if o.option_type ≠ OptionType.StringOption then Res.throws Exn.logic_error o
  else Res.ok { o with external_values := ExternalStorageType.valueRef (ValueRefType.string ref) }

/-- Embeds `StoreValues(std::vector<int>& ref)` (also reached through the `StoreValue` overload
taking a vector). -/
def StoreValuesInt (o : CommandLineOption) (ref : List Int) : Res CommandLineOption :=
  if o.option_type ≠ OptionType.IntegerOption then Res.throws Exn.logic_error o
  else Res.ok { o with external_values := ExternalStorageType.arrayRef (ArrayRefType.ints ref) }

/-- Embeds `StoreValues(std::vector<std::string>& ref)`. -/
def StoreValuesString (o : CommandLineOption) (ref : List Str) : Res CommandLineOption :=
  if o.option_type ≠ OptionType.StringOption then Res.throws Exn.logic_error o
  else Res.ok { o with external_values := ExternalStorageType.arrayRef (ArrayRefType.strings ref) }

/-- Embeds `HasDefault()`: the default's variant index is not 0. -/
def HasDefault (o : CommandLineOption) : Bool :=
  match o.default_value with
  | ValueType.monostate => false
  | _ => true

/-- Embeds `GetDefaultFlag()`: `std::get<bool>(default_value)`. -/
def GetDefaultFlag (o : CommandLineOption) : Except Exn Bool :=
  match o.default_value with
  | ValueType.bool b => Except.ok b
  | _ => Except.error Exn.bad_variant_access

/-- Embeds `GetDefaultInt()`: `std::get<int>(default_value)`. -/
def GetDefaultInt (o : CommandLineOption) : Except Exn Int :=
  match o.default_value with
  | ValueType.int i => Except.ok i
  | _ => Except.error Exn.bad_variant_access

/-- Embeds `GetDefaultString()`: `std::get<std::string>(default_value)`. -/
def GetDefaultString (o : CommandLineOption) : Except Exn Str :=
  match o.default_value with
  | ValueType.string s => Except.ok s
  | _ => Except.error Exn.bad_variant_access

/-- Embeds `GetFlag()`. -/
def GetFlag (o : CommandLineOption) : Except Exn Bool :=
  match o.argument_values with
  | ArgumentStorageType.array _ => Except.error Exn.bad_variant_access
  | ArgumentStorageType.value ValueType.monostate => o.GetDefaultFlag
  | ArgumentStorageType.value (ValueType.bool b) => Except.ok b
  | ArgumentStorageType.value _ => Except.error Exn.bad_variant_access

/-- Embeds `GetInt()`. -/
def GetInt (o : CommandLineOption) : Except Exn Int :=
  match o.argument_values with
  | ArgumentStorageType.array _ => Except.error Exn.bad_variant_access
  | ArgumentStorageType.value ValueType.monostate => o.GetDefaultInt
  | ArgumentStorageType.value (ValueType.int i) => Except.ok i
  | ArgumentStorageType.value _ => Except.error Exn.bad_variant_access

/-- Embeds `GetInt(size_t pos)`: `vector::at` throws `std::out_of_range` past the end. -/
def GetIntAt (o : CommandLineOption) (pos : Nat) : Except Exn Int :=
  match o.argument_values with
  | ArgumentStorageType.array (ArrayType.ints v) =>
    match v.get? pos with
    | some x => Except.ok x
    | none => Except.error Exn.out_of_range
  | _ => Except.error Exn.bad_variant_access

/-- Embeds `GetString()`. -/
def GetString (o : CommandLineOption) : Except Exn Str :=
  match o.argument_values with
  | ArgumentStorageType.array _ => Except.error Exn.bad_variant_access
  | ArgumentStorageType.value ValueType.monostate => o.GetDefaultString
  | ArgumentStorageType.value (ValueType.string s) => Except.ok s
  | ArgumentStorageType.value _ => Except.error Exn.bad_variant_access

/-- Embeds `GetString(size_t pos)`. -/
def GetStringAt (o : CommandLineOption) (pos : Nat) : Except Exn Str :=
  match o.argument_values with
  | ArgumentStorageType.array (ArrayType.strings v) =>
    match v.get? pos with
    | some x => Except.ok x
    | none => Except.error Exn.out_of_range
  | _ => Except.error Exn.bad_variant_access

/-- Embeds `SetValue(bool value)`. -/
def SetValueBool (o : CommandLineOption) (value : Bool) : Res CommandLineOption :=
  if o.option_type ≠ OptionType.FlagOption ∧ o.option_type ≠ OptionType.HelpOption then
    Res.throws Exn.logic_error o
  else
    let o1 := { o with argument_values := ArgumentStorageType.value (ValueType.bool value) }
    match o1.external_values with
    | ExternalStorageType.monostate => Res.ok o1
    | ExternalStorageType.valueRef (ValueRefType.bool _) =>
      Res.ok { o1 with external_values := ExternalStorageType.valueRef (ValueRefType.bool value) }
    | _ => Res.throws Exn.bad_variant_access o1

/-- The first half of `SetValue(int value)`: the write to `argument_values`. -/
def storeInt (o : CommandLineOption) (value : Int) : Res CommandLineOption :=
  match o.argument_values with
  | ArgumentStorageType.value _ =>
    Res.ok { o with argument_values := ArgumentStorageType.value (ValueType.int value) }
  | ArgumentStorageType.array (ArrayType.ints v) =>
    Res.ok { o with argument_values := ArgumentStorageType.array (ArrayType.ints (v ++ [value])) }
  | ArgumentStorageType.array _ => Res.throws Exn.bad_variant_access o

/-- The second half of `SetValue(int value)`: the mirror write to the bound storage. -/
def mirrorInt (o : CommandLineOption) (value : Int) : Res CommandLineOption :=
  match o.external_values with
  | ExternalStorageType.monostate => Res.ok o
  | ext =>
    if o.is_multi_value then
      match ext with
      | ExternalStorageType.arrayRef (ArrayRefType.ints v) =>
        Res.ok { o with external_values :=
          ExternalStorageType.arrayRef (ArrayRefType.ints (v ++ [value])) }
      | _ => Res.throws Exn.bad_variant_access o
    else
      match ext with
      | ExternalStorageType.valueRef (ValueRefType.int _) =>
        Res.ok { o with external_values := ExternalStorageType.valueRef (ValueRefType.int value) }
      | _ => Res.throws Exn.bad_variant_access o

/-- Embeds `SetValue(int value)`. -/
def SetValueInt (o : CommandLineOption) (value : Int) : Res CommandLineOption :=
  if o.option_type ≠ OptionType.IntegerOption then Res.throws Exn.logic_error o
  else
    match o.storeInt value with
    | Res.throws e o1 => Res.throws e o1
    | Res.ok o1 => o1.mirrorInt value

/-- The first half of `SetValue(const std::string& value)`. -/
def storeString (o : CommandLineOption) (value : Str) : Res CommandLineOption :=
  match o.argument_values with
  | ArgumentStorageType.value _ =>
    Res.ok { o with argument_values := ArgumentStorageType.value (ValueType.string value) }
  | ArgumentStorageType.array (ArrayType.strings v) =>
    Res.ok { o with argument_values :=
      ArgumentStorageType.array (ArrayType.strings (v ++ [value])) }
  | ArgumentStorageType.array _ => Res.throws Exn.bad_variant_access o

/-- The second half of `SetValue(const std::string& value)`. -/
def mirrorString (o : CommandLineOption) (value : Str) : Res CommandLineOption :=
  match o.external_values with
  | ExternalStorageType.monostate => Res.ok o
  | ext =>
    if o.is_multi_value then
      match ext with
      | ExternalStorageType.arrayRef (ArrayRefType.strings v) =>
        Res.ok { o with external_values :=
          ExternalStorageType.arrayRef (ArrayRefType.strings (v ++ [value])) }
      | _ => Res.throws Exn.bad_variant_access o
    else
      match ext with
      | ExternalStorageType.valueRef (ValueRefType.string _) =>
        Res.ok { o with external_values :=
          ExternalStorageType.valueRef (ValueRefType.string value) }
      | _ => Res.throws Exn.bad_variant_access o

/-- Embeds `SetValue(const std::string& value)`. -/
def SetValueString (o : CommandLineOption) (value : Str) : Res CommandLineOption :=
  if o.option_type ≠ OptionType.StringOption then Res.throws Exn.logic_error o
  else
    match o.storeString value with
    | Res.throws e o1 => Res.throws e o1
    | Res.ok o1 => o1.mirrorString value

/-- The number of stored values that `IsValid()` computes for a multi-value option. -/
def storedCount (o : CommandLineOption) : Except Exn Nat :=
  if o.option_type = OptionType.IntegerOption then
    match o.argument_values with
    | ArgumentStorageType.array (ArrayType.ints v) => Except.ok v.length
    | _ => Except.error Exn.bad_variant_access
  else if o.option_type = OptionType.StringOption then
    match o.argument_values with
    | ArgumentStorageType.array (ArrayType.strings v) => Except.ok v.length
    | _ => Except.error Exn.bad_variant_access
  else Except.ok 0

/-- Embeds `IsValid()`. -/
def IsValid (o : CommandLineOption) : Except Exn Bool :=
  if o.is_multi_value = false then
    match o.argument_values with
    | ArgumentStorageType.array _ => Except.error Exn.bad_variant_access
    | ArgumentStorageType.value ValueType.monostate => Except.ok o.HasDefault
    | ArgumentStorageType.value _ => Except.ok true
  else
    match o.storedCount with
    | Except.error e => Except.error e
    | Except.ok count => if count < o.min_args_count then Except.ok false else Except.ok true

/-- The stored value agrees with the kind and the multiplicity of the option, as it does in
every state produced by the constructor, the builder calls and `SetValue`. -/
def storageCoherent (o : CommandLineOption) : Bool :=
  match o.option_type, o.argument_values with
  | OptionType.FlagOption, ArgumentStorageType.value ValueType.monostate => true
  | OptionType.FlagOption, ArgumentStorageType.value (ValueType.bool _) => true
  | OptionType.HelpOption, ArgumentStorageType.value (ValueType.bool _) => true
  | OptionType.IntegerOption, ArgumentStorageType.value ValueType.monostate => !o.is_multi_value
  | OptionType.IntegerOption, ArgumentStorageType.value (ValueType.int _) => !o.is_multi_value
  | OptionType.IntegerOption, ArgumentStorageType.array (ArrayType.ints _) => o.is_multi_value
  | OptionType.StringOption, ArgumentStorageType.value ValueType.monostate => !o.is_multi_value
  | OptionType.StringOption, ArgumentStorageType.value (ValueType.string _) => !o.is_multi_value
  | OptionType.StringOption, ArgumentStorageType.array (ArrayType.strings _) => o.is_multi_value
  | _, _ => false

/-- The external binding, when there is one, refers to storage of the option's kind, as it
does in every state produced by the constructor, the builder calls and `SetValue`. -/
def bindingCoherent (o : CommandLineOption) : Bool :=
  match o.option_type, o.external_values with
  | _, ExternalStorageType.monostate => true
  | OptionType.FlagOption, ExternalStorageType.valueRef (ValueRefType.bool _) => true
  | OptionType.IntegerOption, ExternalStorageType.valueRef (ValueRefType.int _) => true
  | OptionType.IntegerOption, ExternalStorageType.arrayRef (ArrayRefType.ints _) => true
  | OptionType.StringOption, ExternalStorageType.valueRef (ValueRefType.string _) => true
  | OptionType.StringOption, ExternalStorageType.arrayRef (ArrayRefType.strings _) => true
  | _, _ => false

/-- The invariant of the reachable option states. -/
def Coherent (o : CommandLineOption) : Bool := o.storageCoherent && o.bindingCoherent

end CommandLineOption

/-! ## Standard-library operations used by ArgParser.cpp -/

/-- Embeds `std::isspace` in the "C" locale. -/
def isspace (c : Char) : Bool :=
  c = ' ' || c = '\t' || c = '\n' || c = '\x0b' || c = '\x0c' || c = '\r'

/-- Embeds `INT_MAX` of a 32-bit `int`. -/
def INT_MAX : Int := 2147483647

/-- Embeds `INT_MIN` of a 32-bit `int`. -/
def INT_MIN : Int := -2147483648

/-- Value of a run of decimal digits. -/
def digitsValue (ds : List Char) : Nat :=
  ds.foldl (fun acc c => 10 * acc + (c.toNat - '0'.toNat)) 0

/-- The text left after the leading white space that `strtol` skips. -/
def skipSpace (str : Str) : Str := str.dropWhile isspace

/-- The text left after one optional sign. -/
def skipSign (str : Str) : Str :=
  match str with
  | '-' :: r => r
  | '+' :: r => r
  | _ => str

/-- Embeds `std::stoi(str)` (base 10, no position output): skips leading white space, reads an
optional sign and the longest run of decimal digits, and ignores whatever follows.
Throws `std::invalid_argument` when there is no digit to convert and `std::out_of_range`
when the value does not fit an `int`. -/
def stoi (str : Str) : Except Exn Int :=
  let afterSpace := skipSpace str
  let digits := (skipSign afterSpace).takeWhile Char.isDigit
  if digits = [] then Except.error Exn.invalid_argument
  else
    let v : Int :=
      if afterSpace.head? = some '-' then -(digitsValue digits : Int) else (digitsValue digits : Int)
    if v < INT_MIN ∨ INT_MAX < v then Except.error Exn.out_of_range else Except.ok v

/-- Embeds `std::string::find(ch)`: the position of the first occurrence, `none` for `npos`. -/
def find : Str → Char → Option Nat
  | [], _ => none
  | x :: xs, ch => if x = ch then some 0 else (find xs ch).map Nat.succ

/-- Embeds `std::string::substr(pos, count)`: throws `std::out_of_range` when `pos > size()`;
`count = none` stands for the default `npos`. -/
def substr (s : Str) (pos : Nat) (count : Option Nat) : Except Exn Str :=
  if s.length < pos then Except.error Exn.out_of_range
  else
    match count with
    | none => Except.ok (s.drop pos)
    | some n => Except.ok ((s.drop pos).take n)

/-- Embeds `arg[j]` of a `std::string`: the character for `j < size()`, the terminating null
character for `j = size()`, and undefined behaviour (`none`) beyond. -/
def charAt (arg : Str) (j : Nat) : Option Char :=
  match arg.get? j with
  | some c => some c
  | none => if j = arg.length then some '\x00' else none

/-- Subtraction of two `size_t` values: wraps around modulo `2 ^ 64`. -/
def size_t_sub (a b : Nat) : Nat := (a + 2 ^ 64 - b) % 2 ^ 64

/-- Embeds `std::find_if`: the position and the element of the first match, `none` for `end()`. -/
def find_if {α : Type} (p : α → Bool) : List α → Option (Nat × α)
  | [] => none
  | x :: xs => if p x then some (0, x) else (find_if p xs).map (fun r => (r.1 + 1, r.2))

/-! ## ArgParser.h / ArgParser.cpp -/

/-- The data members of `class ArgParser`. -/
structure ArgParser where
  program_name : Str
  options : List CommandLineOption
  deriving DecidableEq, Repr

/-- How a call of `Parse` ends. -/
inductive Outcome where
  | returned (b : Bool)
  | raised (e : Exn)
  | undefined
  deriving DecidableEq, Repr

/-- How the processing of one token (or of one loop inside it) ends: the loop goes on
(`next`), `Parse` returns (`ret`), an exception travels to the `catch` (`throw`), or the
behaviour is undefined (`undefined`); each with the options as they are at that point. -/
inductive Step where
  | next (options : List CommandLineOption)
  | ret (b : Bool) (options : List CommandLineOption)
  | throw (e : Exn) (options : List CommandLineOption)
  | undefined (options : List CommandLineOption)
  deriving DecidableEq, Repr

namespace ArgParser

/-- The constructor `ArgParser(name)`. -/
def new (name : Str) : ArgParser := { program_name := name, options := [] }

/-- Embeds `AddIntArgument(shortOpt, longOpt, desc)`; the overloads without a short name pass
the null character, those without a description the empty string. -/
def AddIntArgument (p : ArgParser) (shortOpt : Char) (longOpt desc : Str) : ArgParser :=
  { p with options :=
      p.options ++ [CommandLineOption.new OptionType.IntegerOption shortOpt longOpt desc] }

/-- Embeds `AddStringArgument(shortOpt, longOpt, desc)`. -/
def AddStringArgument (p : ArgParser) (shortOpt : Char) (longOpt desc : Str) : ArgParser :=
  { p with options :=
      p.options ++ [CommandLineOption.new OptionType.StringOption shortOpt longOpt desc] }

/-- Embeds `AddFlag(shortOpt, longOpt, desc)`. -/
def AddFlag (p : ArgParser) (shortOpt : Char) (longOpt desc : Str) : ArgParser :=
  { p with options :=
      p.options ++ [CommandLineOption.new OptionType.FlagOption shortOpt longOpt desc] }

/-- Embeds `AddHelp(shortOpt, longOpt, desc)`. -/
def AddHelp (p : ArgParser) (shortOpt : Char) (longOpt desc : Str) : ArgParser :=
  { p with options :=
      p.options ++ [CommandLineOption.new OptionType.HelpOption shortOpt longOpt desc] }

/-- Embeds `GetOption(char shortOpt)`: position and value of the referenced option. -/
def GetOption (options : List CommandLineOption) (shortOpt : Char) :
    Except Exn (Nat × CommandLineOption) :=
  match find_if (fun opt => opt.short_opt = shortOpt) options with
  | none => Except.error Exn.logic_error
  | some r => Except.ok r

/-- Embeds `GetOption(const std::string& longOpt)`. -/
def GetOptionLong (options : List CommandLineOption) (longOpt : Str) :
    Except Exn (Nat × CommandLineOption) :=
  match find_if (fun opt => opt.long_opt = longOpt) options with
  | none => Except.error Exn.logic_error
  | some r => Except.ok r

/-- Embeds `GetPositionalArgument()`. -/
def GetPositionalArgument (options : List CommandLineOption) :
    Except Exn (Nat × CommandLineOption) :=
  match find_if (fun opt => opt.is_positional) options with
  | none => Except.error Exn.logic_error
  | some r => Except.ok r

/-- Embeds `GetHelpOption()`. -/
def GetHelpOption (options : List CommandLineOption) :
    Except Exn (Nat × CommandLineOption) :=
  match find_if (fun opt => opt.option_type = OptionType.HelpOption) options with
  | none => Except.error Exn.logic_error
  | some r => Except.ok r

/-- Embeds `SetFlagOption(option)`. -/
def SetFlagOption (option : CommandLineOption) : Res CommandLineOption :=
  if option.option_type ≠ OptionType.FlagOption ∧ option.option_type ≠ OptionType.HelpOption then
    Res.throws Exn.logic_error option
  else option.SetValueBool true

/-- Embeds `SetValueOption(option, value)`. -/
def SetValueOption (option : CommandLineOption) (value : Str) : Res CommandLineOption :=
  if option.option_type = OptionType.IntegerOption then
    match stoi value with
    | Except.error e => Res.throws e option
    | Except.ok v => option.SetValueInt v
  else if option.option_type = OptionType.StringOption then option.SetValueString value
  else Res.throws Exn.logic_error option

/-- The body of the long-option branch of `Parse` (`arg[1] == '-'`).  Here `eq_pos - 2`
cannot wrap: `arg[0]` and `arg[1]` are `'-'`, so `eq_pos` is at least 2. -/
def longOption (options : List CommandLineOption) (arg : Str) (eq_pos : Nat) : Step :=
  if arg.length < 3 then Step.ret false options
  else
    match substr arg 2 (some (eq_pos - 2)) with
    | Except.error e => Step.throw e options
    | Except.ok longOptName =>
      match GetOptionLong options longOptName with
      | Except.error e => Step.throw e options
      | Except.ok (i, opt) =>
        if eq_pos = arg.length then
          match SetFlagOption opt with
          | Res.throws e opt1 => Step.throw e (options.set i opt1)
          | Res.ok opt1 =>
            if opt1.option_type = OptionType.HelpOption then Step.ret true (options.set i opt1)
            else Step.next (options.set i opt1)
        else
          match substr arg (eq_pos + 1) none with
          | Except.error e => Step.throw e options
          | Except.ok value =>
            match SetValueOption opt value with
            | Res.throws e opt1 => Step.throw e (options.set i opt1)
            | Res.ok opt1 => Step.next (options.set i opt1)

/-- The flag loop `for (size_t j = 1; j < flagCount; ++j)` of the short-option branch,
as a function of the number of iterations still to run and of the current `j`. -/
def flagLoop (arg : Str) : Nat → Nat → List CommandLineOption → Step
  | 0, _, options => Step.next options
  | n + 1, j, options =>
    match charAt arg j with
    | none => Step.undefined options
    | some shortOptName =>
      match GetOption options shortOptName with
      | Except.error e => Step.throw e options
      | Except.ok (i, opt) =>
        match SetFlagOption opt with
        | Res.throws e opt1 => Step.throw e (options.set i opt1)
        | Res.ok opt1 =>
          if opt1.option_type = OptionType.HelpOption then Step.ret true (options.set i opt1)
          else flagLoop arg n (j + 1) (options.set i opt1)

/-- Embeds `flagCount = eq_pos == arg.size() ? eq_pos : eq_pos - 2`. -/
def flagCount (arg : Str) (eq_pos : Nat) : Nat :=
  if eq_pos = arg.length then eq_pos else size_t_sub eq_pos 2

/-- The body of the short-option branch of `Parse`. -/
def shortOption (options : List CommandLineOption) (arg : Str) (eq_pos : Nat) : Step :=
  match flagLoop arg (flagCount arg eq_pos - 1) 1 options with
  | Step.next options1 =>
    if flagCount arg eq_pos ≠ eq_pos then
      match charAt arg (eq_pos - 1) with
      | none => Step.undefined options1
      | some shortOptName =>
        match GetOption options1 shortOptName with
        | Except.error e => Step.throw e options1
        | Except.ok (i, opt) =>
          match substr arg (eq_pos + 1) none with
          | Except.error e => Step.throw e options1
          | Except.ok value =>
            match SetValueOption opt value with
            | Res.throws e opt1 => Step.throw e (options1.set i opt1)
            | Res.ok opt1 => Step.next (options1.set i opt1)
    else Step.next options1
  | other => other

/-- The value of `eq_pos` in `Parse`: the position of the first `'='` of the argument,
or the size of the argument when it has none. -/
def eqPos (arg : Str) : Nat := (find arg '=').getD arg.length

/-- The body of the branch `arg[0] == '-'` of `Parse`.  In `arg.size() - 1` the size is
at least 2. -/
def dashArg (options : List CommandLineOption) (arg : Str) : Step :=
  if arg.length < 2 then Step.ret false options
  else if eqPos arg = arg.length - 1 then Step.ret false options
  else if arg.get? 1 = some '-' then longOption options arg (eqPos arg)
  else shortOption options arg (eqPos arg)

/-- The inner loop of the positional branch: every remaining argument goes to `opt`. -/
def positionalLoop (opt : CommandLineOption) : List Str → Res CommandLineOption
  | [] => Res.ok opt
  | arg :: rest =>
    match SetValueOption opt arg with
    | Res.throws e opt1 => Res.throws e opt1
    | Res.ok opt1 => positionalLoop opt1 rest

/-- Embeds `std::all_of(options.begin(), options.end(), IsValid)`: stops at the first option
that is not valid. -/
def all_of_IsValid : List CommandLineOption → Except Exn Bool
  | [] => Except.ok true
  | opt :: rest =>
    match opt.IsValid with
    | Except.error e => Except.error e
    | Except.ok false => Except.ok false
    | Except.ok true => all_of_IsValid rest

/-- The statement after the `try` block: the result of the validity check, which may
itself let an exception escape. -/
def validate (options : List CommandLineOption) : Outcome × List CommandLineOption :=
  match all_of_IsValid options with
  | Except.error e => (Outcome.raised e, options)
  | Except.ok b => (Outcome.returned b, options)

/-- The loop `for (argIndex = 1; argIndex < args.size(); ++argIndex)` inside the `try`
block of `Parse`; `args` is the list of the arguments not yet visited.  `Step.next` means
that the loop ran to its end. -/
def mainLoop : List CommandLineOption → List Str → Step
  | options, [] => Step.next options
  | options, arg :: rest =>
    if arg = [] then Step.ret false options
    else if arg.head? = some '-' then
      match dashArg options arg with
      | Step.next options1 => mainLoop options1 rest
      | other => other
    else
      match GetPositionalArgument options with
      | Except.error e => Step.throw e options
      | Except.ok (i, opt) =>
        match positionalLoop opt (arg :: rest) with
        | Res.throws e opt1 => Step.throw e (options.set i opt1)
        | Res.ok opt1 => Step.next (options.set i opt1)

/-- Embeds `Parse(const std::vector<std::string>& args)`: the verdict and the parser state.
An exception leaving the loop is caught and turned into `false`; the validity check
stands after the `try` block. -/
def Parse (p : ArgParser) (args : List Str) : Outcome × ArgParser :=
  match args with
  | [] => (Outcome.returned false, p)
  | _ :: rest =>
    match mainLoop p.options rest with
    | Step.next options1 =>
      ((validate options1).1, { p with options := (validate options1).2 })
    | Step.ret b options1 => (Outcome.returned b, { p with options := options1 })
    | Step.throw _ options1 => (Outcome.returned false, { p with options := options1 })
    | Step.undefined options1 => (Outcome.undefined, { p with options := options1 })

/-- Embeds `GetFlag(longOpt)`. -/
def GetFlag (p : ArgParser) (longOpt : Str) : Except Exn Bool :=
  match GetOptionLong p.options longOpt with
  | Except.error e => Except.error e
  | Except.ok (_, opt) => opt.GetFlag

/-- Embeds `GetIntValue(longOpt)`. -/
def GetIntValue (p : ArgParser) (longOpt : Str) : Except Exn Int :=
  match GetOptionLong p.options longOpt with
  | Except.error e => Except.error e
  | Except.ok (_, opt) => opt.GetInt

/-- Embeds `GetIntValue(longOpt, pos)`. -/
def GetIntValueAt (p : ArgParser) (longOpt : Str) (pos : Nat) : Except Exn Int :=
  match GetOptionLong p.options longOpt with
  | Except.error e => Except.error e
  | Except.ok (_, opt) => opt.GetIntAt pos

/-- Embeds `GetStringValue(longOpt)`. -/
def GetStringValue (p : ArgParser) (longOpt : Str) : Except Exn Str :=
  match GetOptionLong p.options longOpt with
  | Except.error e => Except.error e
  | Except.ok (_, opt) => opt.GetString

/-- Embeds `GetStringValue(longOpt, pos)`. -/
def GetStringValueAt (p : ArgParser) (longOpt : Str) (pos : Nat) : Except Exn Str :=
  match GetOptionLong p.options longOpt with
  | Except.error e => Except.error e
  | Except.ok (_, opt) => opt.GetStringAt pos

/-- Embeds `Help()`. -/
def Help (p : ArgParser) : Except Exn Bool :=
  match GetHelpOption p.options with
  | Except.error e => Except.error e
  | Except.ok (_, opt) => opt.GetFlag

/-- The state in which the main loop stands in front of the token that follows `pre`:
defined when every token of `pre` is an option token (it starts with `-`) that was
processed without a failure and without a Help activation. -/
def arrive : List CommandLineOption → List Str → Option (List CommandLineOption)
  | options, [] => some options
  | options, arg :: rest =>
    if arg.head? = some '-' then
      match dashArg options arg with
      | Step.next options1 => arrive options1 rest
      | _ => none
    else none

/-- What `Parse` yields when the token in front of `post` ends with the call result `r`
on option `i` of the options `s`: when the call returned, the walk goes on behind the
token; when it threw, `Parse` returns false. Either way option `i` is in the state that
the call left, and no other option has changed. -/
def afterAssignment (p : ArgParser) (prog : Str) (post : List Str)
    (s : List CommandLineOption) (i : Nat) (r : Res CommandLineOption) : Outcome × ArgParser :=
  match r with
  | Res.ok o1 => Parse { p with options := s.set i o1 } (prog :: post)
  | Res.throws _ o1 => (Outcome.returned false, { p with options := s.set i o1 })

/-- One flag activation of the flag loop that neither fails nor meets Help: the option
that `shortOptName` resolves to ends in the state that `SetValue(true)` leaves. -/
def activate (options : List CommandLineOption) (shortOptName : Char) :
    List CommandLineOption :=
  match GetOption options shortOptName with
  | Except.error _ => options
  | Except.ok (i, opt) => options.set i (opt.SetValueBool true).state

end ArgParser

/-! ## Notions used to state the properties -/

/-- A numeric text in the plain sense: one optional sign, then decimal digits (at least
one), and nothing else. -/
def isNumeric (text : Str) : Bool :=
  decide (skipSign text ≠ []) && (skipSign text).all Char.isDigit

/-- Whether the text starts with a number for `std::stoi`: a decimal digit stands behind
the optional leading white space and the optional sign. -/
def hasNumericPrefix (text : Str) : Bool :=
  match skipSign (skipSpace text) with
  | c :: _ => c.isDigit
  | [] => false

/-! ## Registries used as concrete instances -/

/-- Flags `a`, `b` and a non-multi Integer option `x`. -/
def abxRegistry : ArgParser :=
  (((ArgParser.new "prog".toList).AddFlag 'a' "alpha".toList []).AddFlag 'b' "beta".toList
    []).AddIntArgument 'x' "xray".toList []

/-- Flags `a`, `b`, `c`. -/
def abcRegistry : ArgParser :=
  (((ArgParser.new "prog".toList).AddFlag 'a' "alpha".toList []).AddFlag 'b' "beta".toList
    []).AddFlag 'c' "gamma".toList []

/-- One non-multi Integer option `count` with short name `c`. -/
def countRegistry : ArgParser :=
  (ArgParser.new "prog".toList).AddIntArgument 'c' "count".toList []

/-- One non-multi Integer option whose short name is the character `-`. -/
def dashNameRegistry : ArgParser :=
  (ArgParser.new "prog".toList).AddIntArgument '-' "negative".toList []

/-- One non-multi Integer option whose short name is the character `=`. -/
def eqNameRegistry : ArgParser :=
  (ArgParser.new "prog".toList).AddIntArgument '=' "equals".toList []

/-- One non-multi String option, without short name, whose long name contains `=`. -/
def eqLongRegistry : ArgParser :=
  (ArgParser.new "prog".toList).AddStringArgument '\x00' "a=b".toList []

/-- One flag whose short name is the character `-`. -/
def dashFlagRegistry : ArgParser :=
  (ArgParser.new "prog".toList).AddFlag '-' "dash".toList []

/-- Flag `v`, the multi-value String option `f` with `MultiValue(1)`, and Help `h`. -/
def helpRegistry : ArgParser :=
  { program_name := "prog".toList
    options :=
      [CommandLineOption.new OptionType.FlagOption 'v' "verbose".toList [],
       ((CommandLineOption.new OptionType.StringOption 'f' "file".toList []).MultiValue 1).state,
       CommandLineOption.new OptionType.HelpOption 'h' "help".toList []] }

/-- The registry of the example in `ArgParser.cpp`: flags `sum` and `mult` without short
names, the multi-value positional Integer option `N` with `MultiValue(1)`, and Help. -/
def sumRegistry : ArgParser :=
  { program_name := "Program".toList
    options :=
      [CommandLineOption.new OptionType.FlagOption '\x00' "sum".toList "add args".toList,
       CommandLineOption.new OptionType.FlagOption '\x00' "mult".toList "multiply args".toList,
       (((CommandLineOption.new OptionType.IntegerOption '\x00' "N".toList []).MultiValue
          1).state.Positional).state,
       CommandLineOption.new OptionType.HelpOption 'h' "help".toList
         "Program accumulate arguments".toList] }

/-! ## Further notions used to state the properties -/

/-- The number of values an option stores: the length of the sequence of a multi-value
option, and 0 or 1 for a single value. -/
def CommandLineOption.valueCount (o : CommandLineOption) : Nat :=
  match o.argument_values with
  | ArgumentStorageType.value ValueType.monostate => 0
  | ArgumentStorageType.value _ => 1
  | ArgumentStorageType.array (ArrayType.bools v) => v.length
  | ArgumentStorageType.array (ArrayType.ints v) => v.length
  | ArgumentStorageType.array (ArrayType.strings v) => v.length

/-- The default, when there is one, has the kind of the option, as it does in every state
produced by the constructor, the builder calls and `SetValue`. -/
def CommandLineOption.defaultCoherent (o : CommandLineOption) : Bool :=
  match o.option_type, o.default_value with
  | _, ValueType.monostate => true
  | OptionType.FlagOption, ValueType.bool _ => true
  | OptionType.IntegerOption, ValueType.int _ => true
  | OptionType.StringOption, ValueType.string _ => true
  | _, _ => false

/-- The external binding, when there is one, has the cardinality of the option: a
variable for a non-multi option, a vector for a multi-value option. -/
def CommandLineOption.bindingMatches (o : CommandLineOption) : Bool :=
  match o.external_values with
  | ExternalStorageType.monostate => true
  | ExternalStorageType.valueRef _ => !o.is_multi_value
  | ExternalStorageType.arrayRef _ => o.is_multi_value

/-- The state of an option after the calls `SetValue(v1)`, ..., `SetValue(vn)` with `int`
arguments, each made on the state the call before it left. -/
def CommandLineOption.setEachInt (o : CommandLineOption) (vs : List Int) : CommandLineOption :=
  vs.foldl (fun acc v => (acc.SetValueInt v).state) o

/-- The state of an option after the calls `SetValue(v1)`, ..., `SetValue(vn)` with string
arguments, each made on the state the call before it left. -/
def CommandLineOption.setEachString (o : CommandLineOption) (vs : List Str) :
    CommandLineOption :=
  vs.foldl (fun acc v => (acc.SetValueString v).state) o

/-- The positional option `N` of `sumRegistry`: Integer, `MultiValue(1)`, `Positional()`. -/
def optionN : CommandLineOption :=
  (((CommandLineOption.new OptionType.IntegerOption '\x00' "N".toList []).MultiValue
    1).state.Positional).state

/-- A multi-value Integer option bound with `StoreValues` to a vector that holds `[9]` at
the time of the binding. -/
def prefilledOption : CommandLineOption :=
  (((CommandLineOption.new OptionType.IntegerOption 'n' "nums".toList []).MultiValue
    0).state.StoreValuesInt [9]).state

/-- A registry in which the same flag names are declared twice. -/
def duplicateRegistry : ArgParser :=
  ((ArgParser.new "prog".toList).AddFlag 'v' "verbose".toList []).AddFlag 'v' "verbose".toList
    "declared again".toList

/-- A registry with two positional options: `AddIntArgument('a', "first").Positional()`
and `AddStringArgument('b', "second").Positional()`. -/
def twoPositionalRegistry : ArgParser :=
  { program_name := "prog".toList
    options :=
      [(CommandLineOption.new OptionType.IntegerOption 'a' "first".toList []).Positional.state,
       (CommandLineOption.new OptionType.StringOption 'b' "second".toList
         []).Positional.state] }

/-- No `SetValue` made by the parser can throw after it has written: the option is
coherent and, unless it is a flag, its binding has the cardinality of the option. -/
def CommandLineOption.settled (o : CommandLineOption) : Bool :=
  o.Coherent && (o.bindingMatches || decide (o.option_type = OptionType.FlagOption))

/-- Flag `f` / `--flag` and the multi-value Integer option `n` / `--num` that is bound to
an `int` variable with `StoreValue`, a binding of the wrong cardinality. -/
def mismatchRegistry : ArgParser :=
  { program_name := "prog".toList
    options :=
      [CommandLineOption.new OptionType.FlagOption 'f' "flag".toList [],
       (((CommandLineOption.new OptionType.IntegerOption 'n' "num".toList []).MultiValue
          0).state.StoreValueInt 0).state] }

/-- Flag `f` / `--flag` and the non-multi Integer option `n` / `--num` with default 0. -/
def flagRegistry : ArgParser :=
  { program_name := "prog".toList
    options :=
      [CommandLineOption.new OptionType.FlagOption 'f' "flag".toList [],
       ((CommandLineOption.new OptionType.IntegerOption 'n' "num".toList []).DefaultInt
          0).state] }

/-- Flags with the short names `=` and `v`, and the flag `quiet` declared without a short
name (its short name is the null character). -/
def wrapRegistry : ArgParser :=
  (((ArgParser.new "prog".toList).AddFlag '=' "equals".toList []).AddFlag 'v' "verbose".toList
    []).AddFlag '\x00' "quiet".toList []

/-- A flag on which `MultiValue(1)` was called; the call threw and the exception was
caught by the caller. -/
def multiFlag : CommandLineOption :=
  ((CommandLineOption.new OptionType.FlagOption 'v' "verbose".toList []).MultiValue 1).state

/-- The Help option on which `MultiValue(1)` was called; the call threw and the exception
was caught by the caller. -/
def multiHelp : CommandLineOption :=
  ((CommandLineOption.new OptionType.HelpOption 'h' "help".toList []).MultiValue 1).state

/-- A multi-value Integer option bound to an `int` variable: `MultiValue(0)` followed by
`StoreValue(x)`, both successful. -/
def scalarBoundMulti : CommandLineOption :=
  (((CommandLineOption.new OptionType.IntegerOption 'n' "num".toList []).MultiValue
    0).state.StoreValueInt 0).state

/-- A non-multi String option bound to a vector with `StoreValues(v)`, successful. -/
def vectorBoundSingle : CommandLineOption :=
  ((CommandLineOption.new OptionType.StringOption 's' "name".toList []).StoreValuesString
    []).state

/-- One flag on which `MultiValue(1)` was called (the exception caught by the caller). -/
def multiFlagRegistry : ArgParser :=
  { program_name := "prog".toList, options := [multiFlag] }

/-- How `SetValue(int)` or `SetValue(string)` treats `argument_values`: 1 when the option
holds the sequence of its own kind and the value is appended, 2 when it holds another
sequence and the access throws, 0 when a single value is (over)written; `SetValue(bool)`
always overwrites. -/
def CommandLineOption.storeKind (o : CommandLineOption) : Nat :=
  match o.option_type, o.argument_values with
  | OptionType.IntegerOption, ArgumentStorageType.array (ArrayType.ints _) => 1
  | OptionType.IntegerOption, ArgumentStorageType.array _ => 2
  | OptionType.StringOption, ArgumentStorageType.array (ArrayType.strings _) => 1
  | OptionType.StringOption, ArgumentStorageType.array _ => 2
  | _, _ => 0

/-- Which alternative `external_values` holds, whatever the contents of the referent. -/
def extKind : ExternalStorageType → Nat
  | ExternalStorageType.monostate => 0
  | ExternalStorageType.valueRef (ValueRefType.bool _) => 1
  | ExternalStorageType.valueRef (ValueRefType.int _) => 2
  | ExternalStorageType.valueRef (ValueRefType.string _) => 3
  | ExternalStorageType.arrayRef (ArrayRefType.bools _) => 4
  | ExternalStorageType.arrayRef (ArrayRefType.ints _) => 5
  | ExternalStorageType.arrayRef (ArrayRefType.strings _) => 6

/-- The part of an option that the walk of `Parse` can depend on: kind, names, the
positional and multi-value marks, and the alternatives held by the two storages; not the
values stored so far. -/
def CommandLineOption.shape (o : CommandLineOption) :
    OptionType × Char × Str × Bool × Bool × Nat × Nat :=
  (o.option_type, o.short_opt, o.long_opt, o.is_positional, o.is_multi_value, o.storeKind,
    extKind o.external_values)

/-- The sequence stored by an Integer option (empty for anything else). -/
def CommandLineOption.storedInts (o : CommandLineOption) : List Int :=
  match o.option_type, o.argument_values with
  | OptionType.IntegerOption, ArgumentStorageType.array (ArrayType.ints v) => v
  | _, _ => []

/-- The sequence stored by a String option (empty for anything else). -/
def CommandLineOption.storedStrings (o : CommandLineOption) : List Str :=
  match o.option_type, o.argument_values with
  | OptionType.StringOption, ArgumentStorageType.array (ArrayType.strings v) => v
  | _, _ => []

/-- The exception of a call, `none` when it returned. -/
def Res.kind {σ : Type} : Res σ → Option Exn
  | .ok _ => none
  | .throws e _ => some e

/-- A call on an option is uniform when it keeps the shape, and its outcome and the values
it appends to the stored sequences are the same for two options of one shape. -/
def Uniform (f : CommandLineOption → Res CommandLineOption) : Prop :=
  ∀ o o1 : CommandLineOption, o.shape = o1.shape →
    (f o).kind = (f o1).kind ∧ (f o).state.shape = o.shape ∧ (f o1).state.shape = o1.shape ∧
    ∃ (d : List Int) (e : List Str),
      (f o).state.storedInts = o.storedInts ++ d ∧
      (f o1).state.storedInts = o1.storedInts ++ d ∧
      (f o).state.storedStrings = o.storedStrings ++ e ∧
      (f o1).state.storedStrings = o1.storedStrings ++ e

/-- Two runs that started from the options `t` and `t1` stand at `u` and `u1`: the
shapes are those of the start, and at every position both runs have appended the same
values to the stored sequences. -/
def Grown (t t1 u u1 : List CommandLineOption) : Prop :=
  u.map CommandLineOption.shape = t.map CommandLineOption.shape ∧
  u1.map CommandLineOption.shape = t1.map CommandLineOption.shape ∧
  ∀ (k : Nat) (o o1 q q1 : CommandLineOption),
    t[k]? = some o → t1[k]? = some o1 → u[k]? = some q → u1[k]? = some q1 →
    ∃ (d : List Int) (e : List Str),
      q.storedInts = o.storedInts ++ d ∧ q1.storedInts = o1.storedInts ++ d ∧
      q.storedStrings = o.storedStrings ++ e ∧ q1.storedStrings = o1.storedStrings ++ e

/-- Two runs from `t` and `t1` end one step in the same way, with options grown alike. -/
def Twin (t t1 : List CommandLineOption) : Step → Step → Prop
  | Step.next u, Step.next u1 => Grown t t1 u u1
  | Step.ret b u, Step.ret b1 u1 => b = b1 ∧ Grown t t1 u u1
  | Step.throw e u, Step.throw e1 u1 => e = e1 ∧ Grown t t1 u u1
  | Step.undefined u, Step.undefined u1 => Grown t t1 u u1
  | _, _ => False

/-- The options carried by a step. -/
def Step.options : Step → List CommandLineOption
  | Step.next u => u
  | Step.ret _ u => u
  | Step.throw _ u => u
  | Step.undefined u => u

/-- The values that `SetValueOption(option, value)` appends to the stored Integer
sequence of the option: the converted value when the option is an Integer option holding
a sequence of integers, nothing otherwise. -/
def CommandLineOption.contribInts (o : CommandLineOption) (value : Str) : List Int :=
  if o.option_type = OptionType.IntegerOption ∧ o.storeKind = 1 then
    match stoi value with
    | Except.ok v => [v]
    | Except.error _ => []
  else []

/-- The values that `SetValueOption(option, value)` appends to the stored String
sequence of the option. -/
def CommandLineOption.contribStrings (o : CommandLineOption) (value : Str) : List Str :=
  if o.option_type = OptionType.StringOption ∧ o.storeKind = 1 then [value] else []

/-- The registry `sumRegistry` after one pass over the tokens "Program", "9". -/
def usedRegistry : ArgParser :=
  (ArgParser.Parse sumRegistry ["Program".toList, "9".toList]).2

/-- Whether a step stayed within defined behaviour. -/
def Step.defined : Step → Bool
  | Step.undefined _ => false
  | _ => true

/-- The positions of a short-form token that lie within the bounds written in `Parse`:
`arg[j]` for `1 <= j < flagCount`, and `arg[eq_pos - 1]` when the token has a value. -/
def ArgParser.mayRead (arg : Str) (pos : Nat) : Prop :=
  (1 ≤ pos ∧ pos < ArgParser.flagCount arg (ArgParser.eqPos arg)) ∨
    (ArgParser.flagCount arg (ArgParser.eqPos arg) ≠ ArgParser.eqPos arg ∧
      pos = ArgParser.eqPos arg - 1)

/-- The number that a text starts with, for a text with a numeric prefix: the value of
the longest run of decimal digits behind the optional leading white space and the
optional sign, negated when the sign is '-'. -/
def leadingNumber (text : Str) : Int :=
  if (skipSpace text).head? = some '-' then
    -(digitsValue ((skipSign (skipSpace text)).takeWhile Char.isDigit) : Int)
  else (digitsValue ((skipSign (skipSpace text)).takeWhile Char.isDigit) : Int)

/-! ## Supporting lemmas -/

open ArgParser

theorem find_eq_none_of_not_mem (c : Char) (xs : Str) (h : c ∉ xs) : find xs c = none := by
  induction xs with
  | nil => rfl
  | cons x xs ih =>
    have hx : x ≠ c := fun e => h (by simp [e])
    have hxs : c ∉ xs := fun e => h (by simp [e])
    simp [find, hx, ih hxs]

theorem find_append_of_not_mem (c : Char) (xs ys : Str) (h : c ∉ xs) :
    find (xs ++ c :: ys) c = some xs.length := by
  induction xs with
  | nil => simp [find]
  | cons x xs ih =>
    have hx : x ≠ c := fun e => h (by simp [e])
    have hxs : c ∉ xs := fun e => h (by simp [e])
    simp [find, hx, ih hxs]

theorem mainLoop_of_arrive (rest : List Str) :
    ∀ (pre : List Str) (options s : List CommandLineOption),
      arrive options pre = some s → mainLoop options (pre ++ rest) = mainLoop s rest := by
  intro pre
  induction pre with
  | nil =>
    intro options s h
    simp [arrive] at h
    simp [h]
  | cons arg pre ih =>
    intro options s h
    have hne : arg ≠ [] := by
      intro e
      simp [arrive, e] at h
    by_cases hd : arg.head? = some '-'
    · simp only [arrive, hd, if_true] at h
      cases hstep : dashArg options arg with
      | next options1 =>
        rw [hstep] at h
        simp only [List.cons_append, mainLoop, hne, hd, if_true, if_false, hstep]
        exact ih options1 s h
      | ret b o => rw [hstep] at h; simp at h
      | throw e o => rw [hstep] at h; simp at h
      | undefined o => rw [hstep] at h; simp at h
    · simp [arrive, hd] at h

theorem Parse_of_arrive (p : ArgParser) (prog : Str) (pre rest : List Str)
    (s : List CommandLineOption) (h : arrive p.options pre = some s) :
    Parse p (prog :: (pre ++ rest)) =
      match mainLoop s rest with
      | Step.next options1 =>
        ((validate options1).1, { p with options := (validate options1).2 })
      | Step.ret b options1 => (Outcome.returned b, { p with options := options1 })
      | Step.throw _ options1 => (Outcome.returned false, { p with options := options1 })
      | Step.undefined options1 => (Outcome.undefined, { p with options := options1 }) := by
  simp only [Parse, mainLoop_of_arrive rest pre p.options s h]

theorem Parse_continue (p : ArgParser) (prog : Str) (pre rest : List Str)
    (s : List CommandLineOption) (h : arrive p.options pre = some s) :
    Parse p (prog :: (pre ++ rest)) = Parse { p with options := s } (prog :: rest) := by
  rw [Parse_of_arrive p prog pre rest s h]
  rfl

theorem all_of_IsValid_eq_true (l : List CommandLineOption) :
    all_of_IsValid l = Except.ok true ↔ ∀ o ∈ l, o.IsValid = Except.ok true := by
  induction l with
  | nil => simp [all_of_IsValid]
  | cons o l ih =>
    simp only [all_of_IsValid, List.mem_cons, forall_eq_or_imp]
    cases h : o.IsValid with
    | error e => simp
    | ok b => cases b <;> simp [ih]

theorem IsValid_of_Coherent (o : CommandLineOption) (h : o.Coherent = true) :
    ∃ b, o.IsValid = Except.ok b := by
  obtain ⟨ty, sh, lo, de, dv, av, ev, ip, mv, mn⟩ := o
  cases ty <;> cases mv <;> rcases av with (_ | _ | _ | _) | (_ | _ | _) <;>
    simp_all [CommandLineOption.Coherent, CommandLineOption.storageCoherent,
      CommandLineOption.IsValid, CommandLineOption.storedCount] <;>
    omega

theorem all_of_IsValid_eq_false (l : List CommandLineOption)
    (hl : ∀ o ∈ l, o.Coherent = true) :
    all_of_IsValid l = Except.ok false ↔ ∃ o ∈ l, o.IsValid = Except.ok false := by
  induction l with
  | nil => simp [all_of_IsValid]
  | cons o l ih =>
    have ih1 := ih (fun x hx => hl x (List.mem_cons_of_mem _ hx))
    obtain ⟨b, hb⟩ := IsValid_of_Coherent o (hl o (List.mem_cons_self _ _))
    cases b <;> simp [all_of_IsValid, hb, ih1]

theorem eqPos_long_value (name v : Str) (hname : '=' ∉ name) :
    eqPos ('-' :: '-' :: (name ++ '=' :: v)) = name.length + 2 := by
  simp [eqPos, find, find_append_of_not_mem '=' name v hname]

theorem eqPos_of_not_mem (arg : Str) (h : '=' ∉ arg) : eqPos arg = arg.length := by
  simp [eqPos, find_eq_none_of_not_mem '=' arg h]

theorem dashArg_long_value (s : List CommandLineOption) (name v : Str)
    (hname : '=' ∉ name) (hv : v ≠ []) :
    dashArg s ('-' :: '-' :: (name ++ '=' :: v)) =
      match GetOptionLong s name with
      | Except.error e => Step.throw e s
      | Except.ok (i, opt) =>
        match SetValueOption opt v with
        | Res.throws e opt1 => Step.throw e (s.set i opt1)
        | Res.ok opt1 => Step.next (s.set i opt1) := by
  have hlen : 0 < v.length := List.length_pos.mpr hv
  have h1 : ¬ (name.length + (v.length + 1) + 1 + 1 < 2) := by omega
  have h2 : ¬ (name.length + 2 = name.length + (v.length + 1) + 1 + 1 - 1) := by omega
  have h3 : ¬ (name.length + (v.length + 1) + 1 + 1 < 3) := by omega
  have h4 : ¬ (name.length + 2 = name.length + (v.length + 1) + 1 + 1) := by omega
  have h5 : ¬ (name.length + (v.length + 1) + 1 + 1 < name.length + 2 + 1) := by omega
  simp only [dashArg, eqPos_long_value name v hname, List.length_cons, List.length_append,
    h1, h2, if_false, List.get?_cons_succ, List.get?_cons_zero, if_true, longOption, h3, substr,
    h4, h5]
  simp

theorem dashArg_long_flag (s : List CommandLineOption) (name : Str)
    (hname : '=' ∉ name) (hne : name ≠ []) :
    dashArg s ('-' :: '-' :: name) =
      match GetOptionLong s name with
      | Except.error e => Step.throw e s
      | Except.ok (i, opt) =>
        match SetFlagOption opt with
        | Res.throws e opt1 => Step.throw e (s.set i opt1)
        | Res.ok opt1 =>
          if opt1.option_type = OptionType.HelpOption then Step.ret true (s.set i opt1)
          else Step.next (s.set i opt1) := by
  have hlen : 0 < name.length := List.length_pos.mpr hne
  have hmem : '=' ∉ '-' :: '-' :: name := by
    simp only [List.mem_cons, not_or]
    exact ⟨by decide, by decide, hname⟩
  have h1 : ¬ (name.length + 1 + 1 < 2) := by omega
  have h2 : ¬ (name.length + 1 + 1 = name.length + 1 + 1 - 1) := by omega
  have h3 : ¬ (name.length + 1 + 1 < 3) := by omega
  simp only [dashArg, eqPos_of_not_mem _ hmem, List.length_cons, h1, h2, if_false,
    List.get?_cons_succ, List.get?_cons_zero, if_true, longOption, h3, substr]
  simp

theorem dashArg_short (s : List CommandLineOption) (c : Char) (cs : Str) (hc : c ≠ '-')
    (heq : eqPos ('-' :: c :: cs) ≠ cs.length + 1) :
    dashArg s ('-' :: c :: cs) = shortOption s ('-' :: c :: cs) (eqPos ('-' :: c :: cs)) := by
  have h1 : ¬ (cs.length + 1 + 1 < 2) := by omega
  have h2 : ¬ (eqPos ('-' :: c :: cs) = cs.length + 1 + 1 - 1) := by
    intro h; exact heq (by omega)
  simp only [dashArg, List.length_cons, h1, h2, if_false, List.get?_cons_succ,
    List.get?_cons_zero]
  simp [hc]

theorem flagLoop_add (arg : Str) (m n : Nat) :
    ∀ (j : Nat) (s : List CommandLineOption),
      flagLoop arg (m + n) j s =
        match flagLoop arg m j s with
        | Step.next s1 => flagLoop arg n (j + m) s1
        | other => other := by
  induction m with
  | zero => intro j s; simp [flagLoop]
  | succ m ih =>
    intro j s
    have e : m + 1 + n = (m + n) + 1 := by omega
    rw [e]
    simp only [flagLoop]
    cases charAt arg j with
    | none => rfl
    | some ch =>
      simp only
      cases GetOption s ch with
      | error e => rfl
      | ok r =>
        obtain ⟨i, opt⟩ := r
        simp only
        cases SetFlagOption opt with
        | throws e o1 => rfl
        | ok o1 =>
          simp only
          by_cases hh : o1.option_type = OptionType.HelpOption
          · simp [hh]
          · simp only [hh, if_false]
            rw [ih (j + 1) (s.set i o1)]
            have e2 : j + 1 + m = j + (m + 1) := by omega
            rw [e2]

theorem size_t_sub_two_ne (e : Nat) : size_t_sub e 2 ≠ e := by
  unfold size_t_sub
  omega

theorem find_lt_length (c : Char) : ∀ (xs : Str) (e : Nat), find xs c = some e → e < xs.length := by
  intro xs
  induction xs with
  | nil => intro e h; simp [find] at h
  | cons x xs ih =>
    intro e h
    by_cases hx : x = c
    · simp [find, hx] at h
      subst h
      simp
    · simp only [find, hx, if_false, Option.map_eq_some'] at h
      obtain ⟨a, ha, rfl⟩ := h
      have := ih a ha
      simp
      omega

theorem find_if_some {α : Type} (p : α → Bool) :
    ∀ (l : List α) (i : Nat) (x : α), find_if p l = some (i, x) →
      l[i]? = some x ∧ p x = true ∧ ∀ (j : Nat) (y : α), j < i → l[j]? = some y → p y = false := by
  intro l
  induction l with
  | nil => intro i x h; simp [find_if] at h
  | cons a l ih =>
    intro i x h
    by_cases ha : p a = true
    · simp only [find_if, ha, if_true, Option.some.injEq, Prod.mk.injEq] at h
      obtain ⟨rfl, rfl⟩ := h
      exact ⟨by simp, ha, fun j y hj => absurd hj (Nat.not_lt_zero j)⟩
    · simp only [find_if, ha, Bool.false_eq_true, if_false, Option.map_eq_some'] at h
      obtain ⟨⟨k, y⟩, hk, hy⟩ := h
      simp only [Prod.mk.injEq] at hy
      obtain ⟨rfl, rfl⟩ := hy
      obtain ⟨h1, h2, h3⟩ := ih k y hk
      refine ⟨by simpa using h1, h2, ?_⟩
      intro j z hj hz
      cases j with
      | zero =>
        simp at hz
        subst hz
        simpa using ha
      | succ j =>
        simp at hz
        exact h3 j z (by omega) hz

theorem find_if_none {α : Type} (p : α → Bool) :
    ∀ (l : List α), (∀ x ∈ l, p x = false) → find_if p l = none := by
  intro l
  induction l with
  | nil => intro _; rfl
  | cons a l ih =>
    intro h
    have ha : p a = false := h a (List.mem_cons_self _ _)
    simp [find_if, ha, ih (fun x hx => h x (List.mem_cons_of_mem _ hx))]

theorem set_of_getElem? {α : Type} :
    ∀ (l : List α) (i : Nat) (x : α), l[i]? = some x → l.set i x = l := by
  intro l
  induction l with
  | nil => intro i x h; simp at h
  | cons a l ih =>
    intro i x h
    cases i with
    | zero => simp at h; simp [h]
    | succ i => simp at h; simp [ih i x h]

theorem GetOption_some (s : List CommandLineOption) (ch : Char) (i : Nat)
    (opt : CommandLineOption) (h : GetOption s ch = Except.ok (i, opt)) :
    s[i]? = some opt ∧ opt.short_opt = ch := by
  unfold GetOption at h
  cases hf : find_if (fun o : CommandLineOption => decide (o.short_opt = ch)) s with
  | none => simp [hf] at h
  | some r =>
    simp only [hf, Except.ok.injEq] at h
    subst h
    obtain ⟨h1, h2, _⟩ := find_if_some _ s i opt hf
    exact ⟨h1, by simpa using h2⟩

theorem GetOptionLong_some (s : List CommandLineOption) (name : Str) (i : Nat)
    (opt : CommandLineOption) (h : GetOptionLong s name = Except.ok (i, opt)) :
    s[i]? = some opt ∧ opt.long_opt = name := by
  unfold GetOptionLong at h
  cases hf : find_if (fun o : CommandLineOption => decide (o.long_opt = name)) s with
  | none => simp [hf] at h
  | some r =>
    simp only [hf, Except.ok.injEq] at h
    subst h
    obtain ⟨h1, h2, _⟩ := find_if_some _ s i opt hf
    exact ⟨h1, by simpa using h2⟩

theorem SetValueOption_of_flag (opt : CommandLineOption) (v : Str)
    (h : opt.option_type = OptionType.FlagOption ∨ opt.option_type = OptionType.HelpOption) :
    SetValueOption opt v = Res.throws Exn.logic_error opt := by
  rcases h with h | h <;> simp [SetValueOption, h]

theorem shortOption_value (s s1 : List CommandLineOption) (arg : Str) (e : Nat)
    (hfind : find arg '=' = some e)
    (hloop : flagLoop arg (flagCount arg e - 1) 1 s = Step.next s1) :
    shortOption s arg e =
      match charAt arg (e - 1) with
      | none => Step.undefined s1
      | some ch =>
        match GetOption s1 ch with
        | Except.error ex => Step.throw ex s1
        | Except.ok (i, opt) =>
          match SetValueOption opt (arg.drop (e + 1)) with
          | Res.throws ex opt1 => Step.throw ex (s1.set i opt1)
          | Res.ok opt1 => Step.next (s1.set i opt1) := by
  have hlt : e < arg.length := find_lt_length '=' arg e hfind
  have hfc : flagCount arg e ≠ e := by
    have hne : e ≠ arg.length := by omega
    simp only [flagCount, hne, if_false]
    exact size_t_sub_two_ne e
  have hsub : ¬ (arg.length < e + 1) := by omega
  simp only [shortOption, hloop, hfc, ne_eq, not_false_eq_true, if_true, substr, hsub, if_false]

theorem stoi_of_no_numeric_prefix (text : Str) (h : hasNumericPrefix text = false) :
    stoi text = Except.error Exn.invalid_argument := by
  unfold hasNumericPrefix at h
  have hd : (skipSign (skipSpace text)).takeWhile Char.isDigit = [] := by
    cases hs : skipSign (skipSpace text) with
    | nil => rfl
    | cons c r =>
      rw [hs] at h
      simp only at h
      simp [List.takeWhile, h]
  simp [stoi, hd]

theorem SetValueOption_of_no_numeric_prefix (opt : CommandLineOption) (text : Str)
    (hty : opt.option_type = OptionType.IntegerOption) (h : hasNumericPrefix text = false) :
    SetValueOption opt text = Res.throws Exn.invalid_argument opt := by
  simp [SetValueOption, hty, stoi_of_no_numeric_prefix text h]

theorem dashArg_short_single_value (s : List CommandLineOption) (x : Char) (v : Str)
    (hx : x ≠ '-') (hxe : x ≠ '=') (hv : v ≠ []) :
    dashArg s ('-' :: x :: '=' :: v) =
      match GetOption s x with
      | Except.error e => Step.throw e s
      | Except.ok (i, opt) =>
        match SetValueOption opt v with
        | Res.throws e opt1 => Step.throw e (s.set i opt1)
        | Res.ok opt1 => Step.next (s.set i opt1) := by
  have hlen : 0 < v.length := List.length_pos.mpr hv
  have hfind : find ('-' :: x :: '=' :: v) '=' = some 2 := by
    simp [find, hxe]
  have hep : eqPos ('-' :: x :: '=' :: v) = 2 := by simp [eqPos, hfind]
  have hfc : flagCount ('-' :: x :: '=' :: v) 2 = 0 := by
    have hne : ¬ (2 = v.length + 1 + 1 + 1) := by omega
    simp [flagCount, hne, size_t_sub]
  have hloop : flagLoop ('-' :: x :: '=' :: v) (flagCount ('-' :: x :: '=' :: v) 2 - 1) 1 s
      = Step.next s := by
    rw [hfc]
    rfl
  rw [dashArg_short s x ('=' :: v) hx (by rw [hep]; simp only [List.length_cons]; omega), hep,
    shortOption_value s s _ 2 hfind hloop]
  simp [charAt]

theorem mainLoop_dash_cons (s : List CommandLineOption) (c : Char) (cs : Str)
    (post : List Str) :
    mainLoop s (('-' :: c :: cs) :: post) =
      match dashArg s ('-' :: c :: cs) with
      | Step.next options1 => mainLoop options1 post
      | other => other := by
  have hne : ('-' :: c :: cs) ≠ [] := by simp
  simp only [mainLoop, hne, if_false, List.head?_cons, if_true]

theorem Parse_value_token (p : ArgParser) (prog : Str) (pre post : List Str) (c : Char)
    (cs : Str) (s : List CommandLineOption) (i : Nat) (r : Res CommandLineOption)
    (harr : arrive p.options pre = some s)
    (hstep : dashArg s ('-' :: c :: cs) =
      match r with
      | Res.throws e opt1 => Step.throw e (s.set i opt1)
      | Res.ok opt1 => Step.next (s.set i opt1)) :
    Parse p (prog :: (pre ++ ('-' :: c :: cs) :: post)) = afterAssignment p prog post s i r := by
  rw [Parse_of_arrive p prog pre _ s harr, mainLoop_dash_cons, hstep]
  cases r with
  | ok o1 => rfl
  | throws e o1 => rfl

theorem GetOption_unknown (s : List CommandLineOption) (ch : Char)
    (h : ∀ o ∈ s, o.short_opt ≠ ch) : GetOption s ch = Except.error Exn.logic_error := by
  have := find_if_none (fun o : CommandLineOption => decide (o.short_opt = ch)) s
    (fun o ho => by simpa using h o ho)
  simp [GetOption, this]

theorem GetOptionLong_unknown (s : List CommandLineOption) (name : Str)
    (h : ∀ o ∈ s, o.long_opt ≠ name) : GetOptionLong s name = Except.error Exn.logic_error := by
  have := find_if_none (fun o : CommandLineOption => decide (o.long_opt = name)) s
    (fun o ho => by simpa using h o ho)
  simp [GetOptionLong, this]

theorem SetValueBool_short_opt (o o1 : CommandLineOption) (b : Bool)
    (h : o.SetValueBool b = Res.ok o1) : o1.short_opt = o.short_opt := by
  simp only [CommandLineOption.SetValueBool] at h
  split at h
  · simp at h
  · split at h <;> simp at h <;> subst h <;> rfl

theorem SetFlagOption_short_opt (o o1 : CommandLineOption)
    (h : SetFlagOption o = Res.ok o1) : o1.short_opt = o.short_opt := by
  unfold SetFlagOption at h
  split at h
  · simp at h
  · exact SetValueBool_short_opt o o1 true h

theorem map_set_of_eq {α β : Type} (f : α → β) :
    ∀ (l : List α) (i : Nat) (x y : α), l[i]? = some x → f y = f x →
      (l.set i y).map f = l.map f := by
  intro l
  induction l with
  | nil => intro i x y h; simp at h
  | cons a l ih =>
    intro i x y h hf
    cases i with
    | zero =>
      simp at h
      subst h
      simp [hf]
    | succ i =>
      simp at h
      simp [ih i x y h hf]

theorem flagLoop_short_opts (arg : Str) :
    ∀ (n j : Nat) (s s1 : List CommandLineOption), flagLoop arg n j s = Step.next s1 →
      s1.map (fun o => o.short_opt) = s.map (fun o => o.short_opt) := by
  intro n
  induction n with
  | zero =>
    intro j s s1 h
    simp [flagLoop] at h
    rw [h]
  | succ n ih =>
    intro j s s1 h
    simp only [flagLoop] at h
    cases hc : charAt arg j with
    | none => simp [hc] at h
    | some ch =>
      simp only [hc] at h
      cases hg : GetOption s ch with
      | error e => simp [hg] at h
      | ok r =>
        obtain ⟨i, opt⟩ := r
        simp only [hg] at h
        cases hf : SetFlagOption opt with
        | throws e o1 => simp [hf] at h
        | ok o1 =>
          simp only [hf] at h
          by_cases hh : o1.option_type = OptionType.HelpOption
          · simp [hh] at h
          · simp only [hh, if_false] at h
            rw [ih (j + 1) _ s1 h]
            exact map_set_of_eq _ s i opt o1 (GetOption_some s ch i opt hg).1
              (SetFlagOption_short_opt opt o1 hf)

theorem short_opt_unknown_of_map (s s1 : List CommandLineOption) (ch : Char)
    (hmap : s1.map (fun o => o.short_opt) = s.map (fun o => o.short_opt))
    (h : ∀ o ∈ s, o.short_opt ≠ ch) : ∀ o ∈ s1, o.short_opt ≠ ch := by
  intro o ho
  have hm : o.short_opt ∈ s1.map (fun o => o.short_opt) := List.mem_map_of_mem _ ho
  rw [hmap] at hm
  obtain ⟨o', ho', he⟩ := List.mem_map.mp hm
  rw [← he]
  exact h o' ho'

theorem flagLoop_at (arg : Str) (fc j : Nat) (s s1 : List CommandLineOption)
    (h1 : 1 ≤ j) (h2 : j < fc) (hloop : flagLoop arg (j - 1) 1 s = Step.next s1) :
    flagLoop arg (fc - 1) 1 s = flagLoop arg (fc - 1 - j + 1) j s1 := by
  have e : fc - 1 = (j - 1) + (fc - 1 - j + 1) := by omega
  rw [e, flagLoop_add, hloop]
  have e2 : 1 + (j - 1) = j := by omega
  simp only [e2]
  congr 1
  omega

theorem shortOption_of_loop_stop (s : List CommandLineOption) (arg : Str) (e : Nat) (r : Step)
    (hr : ∀ s1, r ≠ Step.next s1)
    (hloop : flagLoop arg (flagCount arg e - 1) 1 s = r) : shortOption s arg e = r := by
  unfold shortOption
  rw [hloop]
  cases r with
  | next s1 => exact absurd rfl (hr s1)
  | ret b o => rfl
  | throw ex o => rfl
  | undefined o => rfl

theorem SetFlagOption_help (h : CommandLineOption)
    (hty : h.option_type = OptionType.HelpOption) (hco : h.Coherent = true) :
    SetFlagOption h =
      Res.ok { h with argument_values := ArgumentStorageType.value (ValueType.bool true) } := by
  obtain ⟨ty, sh, lo, de, dv, av, ev, ip, mv, mn⟩ := h
  simp only at hty
  subst hty
  rcases ev with _ | (_ | _ | _) | (_ | _ | _) <;>
    simp_all [CommandLineOption.Coherent, CommandLineOption.bindingCoherent, SetFlagOption,
      CommandLineOption.SetValueBool]

theorem mainLoop_positional (s : List CommandLineOption) (c : Char) (cs : Str)
    (rest : List Str) (hc : c ≠ '-') :
    mainLoop s ((c :: cs) :: rest) =
      match GetPositionalArgument s with
      | Except.error e => Step.throw e s
      | Except.ok (i, opt) =>
        match positionalLoop opt ((c :: cs) :: rest) with
        | Res.throws e opt1 => Step.throw e (s.set i opt1)
        | Res.ok opt1 => Step.next (s.set i opt1) := by
  have hne : (c :: cs) ≠ [] := by simp
  simp only [mainLoop, hne, if_false, List.head?_cons, Option.some.injEq, hc]

theorem SetValueOption_int_array (opt o1 : CommandLineOption) (t : Str) (prev : List Int)
    (hty : opt.option_type = OptionType.IntegerOption)
    (hav : opt.argument_values = ArgumentStorageType.array (ArrayType.ints prev))
    (h : SetValueOption opt t = Res.ok o1) :
    ∃ v, stoi t = Except.ok v ∧ o1.option_type = OptionType.IntegerOption ∧
      o1.argument_values = ArgumentStorageType.array (ArrayType.ints (prev ++ [v])) := by
  simp only [SetValueOption, hty, if_true] at h
  cases hs : stoi t with
  | error e => simp [hs] at h
  | ok v =>
    refine ⟨v, rfl, ?_⟩
    simp only [hs, CommandLineOption.SetValueInt, hty, ne_eq, not_true_eq_false, if_false,
      CommandLineOption.storeInt, hav, CommandLineOption.mirrorInt] at h
    split at h
    · simp only [Res.ok.injEq] at h
      subst h
      exact ⟨rfl, rfl⟩
    · split at h
      · split at h
        · simp only [Res.ok.injEq] at h
          subst h
          exact ⟨rfl, rfl⟩
        · simp at h
      · split at h
        · simp only [Res.ok.injEq] at h
          subst h
          exact ⟨rfl, rfl⟩
        · simp at h

theorem positionalLoop_int_stored :
    ∀ (toks : List Str) (opt opt1 : CommandLineOption) (prev : List Int),
      opt.option_type = OptionType.IntegerOption →
      opt.argument_values = ArgumentStorageType.array (ArrayType.ints prev) →
      positionalLoop opt toks = Res.ok opt1 →
      ∃ vals, List.Forall₂ (fun t v => stoi t = Except.ok v) toks vals ∧
        opt1.argument_values = ArgumentStorageType.array (ArrayType.ints (prev ++ vals)) := by
  intro toks
  induction toks with
  | nil =>
    intro opt opt1 prev _ hav h
    simp only [positionalLoop, Res.ok.injEq] at h
    subst h
    exact ⟨[], List.Forall₂.nil, by simpa using hav⟩
  | cons t toks ih =>
    intro opt opt1 prev hty hav h
    simp only [positionalLoop] at h
    cases hs : SetValueOption opt t with
    | throws e o => simp [hs] at h
    | ok o =>
      simp only [hs] at h
      obtain ⟨v, hv, hty1, hav1⟩ := SetValueOption_int_array opt o t prev hty hav hs
      obtain ⟨vals, hvals, hst⟩ := ih o opt1 (prev ++ [v]) hty1 hav1 h
      exact ⟨v :: vals, List.Forall₂.cons hv hvals, by simpa using hst⟩

theorem SetValueOption_int_array_ok (opt : CommandLineOption) (t : Str) (v : Int)
    (prev : List Int)
    (hty : opt.option_type = OptionType.IntegerOption)
    (hav : opt.argument_values = ArgumentStorageType.array (ArrayType.ints prev))
    (hmv : opt.is_multi_value = true)
    (hev : opt.external_values = ExternalStorageType.monostate ∨
      ∃ w, opt.external_values = ExternalStorageType.arrayRef (ArrayRefType.ints w))
    (hs : stoi t = Except.ok v) :
    ∃ o1, SetValueOption opt t = Res.ok o1 ∧ o1.option_type = OptionType.IntegerOption ∧
      o1.argument_values = ArgumentStorageType.array (ArrayType.ints (prev ++ [v])) ∧
      o1.is_multi_value = true ∧
      (o1.external_values = ExternalStorageType.monostate ∨
        ∃ w, o1.external_values = ExternalStorageType.arrayRef (ArrayRefType.ints w)) := by
  rcases hev with hev | ⟨w, hev⟩
  · refine ⟨{ opt with argument_values := ArgumentStorageType.array (ArrayType.ints (prev ++ [v])) },
      ?_, hty, rfl, hmv, Or.inl hev⟩
    simp [SetValueOption, hty, hs, CommandLineOption.SetValueInt, CommandLineOption.storeInt,
      hav, CommandLineOption.mirrorInt, hev]
  · refine ⟨{ opt with
        argument_values := ArgumentStorageType.array (ArrayType.ints (prev ++ [v]))
        external_values := ExternalStorageType.arrayRef (ArrayRefType.ints (w ++ [v])) },
      ?_, hty, rfl, hmv, Or.inr ⟨_, rfl⟩⟩
    simp [SetValueOption, hty, hs, CommandLineOption.SetValueInt, CommandLineOption.storeInt,
      hav, CommandLineOption.mirrorInt, hev, hmv]

theorem positionalLoop_int_completes :
    ∀ (toks : List Str) (vals : List Int) (opt : CommandLineOption) (prev : List Int),
      opt.option_type = OptionType.IntegerOption →
      opt.argument_values = ArgumentStorageType.array (ArrayType.ints prev) →
      opt.is_multi_value = true →
      (opt.external_values = ExternalStorageType.monostate ∨
        ∃ w, opt.external_values = ExternalStorageType.arrayRef (ArrayRefType.ints w)) →
      List.Forall₂ (fun t v => stoi t = Except.ok v) toks vals →
      ∃ opt1, positionalLoop opt toks = Res.ok opt1 := by
  intro toks
  induction toks with
  | nil =>
    intro vals opt prev _ _ _ _ _
    exact ⟨opt, rfl⟩
  | cons t toks ih =>
    intro vals opt prev hty hav hmv hev hall
    cases hall with
    | cons hv hrest =>
      obtain ⟨o1, h1, hty1, hav1, hmv1, hev1⟩ :=
        SetValueOption_int_array_ok opt t _ prev hty hav hmv hev hv
      obtain ⟨opt1, h2⟩ := ih _ o1 _ hty1 hav1 hmv1 hev1 hrest
      exact ⟨opt1, by simp only [positionalLoop, h1, h2]⟩

theorem SetValueBool_state_short_opt (o : CommandLineOption) (b : Bool) :
    (o.SetValueBool b).state.short_opt = o.short_opt := by
  simp only [CommandLineOption.SetValueBool]
  split
  · rfl
  · split <;> rfl

theorem SetValueBool_state_type (o : CommandLineOption) (b : Bool) :
    (o.SetValueBool b).state.option_type = o.option_type := by
  simp only [CommandLineOption.SetValueBool]
  split
  · rfl
  · split <;> rfl

theorem SetValueBool_state_idem (o : CommandLineOption) (b : Bool) :
    ((o.SetValueBool b).state.SetValueBool b).state = (o.SetValueBool b).state := by
  obtain ⟨ty, sh, lo, de, dv, av, ev, ip, mv, mn⟩ := o
  cases ty <;> rcases ev with _ | (_ | _ | _) | (_ | _ | _) <;>
    simp [CommandLineOption.SetValueBool, Res.state]

theorem SetValueBool_state_coherent (o : CommandLineOption) (b : Bool)
    (hty : o.option_type = OptionType.FlagOption) (hco : o.Coherent = true) :
    (o.SetValueBool b).state.Coherent = true := by
  obtain ⟨ty, sh, lo, de, dv, av, ev, ip, mv, mn⟩ := o
  simp only at hty
  subst hty
  rcases ev with _ | (_ | _ | _) | (_ | _ | _) <;>
    simp_all [CommandLineOption.Coherent, CommandLineOption.bindingCoherent,
      CommandLineOption.storageCoherent, CommandLineOption.SetValueBool, Res.state]

theorem SetValueBool_state_GetFlag (o : CommandLineOption)
    (hty : o.option_type = OptionType.FlagOption) :
    (o.SetValueBool true).state.GetFlag = Except.ok true := by
  obtain ⟨ty, sh, lo, de, dv, av, ev, ip, mv, mn⟩ := o
  simp only at hty
  subst hty
  rcases ev with _ | (_ | _ | _) | (_ | _ | _) <;>
    simp [CommandLineOption.SetValueBool, Res.state, CommandLineOption.GetFlag]

theorem SetFlagOption_flag (o : CommandLineOption)
    (hty : o.option_type = OptionType.FlagOption) (hco : o.Coherent = true) :
    SetFlagOption o = Res.ok (o.SetValueBool true).state := by
  obtain ⟨ty, sh, lo, de, dv, av, ev, ip, mv, mn⟩ := o
  simp only at hty
  subst hty
  rcases ev with _ | (_ | _ | _) | (_ | _ | _) <;>
    simp_all [CommandLineOption.Coherent, CommandLineOption.bindingCoherent, SetFlagOption,
      CommandLineOption.SetValueBool, Res.state]

theorem find_if_fst_congr {α : Type} (p q : α → Bool) :
    ∀ (l1 l2 : List α), l1.map p = l2.map q →
      (find_if p l1).map Prod.fst = (find_if q l2).map Prod.fst := by
  intro l1
  induction l1 with
  | nil =>
    intro l2 h
    cases l2 with
    | nil => rfl
    | cons b l2 => simp at h
  | cons a l1 ih =>
    intro l2 h
    cases l2 with
    | nil => simp at h
    | cons b l2 =>
      simp only [List.map_cons, List.cons.injEq] at h
      obtain ⟨hab, hl⟩ := h
      have := ih l2 hl
      by_cases hb : q b = true
      · simp [find_if, hab, hb]
      · simp only [find_if, hab, hb, Bool.false_eq_true, if_false, Option.map_map]
        have h1 : (Prod.fst ∘ fun r : Nat × α => (r.1 + 1, r.2)) = Nat.succ ∘ Prod.fst := by
          funext r; rfl
        rw [h1, ← Option.map_map, ← Option.map_map, this]

theorem GetOption_index_of_short_opts (t t1 : List CommandLineOption) (ch : Char) (k : Nat)
    (x : CommandLineOption)
    (hmap : t1.map (fun o => o.short_opt) = t.map (fun o => o.short_opt))
    (h : GetOption t1 ch = Except.ok (k, x)) :
    ∃ y, GetOption t ch = Except.ok (k, y) := by
  have hm : t1.map (fun o : CommandLineOption => decide (o.short_opt = ch)) =
      t.map (fun o : CommandLineOption => decide (o.short_opt = ch)) := by
    have := congrArg (List.map (fun c : Char => decide (c = ch))) hmap
    simpa [List.map_map, Function.comp] using this
  have hc := find_if_fst_congr _ _ t1 t hm
  unfold GetOption at h ⊢
  cases h1 : find_if (fun o : CommandLineOption => decide (o.short_opt = ch)) t1 with
  | none => simp [h1] at h
  | some r1 =>
    simp only [h1, Except.ok.injEq] at h
    subst h
    rw [h1] at hc
    cases h2 : find_if (fun o : CommandLineOption => decide (o.short_opt = ch)) t with
    | none => simp [h2] at hc
    | some r2 =>
      obtain ⟨k2, y⟩ := r2
      simp only [h2, Option.map_some', Option.some.injEq] at hc
      subst hc
      exact ⟨y, rfl⟩

theorem activate_short_opts (t : List CommandLineOption) (ch : Char) :
    (activate t ch).map (fun o => o.short_opt) = t.map (fun o => o.short_opt) := by
  unfold activate
  cases h : GetOption t ch with
  | error e => rfl
  | ok r =>
    obtain ⟨i, o⟩ := r
    exact map_set_of_eq _ t i o _ (GetOption_some t ch i o h).1
      (SetValueBool_state_short_opt o true)

theorem activate_length (t : List CommandLineOption) (ch : Char) :
    (activate t ch).length = t.length := by
  unfold activate
  cases h : GetOption t ch with
  | error e => rfl
  | ok r =>
    obtain ⟨i, o⟩ := r
    simp

theorem get?_of_drop {α : Type} (x : α) (r : List α) :
    ∀ (arg : List α) (j : Nat), arg.drop j = x :: r →
      arg.get? j = some x ∧ arg.drop (j + 1) = r := by
  intro arg
  induction arg with
  | nil => intro j h; simp at h
  | cons a arg ih =>
    intro j h
    cases j with
    | zero =>
      simp only [List.drop_zero, List.cons.injEq] at h
      obtain ⟨rfl, rfl⟩ := h
      simp
    | succ j =>
      simp only [List.drop_succ_cons] at h
      have := ih j h
      simpa using this

theorem activate_getElem? (t : List CommandLineOption) (ch : Char) (k : Nat) :
    (activate t ch)[k]? =
      match GetOption t ch with
      | Except.error _ => t[k]?
      | Except.ok (i, o) => if i = k then some (o.SetValueBool true).state else t[k]? := by
  unfold activate
  cases h : GetOption t ch with
  | error e => rfl
  | ok r =>
    obtain ⟨i, o⟩ := r
    have hi := (GetOption_some t ch i o h).1
    have hlt : i < t.length := by
      by_contra hge
      have : t[i]? = none := List.getElem?_eq_none (by omega)
      rw [this] at hi
      simp at hi
    simp only [List.getElem?_set, hlt, if_true]

theorem GetOption_activate (t : List CommandLineOption) (ch ch1 : Char) (k : Nat)
    (y : CommandLineOption) (h : GetOption t ch1 = Except.ok (k, y)) :
    ∃ y1, GetOption (activate t ch) ch1 = Except.ok (k, y1) ∧ (activate t ch)[k]? = some y1 := by
  obtain ⟨y1, h1⟩ := GetOption_index_of_short_opts (activate t ch) t ch1 k y
    (activate_short_opts t ch).symm h
  exact ⟨y1, h1, (GetOption_some _ ch1 k y1 h1).1⟩

theorem GetOption_of_activate (t : List CommandLineOption) (ch ch1 : Char) (k : Nat)
    (y1 : CommandLineOption) (h : GetOption (activate t ch) ch1 = Except.ok (k, y1)) :
    ∃ y, GetOption t ch1 = Except.ok (k, y) :=
  GetOption_index_of_short_opts t (activate t ch) ch1 k y1 (activate_short_opts t ch) h

theorem flagLoop_foldl (arg : Str) :
    ∀ (l : Str) (j : Nat) (t : List CommandLineOption) (tail : Str),
      arg.drop j = l ++ tail →
      (∀ ch ∈ l, ∃ i o, GetOption t ch = Except.ok (i, o) ∧
        o.option_type = OptionType.FlagOption ∧ o.Coherent = true) →
      flagLoop arg l.length j t = Step.next (l.foldl activate t) := by
  intro l
  induction l with
  | nil => intro j t tail _ _; rfl
  | cons ch l ih =>
    intro j t tail hdrop hres
    obtain ⟨hget, hdrop1⟩ := get?_of_drop ch (l ++ tail) arg j (by simpa using hdrop)
    obtain ⟨i, o, hgo, hty, hco⟩ := hres ch (List.mem_cons_self _ _)
    have hact : activate t ch = t.set i (o.SetValueBool true).state := by
      simp [activate, hgo]
    have hnh : (o.SetValueBool true).state.option_type ≠ OptionType.HelpOption := by
      rw [SetValueBool_state_type, hty]
      decide
    have hres1 : ∀ ch1 ∈ l, ∃ i1 o1, GetOption (activate t ch) ch1 = Except.ok (i1, o1) ∧
        o1.option_type = OptionType.FlagOption ∧ o1.Coherent = true := by
      intro ch1 hch1
      obtain ⟨i1, y, hgy, hyt, hyc⟩ := hres ch1 (List.mem_cons_of_mem _ hch1)
      obtain ⟨y1, hg1, hy1⟩ := GetOption_activate t ch ch1 i1 y hgy
      refine ⟨i1, y1, hg1, ?_⟩
      rw [activate_getElem?, hgo] at hy1
      simp only at hy1
      by_cases hii : i = i1
      · simp only [hii, if_true, Option.some.injEq] at hy1
        subst hy1
        exact ⟨by rw [SetValueBool_state_type, hty], SetValueBool_state_coherent o true hty hco⟩
      · simp only [hii, if_false] at hy1
        rw [(GetOption_some t ch1 i1 y hgy).1] at hy1
        simp only [Option.some.injEq] at hy1
        subst hy1
        exact ⟨hyt, hyc⟩
    simp only [List.length_cons, flagLoop, charAt, hget, hgo, SetFlagOption_flag o hty hco, hnh,
      if_false, List.foldl_cons]
    rw [← hact]
    exact ih (j + 1) (activate t ch) tail hdrop1 hres1

theorem foldl_activate_spec :
    ∀ (l : Str) (t : List CommandLineOption),
      (l.foldl activate t).length = t.length ∧
      (∀ ch ∈ l, ∀ i o, GetOption t ch = Except.ok (i, o) →
        (l.foldl activate t)[i]? = some (o.SetValueBool true).state) ∧
      (∀ k, (∀ ch ∈ l, ∀ o, GetOption t ch ≠ Except.ok (k, o)) →
        (l.foldl activate t)[k]? = t[k]?) := by
  intro l
  induction l with
  | nil =>
    intro t
    refine ⟨rfl, ?_, ?_⟩
    · intro ch hch; simp at hch
    · intro k _; rfl
  | cons ch l ih =>
    intro t
    obtain ⟨ih1, ih2, ih3⟩ := ih (activate t ch)
    simp only [List.foldl_cons]
    refine ⟨by rw [ih1, activate_length], ?_, ?_⟩
    · intro ch0 hch0 i0 o0 hg0
      obtain ⟨y1, hg1, hy1⟩ := GetOption_activate t ch ch0 i0 o0 hg0
      have ho0 := (GetOption_some t ch0 i0 o0 hg0).1
      -- the element of `activate t ch` at `i0`, activated once more, is `o0` activated
      have hy1act : (y1.SetValueBool true).state = (o0.SetValueBool true).state := by
        rw [activate_getElem?] at hy1
        cases hgc : GetOption t ch with
        | error e =>
          simp only [hgc] at hy1
          rw [ho0] at hy1
          simp only [Option.some.injEq] at hy1
          rw [hy1]
        | ok r =>
          obtain ⟨i, o⟩ := r
          simp only [hgc] at hy1
          by_cases hii : i = i0
          · simp only [hii, if_true, Option.some.injEq] at hy1
            have hoi := (GetOption_some t ch i o hgc).1
            rw [hii, ho0] at hoi
            simp only [Option.some.injEq] at hoi
            rw [← hy1, ← hoi, SetValueBool_state_idem]
          · simp only [hii, if_false] at hy1
            rw [ho0] at hy1
            simp only [Option.some.injEq] at hy1
            rw [hy1]
      by_cases hhit : ∃ ch1 ∈ l, ∃ o1, GetOption (activate t ch) ch1 = Except.ok (i0, o1)
      · obtain ⟨ch1, hch1, o1, hgo1⟩ := hhit
        have h1 := ih2 ch1 hch1 i0 o1 hgo1
        have ho1 := (GetOption_some _ ch1 i0 o1 hgo1).1
        rw [hy1] at ho1
        simp only [Option.some.injEq] at ho1
        rw [h1, ← ho1, hy1act]
      · have hnot : ∀ ch1 ∈ l, ∀ o1, GetOption (activate t ch) ch1 ≠ Except.ok (i0, o1) := by
          intro ch1 hch1 o1 hgo1
          exact hhit ⟨ch1, hch1, o1, hgo1⟩
        rw [ih3 i0 hnot, hy1]
        have hch : ch0 = ch := by
          rcases List.mem_cons.mp hch0 with h | h
          · exact h
          · exact absurd hg1 (hnot ch0 h y1)
        subst hch
        rw [activate_getElem?, hg0] at hy1
        simp only [if_true, Option.some.injEq] at hy1
        rw [hy1]
    · intro k hk
      have hnot : ∀ ch1 ∈ l, ∀ o1, GetOption (activate t ch) ch1 ≠ Except.ok (k, o1) := by
        intro ch1 hch1 o1 hgo1
        obtain ⟨y, hy⟩ := GetOption_of_activate t ch ch1 k o1 hgo1
        exact hk ch1 (List.mem_cons_of_mem _ hch1) y hy
      rw [ih3 k hnot, activate_getElem?]
      cases hgc : GetOption t ch with
      | error e => rfl
      | ok r =>
        obtain ⟨i, o⟩ := r
        have hik : i ≠ k := by
          intro e
          subst e
          exact hk ch (List.mem_cons_self _ _) o hgc
        simp only [hik, if_false]

theorem dashArg_flag_cluster (s : List CommandLineOption) (c : Char) (cs : Str)
    (hc : c ≠ '-') (hne : '=' ∉ c :: cs)
    (hres : ∀ ch ∈ c :: cs, ∃ i o, GetOption s ch = Except.ok (i, o) ∧
      o.option_type = OptionType.FlagOption ∧ o.Coherent = true) :
    dashArg s ('-' :: c :: cs) = Step.next ((c :: cs).foldl activate s) := by
  have hmem : '=' ∉ '-' :: c :: cs := by
    intro h
    rcases List.mem_cons.mp h with h | h
    · exact absurd h (by decide)
    · exact hne h
  have hep : eqPos ('-' :: c :: cs) = cs.length + 2 := by
    rw [eqPos_of_not_mem _ hmem]
    rfl
  have hfc : flagCount ('-' :: c :: cs) (cs.length + 2) = cs.length + 2 := by
    simp [flagCount]
  have hloop := flagLoop_foldl ('-' :: c :: cs) (c :: cs) 1 s [] (by simp) hres
  rw [dashArg_short s c cs hc (by rw [hep]; omega), hep]
  simp only [shortOption, hfc]
  have e : cs.length + 2 - 1 = (c :: cs).length := by simp
  rw [e, hloop]
  simp

/-! ### The coherence invariant holds in every reachable option state -/

theorem Coherent_new (optionType : OptionType) (shortOpt : Char) (longOpt desc : Str) :
    (CommandLineOption.new optionType shortOpt longOpt desc).Coherent = true := by
  cases optionType <;> rfl

theorem Coherent_builders (o : CommandLineOption) (h : o.Coherent = true) :
    (∀ v, (o.DefaultBool v).state.Coherent = true) ∧
    (∀ v, (o.DefaultInt v).state.Coherent = true) ∧
    (∀ v, (o.DefaultString v).state.Coherent = true) ∧
    (∀ n, (o.MultiValue n).state.Coherent = true) ∧
    o.Positional.state.Coherent = true ∧
    (∀ r, (o.StoreValueBool r).state.Coherent = true) ∧
    (∀ r, (o.StoreValueInt r).state.Coherent = true) ∧
    (∀ r, (o.StoreValueString r).state.Coherent = true) ∧
    (∀ r, (o.StoreValuesInt r).state.Coherent = true) ∧
    (∀ r, (o.StoreValuesString r).state.Coherent = true) := by
  obtain ⟨ty, sh, lo, de, dv, av, ev, ip, mv, mn⟩ := o
  cases ty <;> cases mv <;> rcases av with (_ | _ | _ | _) | (_ | _ | _) <;>
    rcases ev with _ | (_ | _ | _) | (_ | _ | _) <;>
    simp_all [CommandLineOption.Coherent, CommandLineOption.storageCoherent,
      CommandLineOption.bindingCoherent, CommandLineOption.DefaultBool,
      CommandLineOption.DefaultInt, CommandLineOption.DefaultString,
      CommandLineOption.MultiValue, CommandLineOption.Positional,
      CommandLineOption.StoreValueBool, CommandLineOption.StoreValueInt,
      CommandLineOption.StoreValueString, CommandLineOption.StoreValuesInt,
      CommandLineOption.StoreValuesString, Res.state]

theorem Coherent_SetValue (o : CommandLineOption) (h : o.Coherent = true) :
    (∀ v, (o.SetValueBool v).state.Coherent = true) ∧
    (∀ v, (o.SetValueInt v).state.Coherent = true) ∧
    (∀ v, (o.SetValueString v).state.Coherent = true) := by
  obtain ⟨ty, sh, lo, de, dv, av, ev, ip, mv, mn⟩ := o
  cases ty <;> cases mv <;> rcases av with (_ | _ | _ | _) | (_ | _ | _) <;>
    rcases ev with _ | (_ | _ | _) | (_ | _ | _) <;>
    simp_all [CommandLineOption.Coherent, CommandLineOption.storageCoherent,
      CommandLineOption.bindingCoherent, CommandLineOption.SetValueBool,
      CommandLineOption.SetValueInt, CommandLineOption.SetValueString,
      CommandLineOption.storeInt, CommandLineOption.storeString,
      CommandLineOption.mirrorInt, CommandLineOption.mirrorString, Res.state]

/-! ### The option value model -/

theorem defaultCoherent_new (optionType : OptionType) (shortOpt : Char) (longOpt desc : Str) :
    (CommandLineOption.new optionType shortOpt longOpt desc).defaultCoherent = true := by
  cases optionType <;> rfl

theorem defaultCoherent_builders (o : CommandLineOption) (h : o.defaultCoherent = true) :
    (∀ v, (o.DefaultBool v).state.defaultCoherent = true) ∧
    (∀ v, (o.DefaultInt v).state.defaultCoherent = true) ∧
    (∀ v, (o.DefaultString v).state.defaultCoherent = true) ∧
    (∀ n, (o.MultiValue n).state.defaultCoherent = true) ∧
    o.Positional.state.defaultCoherent = true ∧
    (∀ r, (o.StoreValueBool r).state.defaultCoherent = true) ∧
    (∀ r, (o.StoreValueInt r).state.defaultCoherent = true) ∧
    (∀ r, (o.StoreValueString r).state.defaultCoherent = true) ∧
    (∀ r, (o.StoreValuesInt r).state.defaultCoherent = true) ∧
    (∀ r, (o.StoreValuesString r).state.defaultCoherent = true) := by
  obtain ⟨ty, sh, lo, de, dv, av, ev, ip, mv, mn⟩ := o
  cases ty <;> rcases dv with _ | _ | _ | _ <;>
    simp_all [CommandLineOption.defaultCoherent, CommandLineOption.DefaultBool,
      CommandLineOption.DefaultInt, CommandLineOption.DefaultString,
      CommandLineOption.MultiValue, CommandLineOption.Positional,
      CommandLineOption.StoreValueBool, CommandLineOption.StoreValueInt,
      CommandLineOption.StoreValueString, CommandLineOption.StoreValuesInt,
      CommandLineOption.StoreValuesString, Res.state]

theorem defaultCoherent_SetValue (o : CommandLineOption) (h : o.defaultCoherent = true) :
    (∀ v, (o.SetValueBool v).state.defaultCoherent = true) ∧
    (∀ v, (o.SetValueInt v).state.defaultCoherent = true) ∧
    (∀ v, (o.SetValueString v).state.defaultCoherent = true) := by
  obtain ⟨ty, sh, lo, de, dv, av, ev, ip, mv, mn⟩ := o
  cases ty <;> cases mv <;> rcases dv with _ | _ | _ | _ <;>
    rcases av with (_ | _ | _ | _) | (_ | _ | _) <;>
    rcases ev with _ | (_ | _ | _) | (_ | _ | _) <;>
    simp_all [CommandLineOption.defaultCoherent, CommandLineOption.SetValueBool,
      CommandLineOption.SetValueInt, CommandLineOption.SetValueString,
      CommandLineOption.storeInt, CommandLineOption.storeString,
      CommandLineOption.mirrorInt, CommandLineOption.mirrorString, Res.state]

theorem SetValueInt_stored (o : CommandLineOption) (v : Int) (prev : List Int)
    (hty : o.option_type = OptionType.IntegerOption)
    (hav : o.argument_values = ArgumentStorageType.array (ArrayType.ints prev)) :
    (o.SetValueInt v).state.option_type = OptionType.IntegerOption ∧
    (o.SetValueInt v).state.argument_values =
      ArgumentStorageType.array (ArrayType.ints (prev ++ [v])) := by
  obtain ⟨ty, sh, lo, de, dv, av, ev, ip, mv, mn⟩ := o
  simp only at hty hav
  subst hty hav
  cases mv <;> rcases ev with _ | (_ | _ | _) | (_ | _ | _) <;>
    simp [CommandLineOption.SetValueInt, CommandLineOption.storeInt,
      CommandLineOption.mirrorInt, Res.state]

theorem SetValueString_stored (o : CommandLineOption) (v : Str) (prev : List Str)
    (hty : o.option_type = OptionType.StringOption)
    (hav : o.argument_values = ArgumentStorageType.array (ArrayType.strings prev)) :
    (o.SetValueString v).state.option_type = OptionType.StringOption ∧
    (o.SetValueString v).state.argument_values =
      ArgumentStorageType.array (ArrayType.strings (prev ++ [v])) := by
  obtain ⟨ty, sh, lo, de, dv, av, ev, ip, mv, mn⟩ := o
  simp only at hty hav
  subst hty hav
  cases mv <;> rcases ev with _ | (_ | _ | _) | (_ | _ | _) <;>
    simp [CommandLineOption.SetValueString, CommandLineOption.storeString,
      CommandLineOption.mirrorString, Res.state]

theorem setEachInt_stored :
    ∀ (vs : List Int) (o : CommandLineOption) (prev : List Int),
      o.option_type = OptionType.IntegerOption →
      o.argument_values = ArgumentStorageType.array (ArrayType.ints prev) →
      (o.setEachInt vs).argument_values =
        ArgumentStorageType.array (ArrayType.ints (prev ++ vs)) := by
  intro vs
  induction vs with
  | nil => intro o prev _ hav; simpa [CommandLineOption.setEachInt] using hav
  | cons v vs ih =>
    intro o prev hty hav
    obtain ⟨h1, h2⟩ := SetValueInt_stored o v prev hty hav
    have := ih (o.SetValueInt v).state (prev ++ [v]) h1 h2
    simpa [CommandLineOption.setEachInt] using this

theorem setEachString_stored :
    ∀ (vs : List Str) (o : CommandLineOption) (prev : List Str),
      o.option_type = OptionType.StringOption →
      o.argument_values = ArgumentStorageType.array (ArrayType.strings prev) →
      (o.setEachString vs).argument_values =
        ArgumentStorageType.array (ArrayType.strings (prev ++ vs)) := by
  intro vs
  induction vs with
  | nil => intro o prev _ hav; simpa [CommandLineOption.setEachString] using hav
  | cons v vs ih =>
    intro o prev hty hav
    obtain ⟨h1, h2⟩ := SetValueString_stored o v prev hty hav
    have := ih (o.SetValueString v).state (prev ++ [v]) h1 h2
    simpa [CommandLineOption.setEachString] using this

theorem SetValueInt_bound (o : CommandLineOption) (v : Int)
    (hty : o.option_type = OptionType.IntegerOption) (hco : o.Coherent = true)
    (hbm : o.bindingMatches = true) :
    ∃ o1, o.SetValueInt v = Res.ok o1 ∧ o1.option_type = OptionType.IntegerOption ∧
      o1.Coherent = true ∧ o1.bindingMatches = true ∧
      o1.is_multi_value = o.is_multi_value ∧
      (∀ x0, o.external_values = ExternalStorageType.valueRef (ValueRefType.int x0) →
        o1.external_values = ExternalStorageType.valueRef (ValueRefType.int v)) ∧
      (∀ w, o.external_values = ExternalStorageType.arrayRef (ArrayRefType.ints w) →
        o1.external_values = ExternalStorageType.arrayRef (ArrayRefType.ints (w ++ [v]))) := by
  obtain ⟨ty, sh, lo, de, dv, av, ev, ip, mv, mn⟩ := o
  simp only at hty
  subst hty
  cases mv <;> rcases av with (_ | _ | _ | _) | (_ | _ | _) <;>
    rcases ev with _ | (_ | _ | _) | (_ | _ | _) <;>
    simp_all [CommandLineOption.Coherent, CommandLineOption.storageCoherent,
      CommandLineOption.bindingCoherent, CommandLineOption.bindingMatches,
      CommandLineOption.SetValueInt, CommandLineOption.storeInt, CommandLineOption.mirrorInt]

theorem SetValueString_bound (o : CommandLineOption) (v : Str)
    (hty : o.option_type = OptionType.StringOption) (hco : o.Coherent = true)
    (hbm : o.bindingMatches = true) :
    ∃ o1, o.SetValueString v = Res.ok o1 ∧ o1.option_type = OptionType.StringOption ∧
      o1.Coherent = true ∧ o1.bindingMatches = true ∧
      o1.is_multi_value = o.is_multi_value ∧
      (∀ x0, o.external_values = ExternalStorageType.valueRef (ValueRefType.string x0) →
        o1.external_values = ExternalStorageType.valueRef (ValueRefType.string v)) ∧
      (∀ w, o.external_values = ExternalStorageType.arrayRef (ArrayRefType.strings w) →
        o1.external_values =
          ExternalStorageType.arrayRef (ArrayRefType.strings (w ++ [v]))) := by
  obtain ⟨ty, sh, lo, de, dv, av, ev, ip, mv, mn⟩ := o
  simp only at hty
  subst hty
  cases mv <;> rcases av with (_ | _ | _ | _) | (_ | _ | _) <;>
    rcases ev with _ | (_ | _ | _) | (_ | _ | _) <;>
    simp_all [CommandLineOption.Coherent, CommandLineOption.storageCoherent,
      CommandLineOption.bindingCoherent, CommandLineOption.bindingMatches,
      CommandLineOption.SetValueString, CommandLineOption.storeString,
      CommandLineOption.mirrorString]

theorem setEachInt_bound :
    ∀ (vs : List Int) (o : CommandLineOption) (w : List Int),
      o.option_type = OptionType.IntegerOption → o.Coherent = true →
      o.bindingMatches = true →
      o.external_values = ExternalStorageType.arrayRef (ArrayRefType.ints w) →
      (o.setEachInt vs).external_values =
        ExternalStorageType.arrayRef (ArrayRefType.ints (w ++ vs)) := by
  intro vs
  induction vs with
  | nil => intro o w _ _ _ hev; simpa [CommandLineOption.setEachInt] using hev
  | cons v vs ih =>
    intro o w hty hco hbm hev
    obtain ⟨o1, h1, hty1, hco1, hbm1, _, _, hw⟩ := SetValueInt_bound o v hty hco hbm
    have := ih o1 (w ++ [v]) hty1 hco1 hbm1 (hw w hev)
    simpa [CommandLineOption.setEachInt, h1, Res.state] using this

theorem setEachString_bound :
    ∀ (vs : List Str) (o : CommandLineOption) (w : List Str),
      o.option_type = OptionType.StringOption → o.Coherent = true →
      o.bindingMatches = true →
      o.external_values = ExternalStorageType.arrayRef (ArrayRefType.strings w) →
      (o.setEachString vs).external_values =
        ExternalStorageType.arrayRef (ArrayRefType.strings (w ++ vs)) := by
  intro vs
  induction vs with
  | nil => intro o w _ _ _ hev; simpa [CommandLineOption.setEachString] using hev
  | cons v vs ih =>
    intro o w hty hco hbm hev
    obtain ⟨o1, h1, hty1, hco1, hbm1, _, _, hw⟩ := SetValueString_bound o v hty hco hbm
    have := ih o1 (w ++ [v]) hty1 hco1 hbm1 (hw w hev)
    simpa [CommandLineOption.setEachString, h1, Res.state] using this

theorem find_if_append_of_some {α : Type} (p : α → Bool) (l2 : List α) :
    ∀ (l1 : List α) (r : Nat × α), find_if p l1 = some r → find_if p (l1 ++ l2) = some r := by
  intro l1
  induction l1 with
  | nil => intro r h; simp [find_if] at h
  | cons a l1 ih =>
    intro r h
    by_cases ha : p a = true
    · simp only [find_if, ha, if_true] at h
      simp [find_if, ha, h]
    · simp only [find_if, ha, Bool.false_eq_true, if_false, Option.map_eq_some'] at h
      obtain ⟨r1, hr1, hr⟩ := h
      have h2 := ih r1 hr1
      simp [find_if, ha, h2, hr]

theorem find_if_append_of_none {α : Type} (p : α → Bool) (x : α) (l2 : List α) :
    ∀ (l1 : List α), (∀ y ∈ l1, p y = false) → p x = true →
      find_if p (l1 ++ x :: l2) = some (l1.length, x) := by
  intro l1
  induction l1 with
  | nil => intro _ hx; simp [find_if, hx]
  | cons a l1 ih =>
    intro h hx
    have ha : p a = false := h a (List.mem_cons_self _ _)
    have := ih (fun y hy => h y (List.mem_cons_of_mem _ hy)) hx
    simp [find_if, ha, this]

/-! ### Failing steps leave no partial write in settled options -/

theorem SetFlagOption_settled (o : CommandLineOption) (h : o.settled = true) :
    (∀ e o1, SetFlagOption o = Res.throws e o1 → o1 = o) ∧
    (∀ o1, SetFlagOption o = Res.ok o1 → o1.settled = true) := by
  obtain ⟨ty, sh, lo, de, dv, av, ev, ip, mv, mn⟩ := o
  cases ty <;> cases mv <;> rcases av with (_ | _ | _ | _) | (_ | _ | _) <;>
    rcases ev with _ | (_ | _ | _) | (_ | _ | _) <;>
    simp_all [CommandLineOption.settled, CommandLineOption.Coherent,
      CommandLineOption.storageCoherent, CommandLineOption.bindingCoherent,
      CommandLineOption.bindingMatches, SetFlagOption, CommandLineOption.SetValueBool]

theorem SetValueOption_settled (o : CommandLineOption) (v : Str) (h : o.settled = true) :
    (∀ e o1, SetValueOption o v = Res.throws e o1 → o1 = o) ∧
    (∀ o1, SetValueOption o v = Res.ok o1 → o1.settled = true) := by
  have hco : o.Coherent = true := by
    simp only [CommandLineOption.settled, Bool.and_eq_true] at h
    exact h.1
  by_cases hI : o.option_type = OptionType.IntegerOption
  · have hbm : o.bindingMatches = true := by
      simp only [CommandLineOption.settled, Bool.and_eq_true, Bool.or_eq_true] at h
      rcases h.2 with h2 | h2
      · exact h2
      · simp [hI] at h2
    cases hs : stoi v with
    | error ex =>
      simp only [SetValueOption, hI, if_true, hs]
      exact ⟨fun e o1 he => by simp only [Res.throws.injEq] at he; exact he.2.symm,
        fun o1 he => by simp at he⟩
    | ok n =>
      obtain ⟨o1, h1, hty1, hco1, hbm1, _⟩ := SetValueInt_bound o n hI hco hbm
      simp only [SetValueOption, hI, if_true, hs, h1]
      refine ⟨fun e o2 he => by simp at he, fun o2 he => ?_⟩
      simp only [Res.ok.injEq] at he
      subst he
      simp [CommandLineOption.settled, hco1, hbm1]
  · by_cases hS : o.option_type = OptionType.StringOption
    · have hbm : o.bindingMatches = true := by
        simp only [CommandLineOption.settled, Bool.and_eq_true, Bool.or_eq_true] at h
        rcases h.2 with h2 | h2
        · exact h2
        · simp [hS] at h2
      obtain ⟨o1, h1, hty1, hco1, hbm1, _⟩ := SetValueString_bound o v hS hco hbm
      have hne : ¬ (OptionType.StringOption = OptionType.IntegerOption) := by decide
      simp only [SetValueOption, hS, hne, if_false, if_true, h1]
      refine ⟨fun e o2 he => by simp at he, fun o2 he => ?_⟩
      simp only [Res.ok.injEq] at he
      subst he
      simp [CommandLineOption.settled, hco1, hbm1]
    · simp only [SetValueOption, hI, hS, if_false]
      exact ⟨fun e o1 he => by simp only [Res.throws.injEq] at he; exact he.2.symm,
        fun o1 he => by simp at he⟩

theorem settled_set (t : List CommandLineOption) (i : Nat) (o1 : CommandLineOption)
    (ht : ∀ o ∈ t, o.settled = true) (h1 : o1.settled = true) :
    ∀ o ∈ t.set i o1, o.settled = true := by
  intro o ho
  rcases List.mem_or_eq_of_mem_set ho with h | h
  · exact ht o h
  · rw [h]; exact h1

theorem flagLoop_fail (arg : Str) :
    ∀ (n j : Nat) (t : List CommandLineOption), (∀ o ∈ t, o.settled = true) →
      (∀ t1, flagLoop arg n j t = Step.next t1 → ∀ o ∈ t1, o.settled = true) ∧
      (∀ e t1, flagLoop arg n j t = Step.throw e t1 →
        ∃ k, k < n ∧ flagLoop arg k j t = Step.next t1) := by
  intro n
  induction n with
  | zero =>
    intro j t ht
    constructor
    · intro t1 h
      simp only [flagLoop, Step.next.injEq] at h
      subst h
      exact ht
    · intro e t1 h
      simp [flagLoop] at h
  | succ n ih =>
    intro j t ht
    simp only [flagLoop]
    cases hc : charAt arg j with
    | none => exact ⟨fun t1 h => by simp at h, fun e t1 h => by simp at h⟩
    | some ch =>
      simp only
      cases hg : GetOption t ch with
      | error ex =>
        refine ⟨fun t1 h => by simp at h, fun e t1 h => ?_⟩
        simp only [Step.throw.injEq] at h
        exact ⟨0, Nat.succ_pos n, by rw [← h.2]; rfl⟩
      | ok r =>
        obtain ⟨i, opt⟩ := r
        have hi := (GetOption_some t ch i opt hg).1
        have hopt : opt.settled = true := ht opt (List.getElem?_mem hi)
        obtain ⟨hthrow, hok⟩ := SetFlagOption_settled opt hopt
        simp only
        cases hf : SetFlagOption opt with
        | throws ex o1 =>
          refine ⟨fun t1 h => by simp at h, fun e t1 h => ?_⟩
          simp only [Step.throw.injEq] at h
          have ho1 := hthrow ex o1 hf
          subst ho1
          rw [set_of_getElem? t i o1 hi] at h
          exact ⟨0, Nat.succ_pos n, by rw [← h.2]; rfl⟩
        | ok o1 =>
          simp only
          have ht1 := settled_set t i o1 ht (hok o1 hf)
          by_cases hh : o1.option_type = OptionType.HelpOption
          · simp only [hh, if_true]
            exact ⟨fun t1 h => by simp at h, fun e t1 h => by simp at h⟩
          · simp only [hh, if_false]
            obtain ⟨ih1, ih2⟩ := ih (j + 1) (t.set i o1) ht1
            refine ⟨ih1, fun e t1 h => ?_⟩
            obtain ⟨k, hk, hkl⟩ := ih2 e t1 h
            refine ⟨k + 1, by omega, ?_⟩
            simp only [flagLoop, hc, hg, hf, hh, if_false]
            exact hkl

theorem longOption_fail (s s1 : List CommandLineOption) (arg : Str) (eq_pos : Nat)
    (hs : ∀ o ∈ s, o.settled = true)
    (h : (∃ e, longOption s arg eq_pos = Step.throw e s1) ∨
      longOption s arg eq_pos = Step.ret false s1) : s1 = s := by
  unfold longOption at h
  split at h
  · rcases h with ⟨e, h⟩ | h
    · simp at h
    · simp only [Step.ret.injEq, true_and] at h
      exact h.symm
  · split at h
    · rcases h with ⟨e, h⟩ | h
      · simp only [Step.throw.injEq] at h
        exact h.2.symm
      · simp at h
    · split at h
      · rcases h with ⟨e, h⟩ | h
        · simp only [Step.throw.injEq] at h
          exact h.2.symm
        · simp at h
      · rename_i i opt hget
        have hi := (GetOptionLong_some s _ i opt hget).1
        have hopt : opt.settled = true := hs opt (List.getElem?_mem hi)
        split at h
        · split at h
          · rename_i ex o1 hf
            have ho1 := (SetFlagOption_settled opt hopt).1 ex o1 hf
            subst ho1
            rw [set_of_getElem? s i o1 hi] at h
            rcases h with ⟨e, h⟩ | h
            · simp only [Step.throw.injEq] at h
              exact h.2.symm
            · simp at h
          · split at h
            · rcases h with ⟨e, h⟩ | h <;> simp at h
            · rcases h with ⟨e, h⟩ | h <;> simp at h
        · split at h
          · rcases h with ⟨e, h⟩ | h
            · simp only [Step.throw.injEq] at h
              exact h.2.symm
            · simp at h
          · split at h
            · rename_i ex o1 hf
              have ho1 := (SetValueOption_settled opt _ hopt).1 ex o1 hf
              subst ho1
              rw [set_of_getElem? s i o1 hi] at h
              rcases h with ⟨e, h⟩ | h
              · simp only [Step.throw.injEq] at h
                exact h.2.symm
              · simp at h
            · rcases h with ⟨e, h⟩ | h <;> simp at h

theorem GetPositionalArgument_none (options : List CommandLineOption)
    (h : ∀ x ∈ options, x.is_positional = false) :
    GetPositionalArgument options = Except.error Exn.logic_error := by
  simp [GetPositionalArgument,
    find_if_none (fun x : CommandLineOption => x.is_positional) options h]

theorem flagLoop_ret_true (arg : Str) :
    ∀ (n j : Nat) (t t1 : List CommandLineOption) (b : Bool),
      flagLoop arg n j t = Step.ret b t1 → b = true := by
  intro n
  induction n with
  | zero => intro j t t1 b h; simp [flagLoop] at h
  | succ n ih =>
    intro j t t1 b h
    simp only [flagLoop] at h
    split at h
    · simp at h
    · split at h
      · simp at h
      · split at h
        · simp at h
        · split at h
          · simp only [Step.ret.injEq] at h
            exact h.1.symm
          · exact ih _ _ _ _ h

theorem SetFlagOption_of_value (opt : CommandLineOption)
    (h : opt.option_type = OptionType.IntegerOption ∨
      opt.option_type = OptionType.StringOption) :
    SetFlagOption opt = Res.throws Exn.logic_error opt := by
  rcases h with h | h <;> simp [SetFlagOption, h]

/-! ### Two runs of `Parse` from options of the same shape -/

theorem SetFlagOption_kind_congr (o o1 : CommandLineOption) (h : o.shape = o1.shape) :
    (SetFlagOption o).kind = (SetFlagOption o1).kind := by
  obtain ⟨ty, sh, lg, ds, dv, av, ev, ps, mv, mn⟩ := o
  obtain ⟨ty1, sh1, lg1, ds1, dv1, av1, ev1, ps1, mv1, mn1⟩ := o1
  simp only [CommandLineOption.shape, Prod.mk.injEq] at h
  obtain ⟨rfl, rfl, rfl, rfl, rfl, -, he⟩ := h
  cases ty <;> rcases ev with _ | (_ | _ | _) | (_ | _ | _) <;>
    rcases ev1 with _ | (_ | _ | _) | (_ | _ | _) <;>
    simp [extKind] at he <;>
    simp [SetFlagOption, CommandLineOption.SetValueBool, Res.kind]

theorem SetFlagOption_grows (o : CommandLineOption) :
    (SetFlagOption o).state.shape = o.shape ∧
      (SetFlagOption o).state.storedInts = o.storedInts ∧
      (SetFlagOption o).state.storedStrings = o.storedStrings := by
  obtain ⟨ty, sh, lg, ds, dv, av, ev, ps, mv, mn⟩ := o
  cases ty <;> rcases ev with _ | (_ | _ | _) | (_ | _ | _) <;>
    simp [SetFlagOption, CommandLineOption.SetValueBool, Res.state, CommandLineOption.shape,
      CommandLineOption.storeKind, CommandLineOption.storedInts,
      CommandLineOption.storedStrings, extKind]

theorem Uniform_SetFlagOption : Uniform SetFlagOption := by
  intro o o1 h
  obtain ⟨h1, h2, h3⟩ := SetFlagOption_grows o
  obtain ⟨h4, h5, h6⟩ := SetFlagOption_grows o1
  exact ⟨SetFlagOption_kind_congr o o1 h, h1, h4, [], [], by simp [h2], by simp [h5],
    by simp [h3], by simp [h6]⟩

theorem SetValueOption_kind_congr (o o1 : CommandLineOption) (value : Str)
    (h : o.shape = o1.shape) :
    (SetValueOption o value).kind = (SetValueOption o1 value).kind := by
  obtain ⟨ty, sh, lg, ds, dv, av, ev, ps, mv, mn⟩ := o
  obtain ⟨ty1, sh1, lg1, ds1, dv1, av1, ev1, ps1, mv1, mn1⟩ := o1
  simp only [CommandLineOption.shape, Prod.mk.injEq] at h
  obtain ⟨rfl, rfl, rfl, rfl, rfl, hk, he⟩ := h
  cases ty
  · simp [SetValueOption, Res.kind]
  · cases hs : stoi value with
    | error e => simp [SetValueOption, Res.kind, hs]
    | ok n =>
      rcases av with _ | (_ | _ | _) <;> rcases av1 with _ | (_ | _ | _) <;>
        simp [CommandLineOption.storeKind] at hk <;>
        rcases ev with _ | (_ | _ | _) | (_ | _ | _) <;>
        rcases ev1 with _ | (_ | _ | _) | (_ | _ | _) <;>
        simp [extKind] at he <;>
        cases mv <;>
        simp [SetValueOption, CommandLineOption.SetValueInt, CommandLineOption.storeInt,
          CommandLineOption.mirrorInt, Res.kind, hs]
  · rcases av with _ | (_ | _ | _) <;> rcases av1 with _ | (_ | _ | _) <;>
      simp [CommandLineOption.storeKind] at hk <;>
      rcases ev with _ | (_ | _ | _) | (_ | _ | _) <;>
      rcases ev1 with _ | (_ | _ | _) | (_ | _ | _) <;>
      simp [extKind] at he <;>
      cases mv <;>
      simp [SetValueOption, CommandLineOption.SetValueString, CommandLineOption.storeString,
        CommandLineOption.mirrorString, Res.kind]
  · simp [SetValueOption, Res.kind]

theorem SetValueOption_grows (o : CommandLineOption) (value : Str) :
    (SetValueOption o value).state.shape = o.shape ∧
      (SetValueOption o value).state.storedInts = o.storedInts ++ o.contribInts value ∧
      (SetValueOption o value).state.storedStrings =
        o.storedStrings ++ o.contribStrings value := by
  obtain ⟨ty, sh, lg, ds, dv, av, ev, ps, mv, mn⟩ := o
  cases ty
  · simp [SetValueOption, Res.state, CommandLineOption.contribInts,
      CommandLineOption.contribStrings]
  · cases hs : stoi value with
    | error e =>
      simp [SetValueOption, Res.state, CommandLineOption.contribInts,
        CommandLineOption.contribStrings, hs]
    | ok n =>
      rcases av with _ | (_ | _ | _) <;>
        rcases ev with _ | (_ | _ | _) | (_ | _ | _) <;>
        cases mv <;>
        simp [SetValueOption, CommandLineOption.SetValueInt, CommandLineOption.storeInt,
          CommandLineOption.mirrorInt, Res.state, CommandLineOption.shape,
          CommandLineOption.storeKind, CommandLineOption.storedInts,
          CommandLineOption.storedStrings, CommandLineOption.contribInts,
          CommandLineOption.contribStrings, extKind, hs]
  · rcases av with _ | (_ | _ | _) <;>
      rcases ev with _ | (_ | _ | _) | (_ | _ | _) <;>
      cases mv <;>
      simp [SetValueOption, CommandLineOption.SetValueString, CommandLineOption.storeString,
        CommandLineOption.mirrorString, Res.state, CommandLineOption.shape,
        CommandLineOption.storeKind, CommandLineOption.storedInts,
        CommandLineOption.storedStrings, CommandLineOption.contribInts,
        CommandLineOption.contribStrings, extKind]
  · simp [SetValueOption, Res.state, CommandLineOption.contribInts,
      CommandLineOption.contribStrings]

theorem contrib_congr (o o1 : CommandLineOption) (value : Str) (h : o.shape = o1.shape) :
    o.contribInts value = o1.contribInts value ∧
      o.contribStrings value = o1.contribStrings value := by
  simp only [CommandLineOption.shape, Prod.mk.injEq] at h
  obtain ⟨h1, -, -, -, -, h2, -⟩ := h
  simp only [CommandLineOption.contribInts, CommandLineOption.contribStrings, h1, h2,
    and_self]

theorem Uniform_SetValueOption (value : Str) :
    Uniform (fun o => SetValueOption o value) := by
  intro o o1 h
  obtain ⟨h1, h2, h3⟩ := SetValueOption_grows o value
  obtain ⟨h4, h5, h6⟩ := SetValueOption_grows o1 value
  obtain ⟨h7, h8⟩ := contrib_congr o o1 value h
  exact ⟨SetValueOption_kind_congr o o1 value h, h1, h4, o.contribInts value,
    o.contribStrings value, h2, by rw [h5, h7], h3, by rw [h6, h8]⟩

theorem Grown_refl (t t1 : List CommandLineOption) : Grown t t1 t t1 := by
  refine ⟨rfl, rfl, fun k o o1 q q1 h1 h2 h3 h4 => ⟨[], [], ?_⟩⟩
  rw [h1] at h3
  rw [h2] at h4
  simp only [Option.some.injEq] at h3 h4
  subst h3
  subst h4
  simp

theorem getElem?_of_map_shape (t u : List CommandLineOption)
    (h : u.map CommandLineOption.shape = t.map CommandLineOption.shape) (k : Nat)
    (o : CommandLineOption) (ho : t[k]? = some o) :
    ∃ q, u[k]? = some q ∧ q.shape = o.shape := by
  have h1 : (u.map CommandLineOption.shape)[k]? = (t.map CommandLineOption.shape)[k]? := by
    rw [h]
  simp only [List.getElem?_map, ho, Option.map_some', Option.map_eq_some'] at h1
  exact h1

theorem Grown_trans (t t1 u u1 w w1 : List CommandLineOption) (h1 : Grown t t1 u u1)
    (h2 : Grown u u1 w w1) : Grown t t1 w w1 := by
  refine ⟨h2.1.trans h1.1, h2.2.1.trans h1.2.1, fun k o o1 r r1 ho ho1 hr hr1 => ?_⟩
  obtain ⟨q, hq, -⟩ := getElem?_of_map_shape t u h1.1 k o ho
  obtain ⟨q1, hq1, -⟩ := getElem?_of_map_shape t1 u1 h1.2.1 k o1 ho1
  obtain ⟨d, e, a1, a2, a3, a4⟩ := h1.2.2 k o o1 q q1 ho ho1 hq hq1
  obtain ⟨d1, e1, b1, b2, b3, b4⟩ := h2.2.2 k q q1 r r1 hq hq1 hr hr1
  exact ⟨d ++ d1, e ++ e1, by rw [b1, a1, List.append_assoc],
    by rw [b2, a2, List.append_assoc], by rw [b3, a3, List.append_assoc],
    by rw [b4, a4, List.append_assoc]⟩

theorem Grown_shapes (t t1 u u1 : List CommandLineOption)
    (hm : t.map CommandLineOption.shape = t1.map CommandLineOption.shape)
    (h : Grown t t1 u u1) :
    u.map CommandLineOption.shape = u1.map CommandLineOption.shape :=
  h.1.trans (hm.trans h.2.1.symm)

theorem Grown_set (t t1 : List CommandLineOption) (i : Nat) (o o1 q q1 : CommandLineOption)
    (ho : t[i]? = some o) (ho1 : t1[i]? = some o1) (hq : q.shape = o.shape)
    (hq1 : q1.shape = o1.shape) (d : List Int) (e : List Str)
    (a1 : q.storedInts = o.storedInts ++ d) (a2 : q1.storedInts = o1.storedInts ++ d)
    (a3 : q.storedStrings = o.storedStrings ++ e)
    (a4 : q1.storedStrings = o1.storedStrings ++ e) :
    Grown t t1 (t.set i q) (t1.set i q1) := by
  refine ⟨map_set_of_eq _ t i o q ho hq, map_set_of_eq _ t1 i o1 q1 ho1 hq1,
    fun k a b r r1 ha hb hr hr1 => ?_⟩
  by_cases hk : i = k
  · subst hk
    rw [ho] at ha
    rw [ho1] at hb
    simp only [Option.some.injEq] at ha hb
    subst ha
    subst hb
    have hi : i < t.length := by
      rcases Nat.lt_or_ge i t.length with h | h
      · exact h
      · rw [List.getElem?_eq_none h] at ho
        exact absurd ho (by simp)
    have hi1 : i < t1.length := by
      rcases Nat.lt_or_ge i t1.length with h | h
      · exact h
      · rw [List.getElem?_eq_none h] at ho1
        exact absurd ho1 (by simp)
    simp only [List.getElem?_set, hi, hi1, if_true, Option.some.injEq] at hr hr1
    subst hr
    subst hr1
    exact ⟨d, e, a1, a2, a3, a4⟩
  · simp only [List.getElem?_set, hk, if_false] at hr hr1
    rw [ha] at hr
    rw [hb] at hr1
    simp only [Option.some.injEq] at hr hr1
    subst hr
    subst hr1
    exact ⟨[], [], by simp⟩

theorem find_if_of_shape (p : CommandLineOption → Bool)
    (hp : ∀ a b : CommandLineOption, a.shape = b.shape → p a = p b) :
    ∀ (t t1 : List CommandLineOption),
      t.map CommandLineOption.shape = t1.map CommandLineOption.shape →
      (find_if p t = none ∧ find_if p t1 = none) ∨
      ∃ (i : Nat) (o o1 : CommandLineOption), find_if p t = some (i, o) ∧
        find_if p t1 = some (i, o1) ∧ t[i]? = some o ∧ t1[i]? = some o1 ∧
        o.shape = o1.shape := by
  intro t
  induction t with
  | nil =>
    intro t1 h
    cases t1 with
    | nil => exact Or.inl ⟨rfl, rfl⟩
    | cons b t1 => simp at h
  | cons a t ih =>
    intro t1 h
    cases t1 with
    | nil => simp at h
    | cons b t1 =>
      simp only [List.map_cons, List.cons.injEq] at h
      obtain ⟨hab, hl⟩ := h
      have hpb := hp a b hab
      by_cases ha : p a = true
      · have hb : p b = true := by rw [← hpb]; exact ha
        exact Or.inr ⟨0, a, b, by simp [find_if, ha], by simp [find_if, hb], by simp,
          by simp, hab⟩
      · have hb : ¬ p b = true := by rw [← hpb]; exact ha
        rcases ih t1 hl with ⟨h1, h2⟩ | ⟨i, o, o1, h1, h2, h3, h4, h5⟩
        · exact Or.inl ⟨by simp [find_if, ha, h1], by simp [find_if, hb, h2]⟩
        · exact Or.inr ⟨i + 1, o, o1, by simp [find_if, ha, h1], by simp [find_if, hb, h2],
            by simpa using h3, by simpa using h4, h5⟩

theorem Uniform_apply (f : CommandLineOption → Res CommandLineOption) (hf : Uniform f)
    (t t1 : List CommandLineOption) (i : Nat) (o o1 : CommandLineOption)
    (ho : t[i]? = some o) (ho1 : t1[i]? = some o1) (hs : o.shape = o1.shape) :
    (f o).kind = (f o1).kind ∧
      Grown t t1 (t.set i (f o).state) (t1.set i (f o1).state) ∧
      (f o).state.option_type = (f o1).state.option_type := by
  obtain ⟨h1, h2, h3, d, e, a1, a2, a3, a4⟩ := hf o o1 hs
  refine ⟨h1, Grown_set t t1 i o o1 _ _ ho ho1 h2 h3 d e a1 a2 a3 a4, ?_⟩
  have h4 : (f o).state.shape = (f o1).state.shape := by rw [h2, h3, hs]
  simp only [CommandLineOption.shape, Prod.mk.injEq] at h4
  exact h4.1

theorem Uniform_positionalLoop (l : List Str) :
    Uniform (fun o => positionalLoop o l) := by
  induction l with
  | nil =>
    intro o o1 _
    exact ⟨rfl, rfl, rfl, [], [], by simp [positionalLoop, Res.state],
      by simp [positionalLoop, Res.state], by simp [positionalLoop, Res.state],
      by simp [positionalLoop, Res.state]⟩
  | cons a l ih =>
    intro o o1 h
    obtain ⟨h1, h2, h3, d, e, a1, a2, a3, a4⟩ := Uniform_SetValueOption a o o1 h
    simp only at h1 h2 h3 a1 a2 a3 a4
    cases hr : SetValueOption o a with
    | throws x q =>
      cases hr1 : SetValueOption o1 a with
      | ok q1 => rw [hr, hr1] at h1; simp [Res.kind] at h1
      | throws x1 q1 =>
        rw [hr, hr1] at h1
        rw [hr] at h2 a1 a3
        rw [hr1] at h3 a2 a4
        simp only [Res.state] at h2 h3 a1 a2 a3 a4
        simp only [positionalLoop, hr, hr1, Res.state]
        exact ⟨h1, h2, h3, d, e, a1, a2, a3, a4⟩
    | ok q =>
      cases hr1 : SetValueOption o1 a with
      | throws x1 q1 => rw [hr, hr1] at h1; simp [Res.kind] at h1
      | ok q1 =>
        rw [hr] at h2 a1 a3
        rw [hr1] at h3 a2 a4
        simp only [Res.state] at h2 h3 a1 a2 a3 a4
        obtain ⟨k1, k2, k3, d1, e1, b1, b2, b3, b4⟩ := ih q q1 (by rw [h2, h3, h])
        simp only at k1 k2 k3 b1 b2 b3 b4
        simp only [positionalLoop, hr, hr1]
        exact ⟨k1, k2.trans h2, k3.trans h3, d ++ d1, e ++ e1,
          by rw [b1, a1, List.append_assoc], by rw [b2, a2, List.append_assoc],
          by rw [b3, a3, List.append_assoc], by rw [b4, a4, List.append_assoc]⟩

theorem Twin_trans (t t1 u u1 : List CommandLineOption) (r r1 : Step)
    (h : Grown t t1 u u1) (hr : Twin u u1 r r1) : Twin t t1 r r1 := by
  cases r <;> cases r1 <;> simp only [Twin] at hr ⊢
  · exact Grown_trans _ _ _ _ _ _ h hr
  · exact ⟨hr.1, Grown_trans _ _ _ _ _ _ h hr.2⟩
  · exact ⟨hr.1, Grown_trans _ _ _ _ _ _ h hr.2⟩
  · exact Grown_trans _ _ _ _ _ _ h hr

theorem Twin_options (t t1 : List CommandLineOption) (r r1 : Step) (h : Twin t t1 r r1) :
    Grown t t1 r.options r1.options := by
  cases r <;> cases r1 <;> simp only [Twin] at h <;> simp only [Step.options]
  · exact h
  · exact h.2
  · exact h.2
  · exact h

theorem lookup_of_shape (p : CommandLineOption → Bool)
    (hp : ∀ a b : CommandLineOption, a.shape = b.shape → p a = p b)
    (t t1 : List CommandLineOption)
    (hm : t.map CommandLineOption.shape = t1.map CommandLineOption.shape)
    (get : List CommandLineOption → Except Exn (Nat × CommandLineOption))
    (hget : ∀ l, get l = match find_if p l with
      | none => Except.error Exn.logic_error
      | some r => Except.ok r) :
    (get t = Except.error Exn.logic_error ∧ get t1 = Except.error Exn.logic_error) ∨
      ∃ (i : Nat) (o o1 : CommandLineOption), get t = Except.ok (i, o) ∧
        get t1 = Except.ok (i, o1) ∧ t[i]? = some o ∧ t1[i]? = some o1 ∧
        o.shape = o1.shape := by
  rcases find_if_of_shape p hp t t1 hm with ⟨h1, h2⟩ | ⟨i, o, o1, h1, h2, h3, h4, h5⟩
  · exact Or.inl ⟨by rw [hget, h1], by rw [hget, h2]⟩
  · exact Or.inr ⟨i, o, o1, by rw [hget, h1], by rw [hget, h2], h3, h4, h5⟩

theorem GetOption_of_shape (t t1 : List CommandLineOption) (c : Char)
    (hm : t.map CommandLineOption.shape = t1.map CommandLineOption.shape) :
    (GetOption t c = Except.error Exn.logic_error ∧
        GetOption t1 c = Except.error Exn.logic_error) ∨
      ∃ (i : Nat) (o o1 : CommandLineOption), GetOption t c = Except.ok (i, o) ∧
        GetOption t1 c = Except.ok (i, o1) ∧ t[i]? = some o ∧ t1[i]? = some o1 ∧
        o.shape = o1.shape := by
  refine lookup_of_shape (fun opt => opt.short_opt = c) ?_ t t1 hm (fun l => GetOption l c)
    (fun l => rfl)
  intro a b hab
  simp only [CommandLineOption.shape, Prod.mk.injEq] at hab
  simp only [hab.2.1]

theorem GetOptionLong_of_shape (t t1 : List CommandLineOption) (name : Str)
    (hm : t.map CommandLineOption.shape = t1.map CommandLineOption.shape) :
    (GetOptionLong t name = Except.error Exn.logic_error ∧
        GetOptionLong t1 name = Except.error Exn.logic_error) ∨
      ∃ (i : Nat) (o o1 : CommandLineOption), GetOptionLong t name = Except.ok (i, o) ∧
        GetOptionLong t1 name = Except.ok (i, o1) ∧ t[i]? = some o ∧ t1[i]? = some o1 ∧
        o.shape = o1.shape := by
  refine lookup_of_shape (fun opt => opt.long_opt = name) ?_ t t1 hm
    (fun l => GetOptionLong l name) (fun l => rfl)
  intro a b hab
  simp only [CommandLineOption.shape, Prod.mk.injEq] at hab
  simp only [hab.2.2.1]

theorem GetPositionalArgument_of_shape (t t1 : List CommandLineOption)
    (hm : t.map CommandLineOption.shape = t1.map CommandLineOption.shape) :
    (GetPositionalArgument t = Except.error Exn.logic_error ∧
        GetPositionalArgument t1 = Except.error Exn.logic_error) ∨
      ∃ (i : Nat) (o o1 : CommandLineOption), GetPositionalArgument t = Except.ok (i, o) ∧
        GetPositionalArgument t1 = Except.ok (i, o1) ∧ t[i]? = some o ∧
        t1[i]? = some o1 ∧ o.shape = o1.shape := by
  refine lookup_of_shape (fun opt => opt.is_positional) ?_ t t1 hm
    (fun l => GetPositionalArgument l) (fun l => rfl)
  intro a b hab
  simp only [CommandLineOption.shape, Prod.mk.injEq] at hab
  simp only [hab.2.2.2.1]

theorem Twin_assign (f : CommandLineOption → Res CommandLineOption) (hf : Uniform f)
    (t t1 : List CommandLineOption) (i : Nat) (o o1 : CommandLineOption)
    (ho : t[i]? = some o) (ho1 : t1[i]? = some o1) (hs : o.shape = o1.shape)
    (r r1 : Step)
    (hr : r = match f o with
      | Res.throws e q => Step.throw e (t.set i q)
      | Res.ok q => Step.next (t.set i q))
    (hr1 : r1 = match f o1 with
      | Res.throws e q => Step.throw e (t1.set i q)
      | Res.ok q => Step.next (t1.set i q)) :
    Twin t t1 r r1 := by
  obtain ⟨k1, k2, -⟩ := Uniform_apply f hf t t1 i o o1 ho ho1 hs
  subst hr
  subst hr1
  cases h : f o with
  | throws x q =>
    cases h1 : f o1 with
    | ok q1 => rw [h, h1] at k1; simp [Res.kind] at k1
    | throws x1 q1 =>
      rw [h, h1] at k1 k2
      simp only [Res.kind, Res.state, Option.some.injEq] at k1 k2
      exact ⟨k1, k2⟩
  | ok q =>
    cases h1 : f o1 with
    | throws x1 q1 => rw [h, h1] at k1; simp [Res.kind] at k1
    | ok q1 =>
      rw [h, h1] at k2
      exact k2

theorem Twin_flagLoop (arg : Str) :
    ∀ (n j : Nat) (t t1 : List CommandLineOption),
      t.map CommandLineOption.shape = t1.map CommandLineOption.shape →
      Twin t t1 (flagLoop arg n j t) (flagLoop arg n j t1) := by
  intro n
  induction n with
  | zero =>
    intro j t t1 _
    exact Grown_refl t t1
  | succ n ih =>
    intro j t t1 hm
    simp only [flagLoop]
    cases hc : charAt arg j with
    | none => exact Grown_refl t t1
    | some c =>
      rcases GetOption_of_shape t t1 c hm with ⟨h1, h2⟩ | ⟨i, o, o1, h1, h2, h3, h4, h5⟩
      · simp only [h1, h2]
        exact ⟨rfl, Grown_refl t t1⟩
      · simp only [h1, h2]
        obtain ⟨k1, k2, k3⟩ :=
          Uniform_apply SetFlagOption Uniform_SetFlagOption t t1 i o o1 h3 h4 h5
        cases h : SetFlagOption o with
        | throws x q =>
          cases h6 : SetFlagOption o1 with
          | ok q1 => rw [h, h6] at k1; simp [Res.kind] at k1
          | throws x1 q1 =>
            rw [h, h6] at k1 k2
            simp only [Res.kind, Res.state, Option.some.injEq] at k1 k2
            exact ⟨k1, k2⟩
        | ok q =>
          cases h6 : SetFlagOption o1 with
          | throws x1 q1 => rw [h, h6] at k1; simp [Res.kind] at k1
          | ok q1 =>
            rw [h, h6] at k2 k3
            simp only [Res.state] at k2 k3
            by_cases hh : q.option_type = OptionType.HelpOption
            · have hh1 : q1.option_type = OptionType.HelpOption := by rw [← k3]; exact hh
              simp only [hh, hh1, if_true]
              exact ⟨rfl, k2⟩
            · have hh1 : ¬ q1.option_type = OptionType.HelpOption := by rw [← k3]; exact hh
              simp only [hh, hh1, if_false]
              exact Twin_trans _ _ _ _ _ _ k2
                (ih (j + 1) _ _ (Grown_shapes t t1 _ _ hm k2))

theorem Twin_activate (t t1 : List CommandLineOption) (i : Nat) (o o1 : CommandLineOption)
    (ho : t[i]? = some o) (ho1 : t1[i]? = some o1) (hs : o.shape = o1.shape)
    (r r1 : Step)
    (hr : r = match SetFlagOption o with
      | Res.throws e q => Step.throw e (t.set i q)
      | Res.ok q =>
        if q.option_type = OptionType.HelpOption then Step.ret true (t.set i q)
        else Step.next (t.set i q))
    (hr1 : r1 = match SetFlagOption o1 with
      | Res.throws e q => Step.throw e (t1.set i q)
      | Res.ok q =>
        if q.option_type = OptionType.HelpOption then Step.ret true (t1.set i q)
        else Step.next (t1.set i q)) :
    Twin t t1 r r1 := by
  obtain ⟨k1, k2, k3⟩ :=
    Uniform_apply SetFlagOption Uniform_SetFlagOption t t1 i o o1 ho ho1 hs
  subst hr
  subst hr1
  cases h : SetFlagOption o with
  | throws x q =>
    cases h6 : SetFlagOption o1 with
    | ok q1 => rw [h, h6] at k1; simp [Res.kind] at k1
    | throws x1 q1 =>
      rw [h, h6] at k1 k2
      simp only [Res.kind, Res.state, Option.some.injEq] at k1 k2
      exact ⟨k1, k2⟩
  | ok q =>
    cases h6 : SetFlagOption o1 with
    | throws x1 q1 => rw [h, h6] at k1; simp [Res.kind] at k1
    | ok q1 =>
      rw [h, h6] at k2 k3
      simp only [Res.state] at k2 k3
      by_cases hh : q.option_type = OptionType.HelpOption
      · have hh1 : q1.option_type = OptionType.HelpOption := by rw [← k3]; exact hh
        simp only [hh, hh1, if_true]
        exact ⟨rfl, k2⟩
      · have hh1 : ¬ q1.option_type = OptionType.HelpOption := by rw [← k3]; exact hh
        simp only [hh, hh1, if_false]
        exact k2

theorem Twin_longOption (t t1 : List CommandLineOption) (arg : Str) (eq_pos : Nat)
    (hm : t.map CommandLineOption.shape = t1.map CommandLineOption.shape) :
    Twin t t1 (longOption t arg eq_pos) (longOption t1 arg eq_pos) := by
  simp only [longOption]
  by_cases hl : arg.length < 3
  · simp only [hl, if_true]
    exact ⟨rfl, Grown_refl t t1⟩
  · simp only [hl, if_false]
    cases hsub : substr arg 2 (some (eq_pos - 2)) with
    | error e => exact ⟨rfl, Grown_refl t t1⟩
    | ok name =>
      rcases GetOptionLong_of_shape t t1 name hm with
        ⟨h1, h2⟩ | ⟨i, o, o1, h1, h2, h3, h4, h5⟩
      · simp only [h1, h2]
        exact ⟨rfl, Grown_refl t t1⟩
      · simp only [h1, h2]
        by_cases he : eq_pos = arg.length
        · rw [if_pos he, if_pos he]
          exact Twin_activate t t1 i o o1 h3 h4 h5 _ _ rfl rfl
        · rw [if_neg he, if_neg he]
          cases hv : substr arg (eq_pos + 1) none with
          | error e => exact ⟨rfl, Grown_refl t t1⟩
          | ok value =>
            exact Twin_assign (fun o => SetValueOption o value)
              (Uniform_SetValueOption value) t t1 i o o1 h3 h4 h5 _ _ rfl rfl

theorem Twin_shortOption (t t1 : List CommandLineOption) (arg : Str) (eq_pos : Nat)
    (hm : t.map CommandLineOption.shape = t1.map CommandLineOption.shape) :
    Twin t t1 (shortOption t arg eq_pos) (shortOption t1 arg eq_pos) := by
  have hF := Twin_flagLoop arg (flagCount arg eq_pos - 1) 1 t t1 hm
  simp only [shortOption]
  rcases hr : flagLoop arg (flagCount arg eq_pos - 1) 1 t with
      u | ⟨b, u⟩ | ⟨x, u⟩ | u <;>
    rcases hr1 : flagLoop arg (flagCount arg eq_pos - 1) 1 t1 with
      u1 | ⟨b1, u1⟩ | ⟨x1, u1⟩ | u1 <;>
    rw [hr, hr1] at hF <;> simp only [Twin] at hF
  · have hm1 := Grown_shapes t t1 u u1 hm hF
    by_cases hfc : flagCount arg eq_pos = eq_pos
    · simp only [hfc, ne_eq, not_true_eq_false, if_false]
      exact hF
    · simp only [hfc, ne_eq, not_false_eq_true, if_true]
      cases hc : charAt arg (eq_pos - 1) with
      | none => exact hF
      | some c =>
        rcases GetOption_of_shape u u1 c hm1 with ⟨h1, h2⟩ | ⟨i, o, o1, h1, h2, h3, h4, h5⟩
        · simp only [h1, h2]
          exact ⟨rfl, hF⟩
        · simp only [h1, h2]
          cases hv : substr arg (eq_pos + 1) none with
          | error e => exact ⟨rfl, hF⟩
          | ok value =>
            exact Twin_trans t t1 u u1 _ _ hF
              (Twin_assign (fun o => SetValueOption o value)
                (Uniform_SetValueOption value) u u1 i o o1 h3 h4 h5 _ _ rfl rfl)
  · exact hF
  · exact hF
  · exact hF

theorem Twin_dashArg (t t1 : List CommandLineOption) (arg : Str)
    (hm : t.map CommandLineOption.shape = t1.map CommandLineOption.shape) :
    Twin t t1 (dashArg t arg) (dashArg t1 arg) := by
  simp only [dashArg]
  by_cases h1 : arg.length < 2
  · simp only [h1, if_true]
    exact ⟨rfl, Grown_refl t t1⟩
  · simp only [h1, if_false]
    by_cases h2 : eqPos arg = arg.length - 1
    · rw [if_pos h2, if_pos h2]
      exact ⟨rfl, Grown_refl t t1⟩
    · rw [if_neg h2, if_neg h2]
      by_cases h3 : arg.get? 1 = some '-'
      · rw [if_pos h3, if_pos h3]
        exact Twin_longOption t t1 arg _ hm
      · rw [if_neg h3, if_neg h3]
        exact Twin_shortOption t t1 arg _ hm

theorem Twin_mainLoop :
    ∀ (args : List Str) (t t1 : List CommandLineOption),
      t.map CommandLineOption.shape = t1.map CommandLineOption.shape →
      Twin t t1 (mainLoop t args) (mainLoop t1 args) := by
  intro args
  induction args with
  | nil =>
    intro t t1 _
    exact Grown_refl t t1
  | cons arg rest ih =>
    intro t t1 hm
    simp only [mainLoop]
    by_cases h0 : arg = []
    · rw [if_pos h0, if_pos h0]
      exact ⟨rfl, Grown_refl t t1⟩
    · rw [if_neg h0, if_neg h0]
      by_cases hd : arg.head? = some '-'
      · rw [if_pos hd, if_pos hd]
        have hD := Twin_dashArg t t1 arg hm
        rcases hr : dashArg t arg with u | ⟨b, u⟩ | ⟨x, u⟩ | u <;>
          rcases hr1 : dashArg t1 arg with u1 | ⟨b1, u1⟩ | ⟨x1, u1⟩ | u1 <;>
          rw [hr, hr1] at hD <;> simp only [Twin] at hD
        · exact Twin_trans t t1 u u1 _ _ hD (ih u u1 (Grown_shapes t t1 u u1 hm hD))
        · exact hD
        · exact hD
        · exact hD
      · rw [if_neg hd, if_neg hd]
        rcases GetPositionalArgument_of_shape t t1 hm with
          ⟨h1, h2⟩ | ⟨i, o, o1, h1, h2, h3, h4, h5⟩
        · simp only [h1, h2]
          exact ⟨rfl, Grown_refl t t1⟩
        · simp only [h1, h2]
          exact Twin_assign (fun o => positionalLoop o (arg :: rest))
            (Uniform_positionalLoop (arg :: rest)) t t1 i o o1 h3 h4 h5 _ _ rfl rfl

theorem Parse_options (p : ArgParser) (first : Str) (rest : List Str) :
    (Parse p (first :: rest)).2.options = (mainLoop p.options rest).options := by
  simp only [Parse]
  cases mainLoop p.options rest with
  | next u =>
    simp only [Step.options, validate]
    cases all_of_IsValid u <;> rfl
  | ret b u => rfl
  | throw e u => rfl
  | undefined u => rfl

theorem Parse_twice_grown (p : ArgParser) (first : Str) (rest : List Str) :
    Grown p.options (Parse p (first :: rest)).2.options
      (Parse p (first :: rest)).2.options
      (Parse (Parse p (first :: rest)).2 (first :: rest)).2.options := by
  have G1 := Twin_options _ _ _ _ (Twin_mainLoop rest p.options p.options rfl)
  rw [Parse_options (Parse p (first :: rest)).2 first rest, Parse_options p first rest]
  exact Twin_options _ _ _ _ (Twin_mainLoop rest p.options _ G1.1.symm)

theorem ints_of_shape (o q : CommandLineOption) (prev : List Int)
    (hty : o.option_type = OptionType.IntegerOption)
    (hav : o.argument_values = ArgumentStorageType.array (ArrayType.ints prev))
    (hs : q.shape = o.shape) :
    q.option_type = OptionType.IntegerOption ∧
      q.argument_values = ArgumentStorageType.array (ArrayType.ints q.storedInts) := by
  obtain ⟨ty, sh, lg, ds, dv, av, ev, ps, mv, mn⟩ := o
  obtain ⟨ty1, sh1, lg1, ds1, dv1, av1, ev1, ps1, mv1, mn1⟩ := q
  simp only [CommandLineOption.shape, Prod.mk.injEq] at hs
  obtain ⟨rfl, -, -, -, -, hk, -⟩ := hs
  simp only at hty hav
  subst hty
  subst hav
  rcases av1 with _ | (_ | _ | _) <;> simp [CommandLineOption.storeKind] at hk
  simp [CommandLineOption.storedInts]

theorem strings_of_shape (o q : CommandLineOption) (prev : List Str)
    (hty : o.option_type = OptionType.StringOption)
    (hav : o.argument_values = ArgumentStorageType.array (ArrayType.strings prev))
    (hs : q.shape = o.shape) :
    q.option_type = OptionType.StringOption ∧
      q.argument_values = ArgumentStorageType.array (ArrayType.strings q.storedStrings) := by
  obtain ⟨ty, sh, lg, ds, dv, av, ev, ps, mv, mn⟩ := o
  obtain ⟨ty1, sh1, lg1, ds1, dv1, av1, ev1, ps1, mv1, mn1⟩ := q
  simp only [CommandLineOption.shape, Prod.mk.injEq] at hs
  obtain ⟨rfl, -, -, -, -, hk, -⟩ := hs
  simp only at hty hav
  subst hty
  subst hav
  rcases av1 with _ | (_ | _ | _) <;> simp [CommandLineOption.storeKind] at hk
  simp [CommandLineOption.storedStrings]

theorem Parse_twice_stored (p : ArgParser) (args : List Str) (k : Nat)
    (o : CommandLineOption) (h : p.options[k]? = some o) :
    ∃ (o1 o2 : CommandLineOption) (d : List Int) (e : List Str),
      (Parse p args).2.options[k]? = some o1 ∧
      (Parse (Parse p args).2 args).2.options[k]? = some o2 ∧
      o1.shape = o.shape ∧ o2.shape = o1.shape ∧
      o1.storedInts = o.storedInts ++ d ∧ o2.storedInts = o1.storedInts ++ d ∧
      o1.storedStrings = o.storedStrings ++ e ∧
      o2.storedStrings = o1.storedStrings ++ e := by
  cases args with
  | nil => exact ⟨o, o, [], [], h, h, rfl, rfl, by simp, by simp, by simp, by simp⟩
  | cons first rest =>
    have G := Parse_twice_grown p first rest
    obtain ⟨o1, ho1, hs1⟩ := getElem?_of_map_shape p.options _ G.1 k o h
    obtain ⟨o2, ho2, hs2⟩ := getElem?_of_map_shape _ _ G.2.1 k o1 ho1
    obtain ⟨d, e, a1, a2, a3, a4⟩ := G.2.2 k o o1 o1 o2 h ho1 ho1 ho2
    exact ⟨o1, o2, d, e, ho1, ho2, hs1, hs2, a1, a2, a3, a4⟩

/-! ### Properties of the options that every step of `Parse` keeps -/

theorem forall_set (P : CommandLineOption → Prop) (t : List CommandLineOption) (i : Nat)
    (q : CommandLineOption) (h : ∀ o ∈ t, P o) (hq : P q) : ∀ o ∈ t.set i q, P o := by
  intro o ho
  rcases List.mem_or_eq_of_mem_set ho with h1 | h1
  · exact h o h1
  · rw [h1]
    exact hq

theorem flagLoop_keeps (P : CommandLineOption → Prop)
    (hF : ∀ o, P o → P (SetFlagOption o).state) (arg : Str) :
    ∀ (n j : Nat) (t : List CommandLineOption), (∀ o ∈ t, P o) →
      ∀ o ∈ (flagLoop arg n j t).options, P o := by
  intro n
  induction n with
  | zero => intro j t h; exact h
  | succ n ih =>
    intro j t h
    simp only [flagLoop]
    cases hc : charAt arg j with
    | none => exact h
    | some c =>
      try simp only []
      cases hg : GetOption t c with
      | error e => exact h
      | ok r =>
        obtain ⟨i, opt⟩ := r
        try simp only []
        have hopt : P (SetFlagOption opt).state :=
          hF opt (h opt (List.getElem?_mem (GetOption_some t c i opt hg).1))
        cases hr : SetFlagOption opt with
        | throws e q =>
          rw [hr] at hopt
          exact forall_set P t i q h hopt
        | ok q =>
          rw [hr] at hopt
          simp only []
          by_cases hh : q.option_type = OptionType.HelpOption
          · rw [if_pos hh]
            exact forall_set P t i q h hopt
          · rw [if_neg hh]
            exact ih (j + 1) _ (forall_set P t i q h hopt)

theorem longOption_keeps (P : CommandLineOption → Prop)
    (hF : ∀ o, P o → P (SetFlagOption o).state)
    (hV : ∀ o v, P o → P (SetValueOption o v).state)
    (t : List CommandLineOption) (arg : Str) (eq_pos : Nat) (h : ∀ o ∈ t, P o) :
    ∀ o ∈ (longOption t arg eq_pos).options, P o := by
  simp only [longOption]
  by_cases hl : arg.length < 3
  · rw [if_pos hl]
    exact h
  · rw [if_neg hl]
    cases hsub : substr arg 2 (some (eq_pos - 2)) with
    | error e => exact h
    | ok name =>
      try simp only []
      cases hg : GetOptionLong t name with
      | error e => exact h
      | ok r =>
        obtain ⟨i, opt⟩ := r
        try simp only []
        have hP := h opt (List.getElem?_mem (GetOptionLong_some t name i opt hg).1)
        by_cases he : eq_pos = arg.length
        · rw [if_pos he]
          have hopt := hF opt hP
          cases hr : SetFlagOption opt with
          | throws e q =>
            rw [hr] at hopt
            exact forall_set P t i q h hopt
          | ok q =>
            rw [hr] at hopt
            simp only []
            by_cases hh : q.option_type = OptionType.HelpOption
            · rw [if_pos hh]
              exact forall_set P t i q h hopt
            · rw [if_neg hh]
              exact forall_set P t i q h hopt
        · rw [if_neg he]
          cases hv : substr arg (eq_pos + 1) none with
          | error e => exact h
          | ok value =>
            try simp only []
            have hopt := hV opt value hP
            cases hr : SetValueOption opt value with
            | throws e q =>
              rw [hr] at hopt
              exact forall_set P t i q h hopt
            | ok q =>
              rw [hr] at hopt
              exact forall_set P t i q h hopt

theorem shortOption_keeps (P : CommandLineOption → Prop)
    (hF : ∀ o, P o → P (SetFlagOption o).state)
    (hV : ∀ o v, P o → P (SetValueOption o v).state)
    (t : List CommandLineOption) (arg : Str) (eq_pos : Nat) (h : ∀ o ∈ t, P o) :
    ∀ o ∈ (shortOption t arg eq_pos).options, P o := by
  have hL := flagLoop_keeps P hF arg (flagCount arg eq_pos - 1) 1 t h
  simp only [shortOption]
  rcases hr : flagLoop arg (flagCount arg eq_pos - 1) 1 t with
    u | ⟨b, u⟩ | ⟨x, u⟩ | u <;> rw [hr] at hL <;> simp only [Step.options] at hL
  · by_cases hfc : flagCount arg eq_pos = eq_pos
    · simp only [hfc, ne_eq, not_true_eq_false, if_false]
      exact hL
    · simp only [hfc, ne_eq, not_false_eq_true, if_true]
      cases hc : charAt arg (eq_pos - 1) with
      | none => exact hL
      | some c =>
        try simp only []
        cases hg : GetOption u c with
        | error e => exact hL
        | ok r =>
          obtain ⟨i, opt⟩ := r
          try simp only []
          have hP := hL opt (List.getElem?_mem (GetOption_some u c i opt hg).1)
          cases hv : substr arg (eq_pos + 1) none with
          | error e => exact hL
          | ok value =>
            try simp only []
            have hopt := hV opt value hP
            cases hr1 : SetValueOption opt value with
            | throws e q =>
              rw [hr1] at hopt
              exact forall_set P u i q hL hopt
            | ok q =>
              rw [hr1] at hopt
              exact forall_set P u i q hL hopt
  · exact hL
  · exact hL
  · exact hL

theorem dashArg_keeps (P : CommandLineOption → Prop)
    (hF : ∀ o, P o → P (SetFlagOption o).state)
    (hV : ∀ o v, P o → P (SetValueOption o v).state)
    (t : List CommandLineOption) (arg : Str) (h : ∀ o ∈ t, P o) :
    ∀ o ∈ (dashArg t arg).options, P o := by
  simp only [dashArg]
  by_cases h1 : arg.length < 2
  · rw [if_pos h1]
    exact h
  · rw [if_neg h1]
    by_cases h2 : eqPos arg = arg.length - 1
    · rw [if_pos h2]
      exact h
    · rw [if_neg h2]
      by_cases h3 : arg.get? 1 = some '-'
      · rw [if_pos h3]
        exact longOption_keeps P hF hV t arg _ h
      · rw [if_neg h3]
        exact shortOption_keeps P hF hV t arg _ h

theorem positionalLoop_keeps (P : CommandLineOption → Prop)
    (hV : ∀ o v, P o → P (SetValueOption o v).state) :
    ∀ (l : List Str) (o : CommandLineOption), P o → P (positionalLoop o l).state := by
  intro l
  induction l with
  | nil => intro o h; exact h
  | cons a l ih =>
    intro o h
    have hopt := hV o a h
    simp only [positionalLoop]
    cases hr : SetValueOption o a with
    | throws e q =>
      rw [hr] at hopt
      exact hopt
    | ok q =>
      rw [hr] at hopt
      exact ih q hopt

theorem mainLoop_keeps (P : CommandLineOption → Prop)
    (hF : ∀ o, P o → P (SetFlagOption o).state)
    (hV : ∀ o v, P o → P (SetValueOption o v).state) :
    ∀ (args : List Str) (t : List CommandLineOption), (∀ o ∈ t, P o) →
      ∀ o ∈ (mainLoop t args).options, P o := by
  intro args
  induction args with
  | nil => intro t h; exact h
  | cons arg rest ih =>
    intro t h
    simp only [mainLoop]
    by_cases h0 : arg = []
    · rw [if_pos h0]
      exact h
    · rw [if_neg h0]
      by_cases hd : arg.head? = some '-'
      · rw [if_pos hd]
        have hD := dashArg_keeps P hF hV t arg h
        rcases hr : dashArg t arg with u | ⟨b, u⟩ | ⟨x, u⟩ | u <;> rw [hr] at hD <;>
          simp only [Step.options] at hD
        · exact ih u hD
        · exact hD
        · exact hD
        · exact hD
      · rw [if_neg hd]
        cases hg : GetPositionalArgument t with
        | error e => exact h
        | ok r =>
          obtain ⟨i, opt⟩ := r
          try simp only []
          have hi : t[i]? = some opt := by
            simp only [GetPositionalArgument] at hg
            cases hf : find_if (fun opt => opt.is_positional) t with
            | none => rw [hf] at hg; simp at hg
            | some r1 =>
              rw [hf] at hg
              simp only [Except.ok.injEq] at hg
              rw [hg] at hf
              exact (find_if_some _ t i opt hf).1
          have hopt := positionalLoop_keeps P hV (arg :: rest) opt
            (h opt (List.getElem?_mem hi))
          cases hr : positionalLoop opt (arg :: rest) with
          | throws e q =>
            rw [hr] at hopt
            exact forall_set P t i q h hopt
          | ok q =>
            rw [hr] at hopt
            exact forall_set P t i q h hopt

theorem Parse_keeps (P : CommandLineOption → Prop)
    (hF : ∀ o, P o → P (SetFlagOption o).state)
    (hV : ∀ o v, P o → P (SetValueOption o v).state)
    (p : ArgParser) (args : List Str) (h : ∀ o ∈ p.options, P o) :
    ∀ o ∈ (Parse p args).2.options, P o := by
  cases args with
  | nil => exact h
  | cons first rest =>
    rw [Parse_options]
    exact mainLoop_keeps P hF hV rest p.options h

/-! ### `Parse` returns a boolean unless the flag loop runs past the end of a token -/

theorem Coherent_SetFlagOption (o : CommandLineOption) (h : o.Coherent = true) :
    (SetFlagOption o).state.Coherent = true := by
  unfold SetFlagOption
  split
  · exact h
  · exact (Coherent_SetValue o h).1 true

theorem Coherent_SetValueOption (o : CommandLineOption) (value : Str)
    (h : o.Coherent = true) : (SetValueOption o value).state.Coherent = true := by
  unfold SetValueOption
  split
  · cases stoi value with
    | error e => exact h
    | ok v => exact (Coherent_SetValue o h).2.1 v
  · split
    · exact (Coherent_SetValue o h).2.2 value
    · exact h

theorem short_opt_SetFlagOption (c : Char) (o : CommandLineOption) (h : o.short_opt ≠ c) :
    (SetFlagOption o).state.short_opt ≠ c := by
  have h1 := (SetFlagOption_grows o).1
  simp only [CommandLineOption.shape, Prod.mk.injEq] at h1
  rw [h1.2.1]
  exact h

theorem short_opt_SetValueOption (c : Char) (o : CommandLineOption) (value : Str)
    (h : o.short_opt ≠ c) : (SetValueOption o value).state.short_opt ≠ c := by
  have h1 := (SetValueOption_grows o value).1
  simp only [CommandLineOption.shape, Prod.mk.injEq] at h1
  rw [h1.2.1]
  exact h

theorem all_of_IsValid_ok (l : List CommandLineOption) (hl : ∀ o ∈ l, o.Coherent = true) :
    ∃ b, all_of_IsValid l = Except.ok b := by
  induction l with
  | nil => exact ⟨true, rfl⟩
  | cons o l ih =>
    obtain ⟨b, hb⟩ := IsValid_of_Coherent o (hl o (List.mem_cons_self _ _))
    obtain ⟨b1, hb1⟩ := ih (fun x hx => hl x (List.mem_cons_of_mem _ hx))
    cases b with
    | false => exact ⟨false, by simp [all_of_IsValid, hb]⟩
    | true => exact ⟨b1, by simp [all_of_IsValid, hb, hb1]⟩

theorem charAt_some (arg : Str) (j : Nat) (h : j ≤ arg.length) :
    ∃ c, charAt arg j = some c := by
  unfold charAt
  cases hg : arg.get? j with
  | some c => exact ⟨c, rfl⟩
  | none =>
    have h1 : arg.length ≤ j := by
      rw [List.get?_eq_getElem?] at hg
      exact List.getElem?_eq_none_iff.mp hg
    have h2 : j = arg.length := Nat.le_antisymm h h1
    exact ⟨'\x00', by simp [h2]⟩

theorem find_getElem? (c : Char) :
    ∀ (xs : Str) (e : Nat), find xs c = some e → xs[e]? = some c := by
  intro xs
  induction xs with
  | nil => intro e h; simp [find] at h
  | cons x xs ih =>
    intro e h
    by_cases hx : x = c
    · simp [find, hx] at h
      subst h
      simp [hx]
    · simp only [find, hx, if_false, Option.map_eq_some'] at h
      obtain ⟨e1, h1, rfl⟩ := h
      simpa using ih e1 h1

theorem flagLoop_defined (arg : Str) :
    ∀ (n j : Nat) (t : List CommandLineOption), j + n ≤ arg.length + 1 →
      (flagLoop arg n j t).defined = true := by
  intro n
  induction n with
  | zero => intro j t _; rfl
  | succ n ih =>
    intro j t h
    obtain ⟨c, hc⟩ := charAt_some arg j (by omega)
    simp only [flagLoop, hc]
    cases hg : GetOption t c with
    | error e => rfl
    | ok r =>
      obtain ⟨i, opt⟩ := r
      simp only []
      cases hr : SetFlagOption opt with
      | throws e q => rfl
      | ok q =>
        simp only []
        by_cases hh : q.option_type = OptionType.HelpOption
        · rw [if_pos hh]
          rfl
        · rw [if_neg hh]
          exact ih (j + 1) _ (by omega)

theorem shortOption_defined_of (t : List CommandLineOption) (arg : Str) (eq_pos : Nat)
    (h1 : (flagLoop arg (flagCount arg eq_pos - 1) 1 t).defined = true)
    (h2 : eq_pos - 1 ≤ arg.length) :
    (shortOption t arg eq_pos).defined = true := by
  simp only [shortOption]
  rcases hr : flagLoop arg (flagCount arg eq_pos - 1) 1 t with
    u | ⟨b, u⟩ | ⟨x, u⟩ | u <;> rw [hr] at h1
  · by_cases hfc : flagCount arg eq_pos = eq_pos
    · simp only [hfc, ne_eq, not_true_eq_false, if_false]
      rfl
    · obtain ⟨c, hc⟩ := charAt_some arg (eq_pos - 1) h2
      simp only [hfc, ne_eq, not_false_eq_true, if_true, hc]
      cases hg : GetOption u c with
      | error e => rfl
      | ok r =>
        obtain ⟨i, opt⟩ := r
        simp only []
        cases hv : substr arg (eq_pos + 1) none with
        | error e => rfl
        | ok value =>
          simp only []
          cases hr1 : SetValueOption opt value <;> rfl
  · rfl
  · rfl
  · exact h1

theorem shortOption_defined (t : List CommandLineOption) (arg : Str)
    (hlen : 2 ≤ arg.length) (hd : arg.head? = some '-')
    (hne : ∀ o ∈ t, o.short_opt ≠ '=') :
    (shortOption t arg (eqPos arg)).defined = true := by
  cases hf : find arg '=' with
  | none =>
    have he : eqPos arg = arg.length := by simp [eqPos, hf]
    rw [he]
    refine shortOption_defined_of t arg _ ?_ (by omega)
    apply flagLoop_defined
    simp only [flagCount, if_true]
    omega
  | some e =>
    have he : eqPos arg = e := by simp [eqPos, hf]
    have hlt := find_lt_length '=' arg e hf
    have hat := find_getElem? '=' arg e hf
    rw [he]
    rcases Nat.lt_or_ge e 2 with h2 | h2
    · have h1 : e = 1 := by
        rcases Nat.eq_zero_or_pos e with h0 | h0
        · subst h0
          cases arg with
          | nil => simp at hd
          | cons a as =>
            simp only [List.head?_cons, Option.some.injEq] at hd
            simp only [List.getElem?_cons_zero, Option.some.injEq] at hat
            rw [hd] at hat
            exact absurd hat (by decide)
        · omega
      subst h1
      have hc : charAt arg 1 = some '=' := by
        simp only [charAt, List.get?_eq_getElem?, hat]
      have hn : flagCount arg 1 - 1 = (2 ^ 64 - 3) + 1 := by
        have : ¬ (1 = arg.length) := by omega
        simp only [flagCount, this, if_false, size_t_sub]
        decide
      have hloop : flagLoop arg (flagCount arg 1 - 1) 1 t = Step.throw Exn.logic_error t := by
        rw [hn]
        simp only [flagLoop, hc, GetOption_unknown t '=' hne]
      simp only [shortOption, hloop]
      rfl
    · refine shortOption_defined_of t arg _ ?_ (by omega)
      apply flagLoop_defined
      have : ¬ (e = arg.length) := by omega
      simp only [flagCount, this, if_false, size_t_sub]
      omega

theorem longOption_defined (t : List CommandLineOption) (arg : Str) (eq_pos : Nat) :
    (longOption t arg eq_pos).defined = true := by
  simp only [longOption]
  by_cases hl : arg.length < 3
  · rw [if_pos hl]
    rfl
  · rw [if_neg hl]
    cases hsub : substr arg 2 (some (eq_pos - 2)) with
    | error e => rfl
    | ok name =>
      simp only []
      cases hg : GetOptionLong t name with
      | error e => rfl
      | ok r =>
        obtain ⟨i, opt⟩ := r
        simp only []
        by_cases he : eq_pos = arg.length
        · rw [if_pos he]
          cases hr : SetFlagOption opt with
          | throws e q => rfl
          | ok q =>
            simp only []
            by_cases hh : q.option_type = OptionType.HelpOption
            · rw [if_pos hh]
              rfl
            · rw [if_neg hh]
              rfl
        · rw [if_neg he]
          cases hv : substr arg (eq_pos + 1) none with
          | error e => rfl
          | ok value =>
            simp only []
            cases hr : SetValueOption opt value <;> rfl

theorem dashArg_defined (t : List CommandLineOption) (arg : Str)
    (hd : arg.head? = some '-') (hne : ∀ o ∈ t, o.short_opt ≠ '=') :
    (dashArg t arg).defined = true := by
  simp only [dashArg]
  by_cases h1 : arg.length < 2
  · rw [if_pos h1]
    rfl
  · rw [if_neg h1]
    by_cases h2 : eqPos arg = arg.length - 1
    · rw [if_pos h2]
      rfl
    · rw [if_neg h2]
      by_cases h3 : arg.get? 1 = some '-'
      · rw [if_pos h3]
        exact longOption_defined t arg _
      · rw [if_neg h3]
        exact shortOption_defined t arg (by omega) hd hne

theorem mainLoop_defined :
    ∀ (args : List Str) (t : List CommandLineOption), (∀ o ∈ t, o.short_opt ≠ '=') →
      (mainLoop t args).defined = true := by
  intro args
  induction args with
  | nil => intro t _; rfl
  | cons arg rest ih =>
    intro t hne
    simp only [mainLoop]
    by_cases h0 : arg = []
    · rw [if_pos h0]
      rfl
    · rw [if_neg h0]
      by_cases hd : arg.head? = some '-'
      · rw [if_pos hd]
        have hD := dashArg_defined t arg hd hne
        have hK := dashArg_keeps (fun o => o.short_opt ≠ '=')
          (short_opt_SetFlagOption '=') (short_opt_SetValueOption '=') t arg hne
        rcases hr : dashArg t arg with u | ⟨b, u⟩ | ⟨x, u⟩ | u <;> rw [hr] at hD hK
        · exact ih u hK
        · rfl
        · rfl
        · exact hD
      · rw [if_neg hd]
        cases hg : GetPositionalArgument t with
        | error e => rfl
        | ok r =>
          obtain ⟨i, opt⟩ := r
          simp only []
          cases hr : positionalLoop opt (arg :: rest) <;> rfl

theorem Parse_never_raises (p : ArgParser) (args : List Str)
    (hC : ∀ o ∈ p.options, o.Coherent = true) :
    (∃ b, (Parse p args).1 = Outcome.returned b) ∨ (Parse p args).1 = Outcome.undefined := by
  cases args with
  | nil => exact Or.inl ⟨false, rfl⟩
  | cons first rest =>
    have hK := mainLoop_keeps (fun o => o.Coherent = true) Coherent_SetFlagOption
      (fun o v h => Coherent_SetValueOption o v h) rest p.options hC
    simp only [Parse]
    rcases hr : mainLoop p.options rest with u | ⟨b, u⟩ | ⟨x, u⟩ | u <;> rw [hr] at hK
    · obtain ⟨b, hb⟩ := all_of_IsValid_ok u hK
      exact Or.inl ⟨b, by simp [validate, hb]⟩
    · exact Or.inl ⟨b, rfl⟩
    · exact Or.inl ⟨false, rfl⟩
    · exact Or.inr rfl

theorem Parse_returns (p : ArgParser) (args : List Str)
    (hC : ∀ o ∈ p.options, o.Coherent = true)
    (hne : ∀ o ∈ p.options, o.short_opt ≠ '=') :
    ∃ b, (Parse p args).1 = Outcome.returned b := by
  rcases Parse_never_raises p args hC with h | h
  · exact h
  · cases args with
    | nil => exact ⟨false, rfl⟩
    | cons first rest =>
      have hD := mainLoop_defined rest p.options hne
      simp only [Parse] at h
      rcases hr : mainLoop p.options rest with u | ⟨b, u⟩ | ⟨x, u⟩ | u <;>
        rw [hr] at h hD
      · have hK := mainLoop_keeps (fun o => o.Coherent = true) Coherent_SetFlagOption
          (fun o v h => Coherent_SetValueOption o v h) rest p.options hC
        rw [hr] at hK
        obtain ⟨b, hb⟩ := all_of_IsValid_ok u hK
        simp [validate, hb] at h
      · simp at h
      · simp at h
      · simp [Step.defined] at hD

/-! ### Token positions within the loop bounds -/

theorem mayRead_lt_length (arg : Str) (hd : arg.head? = some '-')
    (h1 : eqPos arg ≠ 1) (pos : Nat) (h : mayRead arg pos) : pos < arg.length := by
  cases hf : find arg '=' with
  | none =>
    have he : eqPos arg = arg.length := by simp [eqPos, hf]
    simp only [mayRead, flagCount, he, if_true, ne_eq, not_true_eq_false, false_and,
      or_false] at h
    exact h.2
  | some e =>
    have he : eqPos arg = e := by simp [eqPos, hf]
    have hlt := find_lt_length '=' arg e hf
    have hat := find_getElem? '=' arg e hf
    have h0 : e ≠ 0 := by
      intro h0
      subst h0
      cases arg with
      | nil => simp at hd
      | cons a as =>
        simp only [List.head?_cons, Option.some.injEq] at hd
        simp only [List.getElem?_cons_zero, Option.some.injEq] at hat
        rw [hd] at hat
        exact absurd hat (by decide)
    rw [he] at h1
    have hne : ¬ (e = arg.length) := by omega
    simp only [mayRead, flagCount, he, hne, if_false, size_t_sub] at h
    omega

theorem mayRead_wrapped (v : Str) (pos : Nat) (h : 1 ≤ pos) (h1 : pos < 2 ^ 64 - 1) :
    mayRead ('-' :: '=' :: v) pos := by
  have he : eqPos ('-' :: '=' :: v) = 1 := by
    simp [eqPos, find]
  left
  refine ⟨h, ?_⟩
  rw [he]
  simp only [flagCount, List.length_cons, size_t_sub]
  have : ¬ (1 = v.length + 1 + 1) := by omega
  rw [if_neg this]
  omega

theorem stoi_of_numeric_prefix (text : Str) (h : hasNumericPrefix text = true) :
    stoi text =
      if leadingNumber text < INT_MIN ∨ INT_MAX < leadingNumber text then
        Except.error Exn.out_of_range
      else Except.ok (leadingNumber text) := by
  unfold hasNumericPrefix at h
  have hd : (skipSign (skipSpace text)).takeWhile Char.isDigit ≠ [] := by
    cases hs : skipSign (skipSpace text) with
    | nil => rw [hs] at h; simp at h
    | cons c r =>
      rw [hs] at h
      simp only at h
      simp [List.takeWhile, h]
  simp only [stoi, leadingNumber, hd, if_false]

theorem hasNumericPrefix_ne_nil (text : Str) (h : hasNumericPrefix text = true) :
    text ≠ [] := by
  intro e
  subst e
  simp [hasNumericPrefix, skipSpace, skipSign] at h

theorem Parse_cluster_value_token (p : ArgParser) (prog : Str) (pre post : List Str)
    (c : Char) (cs : Str) (s s1 : List CommandLineOption) (i : Nat)
    (r : Res CommandLineOption)
    (harr : arrive p.options pre = some s)
    (hstep : dashArg s ('-' :: c :: cs) =
      match r with
      | Res.throws e opt1 => Step.throw e (s1.set i opt1)
      | Res.ok opt1 => Step.next (s1.set i opt1)) :
    Parse p (prog :: (pre ++ ('-' :: c :: cs) :: post)) = afterAssignment p prog post s1 i r := by
  rw [Parse_of_arrive p prog pre _ s harr, mainLoop_dash_cons, hstep]
  cases r with
  | ok o1 => rfl
  | throws e o1 => rfl

/-! ### The state at a failure is the state that the steps before it left -/

theorem flagLoop_fail_at (arg : Str) :
    ∀ (n j : Nat) (t : List CommandLineOption), (∀ o ∈ t, o.settled = true) →
      ∀ e t1, flagLoop arg n j t = Step.throw e t1 →
        ∃ k, k < n ∧ flagLoop arg k j t = Step.next t1 ∧
          flagLoop arg (k + 1) j t = Step.throw e t1 := by
  intro n
  induction n with
  | zero =>
    intro j t _ e t1 h
    simp [flagLoop] at h
  | succ n ih =>
    intro j t ht
    simp only [flagLoop]
    cases hc : charAt arg j with
    | none => exact fun e t1 h => by simp at h
    | some ch =>
      simp only
      cases hg : GetOption t ch with
      | error ex =>
        intro e t1 h
        simp only [Step.throw.injEq] at h
        obtain ⟨h1, h2⟩ := h
        subst h1
        subst h2
        exact ⟨0, Nat.succ_pos n, rfl, by simp only [flagLoop, hc, hg]⟩
      | ok r =>
        obtain ⟨i, opt⟩ := r
        have hi := (GetOption_some t ch i opt hg).1
        have hopt : opt.settled = true := ht opt (List.getElem?_mem hi)
        obtain ⟨hthrow, hok⟩ := SetFlagOption_settled opt hopt
        simp only
        cases hf : SetFlagOption opt with
        | throws ex o1 =>
          intro e t1 h
          simp only [Step.throw.injEq] at h
          have ho1 := hthrow ex o1 hf
          subst ho1
          rw [set_of_getElem? t i o1 hi] at h
          obtain ⟨h1, h2⟩ := h
          subst h1
          subst h2
          exact ⟨0, Nat.succ_pos n, rfl,
            by simp only [flagLoop, hc, hg, hf, set_of_getElem? t i o1 hi]⟩
        | ok o1 =>
          simp only
          have ht1 := settled_set t i o1 ht (hok o1 hf)
          by_cases hh : o1.option_type = OptionType.HelpOption
          · simp only [hh, if_true]
            exact fun e t1 h => by simp at h
          · simp only [hh, if_false]
            intro e t1 h
            obtain ⟨k, hk, hk1, hk2⟩ := ih (j + 1) (t.set i o1) ht1 e t1 h
            refine ⟨k + 1, by omega, ?_, ?_⟩
            · simp only [flagLoop, hc, hg, hf, hh, if_false]
              exact hk1
            · simp only [flagLoop, hc, hg, hf, hh, if_false]
              exact hk2

theorem shortOption_fail (s s1 : List CommandLineOption) (arg : Str) (eq_pos : Nat)
    (hs : ∀ o ∈ s, o.settled = true)
    (h : (∃ e, shortOption s arg eq_pos = Step.throw e s1) ∨
      shortOption s arg eq_pos = Step.ret false s1) :
    ∃ k, k ≤ flagCount arg eq_pos - 1 ∧ flagLoop arg k 1 s = Step.next s1 ∧
      (k < flagCount arg eq_pos - 1 → ∃ e, flagLoop arg (k + 1) 1 s = Step.throw e s1) := by
  have hnext := (flagLoop_fail arg (flagCount arg eq_pos - 1) 1 s hs).1
  have hthrow := flagLoop_fail_at arg (flagCount arg eq_pos - 1) 1 s hs
  cases hloop : flagLoop arg (flagCount arg eq_pos - 1) 1 s with
  | throw ex t1 =>
    obtain ⟨k, hk, hk1, hk2⟩ := hthrow ex t1 hloop
    simp only [shortOption, hloop] at h
    rcases h with ⟨e, h⟩ | h
    · simp only [Step.throw.injEq] at h
      rw [← h.2]
      exact ⟨k, Nat.le_of_lt hk, hk1, fun _ => ⟨ex, hk2⟩⟩
    · simp at h
  | ret b t1 =>
    have hb := flagLoop_ret_true arg _ _ _ _ _ hloop
    subst hb
    simp only [shortOption, hloop] at h
    rcases h with ⟨e, h⟩ | h <;> simp at h
  | undefined t1 =>
    simp only [shortOption, hloop] at h
    rcases h with ⟨e, h⟩ | h <;> simp at h
  | next t1 =>
    have ht1 := hnext t1 hloop
    simp only [shortOption, hloop] at h
    have hst : t1 = s1 := by
      split at h
      · split at h
        · rcases h with ⟨e, h⟩ | h <;> simp at h
        · split at h
          · rcases h with ⟨e, h⟩ | h
            · simp only [Step.throw.injEq] at h
              exact h.2
            · simp at h
          · rename_i i opt hget
            have hi := (GetOption_some t1 _ i opt hget).1
            have hopt : opt.settled = true := ht1 opt (List.getElem?_mem hi)
            split at h
            · rcases h with ⟨e, h⟩ | h
              · simp only [Step.throw.injEq] at h
                exact h.2
              · simp at h
            · split at h
              · rename_i ex o1 hf
                have ho1 := (SetValueOption_settled opt _ hopt).1 ex o1 hf
                subst ho1
                rw [set_of_getElem? t1 i o1 hi] at h
                rcases h with ⟨e, h⟩ | h
                · simp only [Step.throw.injEq] at h
                  exact h.2
                · simp at h
              · rcases h with ⟨e, h⟩ | h <;> simp at h
      · rcases h with ⟨e, h⟩ | h <;> simp at h
    subst hst
    exact ⟨flagCount arg eq_pos - 1, Nat.le_refl _, hloop,
      fun hk => absurd hk (Nat.lt_irrefl _)⟩

theorem dashArg_fail (s s1 : List CommandLineOption) (arg : Str)
    (hs : ∀ o ∈ s, o.settled = true)
    (h : (∃ e, dashArg s arg = Step.throw e s1) ∨ dashArg s arg = Step.ret false s1) :
    ((arg.length < 2 ∨ eqPos arg = arg.length - 1 ∨ arg.get? 1 = some '-') → s1 = s) ∧
    (¬ (arg.length < 2 ∨ eqPos arg = arg.length - 1 ∨ arg.get? 1 = some '-') →
      ∃ k, k ≤ flagCount arg (eqPos arg) - 1 ∧ flagLoop arg k 1 s = Step.next s1 ∧
        (k < flagCount arg (eqPos arg) - 1 →
          ∃ e, flagLoop arg (k + 1) 1 s = Step.throw e s1)) := by
  unfold dashArg at h
  by_cases h1 : arg.length < 2
  · rw [if_pos h1] at h
    refine ⟨fun _ => ?_, fun hn => absurd (Or.inl h1) hn⟩
    rcases h with ⟨e, h⟩ | h
    · simp at h
    · simp only [Step.ret.injEq, true_and] at h
      exact h.symm
  · rw [if_neg h1] at h
    by_cases h2 : eqPos arg = arg.length - 1
    · rw [if_pos h2] at h
      refine ⟨fun _ => ?_, fun hn => absurd (Or.inr (Or.inl h2)) hn⟩
      rcases h with ⟨e, h⟩ | h
      · simp at h
      · simp only [Step.ret.injEq, true_and] at h
        exact h.symm
    · rw [if_neg h2] at h
      by_cases h3 : arg.get? 1 = some '-'
      · rw [if_pos h3] at h
        exact ⟨fun _ => longOption_fail s s1 arg (eqPos arg) hs h,
          fun hn => absurd (Or.inr (Or.inr h3)) hn⟩
      · rw [if_neg h3] at h
        refine ⟨fun hl => ?_, fun _ => shortOption_fail s s1 arg (eqPos arg) hs h⟩
        rcases hl with hl | hl | hl
        · exact absurd hl h1
        · exact absurd hl h2
        · exact absurd hl h3

theorem positionalLoop_fail :
    ∀ (toks : List Str) (opt opt1 : CommandLineOption) (e : Exn), opt.settled = true →
      positionalLoop opt toks = Res.throws e opt1 →
      ∃ done tok behind, toks = done ++ tok :: behind ∧
        positionalLoop opt done = Res.ok opt1 ∧
        SetValueOption opt1 tok = Res.throws e opt1 := by
  intro toks
  induction toks with
  | nil => intro opt opt1 e _ h; simp [positionalLoop] at h
  | cons t toks ih =>
    intro opt opt1 e hopt h
    simp only [positionalLoop] at h
    obtain ⟨hthrow, hok⟩ := SetValueOption_settled opt t hopt
    cases hf : SetValueOption opt t with
    | throws ex o1 =>
      simp only [hf, Res.throws.injEq] at h
      have ho1 := hthrow ex o1 hf
      obtain ⟨h1, h2⟩ := h
      subst h1
      subst h2
      subst ho1
      exact ⟨[], t, toks, rfl, rfl, hf⟩
    | ok o1 =>
      simp only [hf] at h
      obtain ⟨done, tok, behind, hsplit, hdone, hfail⟩ := ih o1 opt1 e (hok o1 hf) h
      refine ⟨t :: done, tok, behind, by simp [hsplit], ?_, hfail⟩
      simp only [positionalLoop, hf, hdone]

/-- No rollback on failure, for settled options (coherent, bindings of the cardinality of
their option). The walk stands, after the tokens `pre`, at the options `s`. If the option
token there fails, by an exception or by `return false`, leaving the options `s1`, then
`Parse` returns false with the final state `s1`. For a long or malformed token `s1` is
`s`. For a short token `s1` is the state after exactly the flag activations that ran:
the loop run for `k` iterations ends in `s1`, and either `k` iterations are the whole
loop (the failure is behind it) or iteration `k + 1` is the one that throws. If the
token opens the positional mode and an assignment throws, the tokens split into those
assigned, which leave the positional option as it is in the final state, and the token
whose assignment throws without a write; with no positional option the final state is
`s`. -/
theorem Parse_failure_keeps_progress :
    (∀ (p : ArgParser) (prog : Str) (pre post : List Str) (c : Char) (cs : Str)
        (s s1 : List CommandLineOption),
      arrive p.options pre = some s → (∀ o ∈ s, o.settled = true) →
      ((∃ e, dashArg s ('-' :: c :: cs) = Step.throw e s1) ∨
        dashArg s ('-' :: c :: cs) = Step.ret false s1) →
      Parse p (prog :: (pre ++ ('-' :: c :: cs) :: post)) =
          (Outcome.returned false, { p with options := s1 }) ∧
        ((eqPos ('-' :: c :: cs) = cs.length + 1 ∨ c = '-') → s1 = s) ∧
        (eqPos ('-' :: c :: cs) ≠ cs.length + 1 → c ≠ '-' →
          ∃ k, k ≤ flagCount ('-' :: c :: cs) (eqPos ('-' :: c :: cs)) - 1 ∧
            flagLoop ('-' :: c :: cs) k 1 s = Step.next s1 ∧
            (k < flagCount ('-' :: c :: cs) (eqPos ('-' :: c :: cs)) - 1 →
              ∃ e, flagLoop ('-' :: c :: cs) (k + 1) 1 s = Step.throw e s1))) ∧
    (∀ (p : ArgParser) (prog : Str) (pre rest : List Str) (c : Char) (cs : Str)
        (s : List CommandLineOption) (i : Nat) (opt opt1 : CommandLineOption) (e : Exn),
      arrive p.options pre = some s → (∀ o ∈ s, o.settled = true) → c ≠ '-' →
      GetPositionalArgument s = Except.ok (i, opt) →
      positionalLoop opt ((c :: cs) :: rest) = Res.throws e opt1 →
      Parse p (prog :: (pre ++ (c :: cs) :: rest)) =
          (Outcome.returned false, { p with options := s.set i opt1 }) ∧
        ∃ done tok behind, (c :: cs) :: rest = done ++ tok :: behind ∧
          positionalLoop opt done = Res.ok opt1 ∧
          SetValueOption opt1 tok = Res.throws e opt1) ∧
    (∀ (p : ArgParser) (prog : Str) (pre rest : List Str) (c : Char) (cs : Str)
        (s : List CommandLineOption),
      arrive p.options pre = some s → c ≠ '-' →
      (∀ o ∈ s, o.is_positional = false) →
      Parse p (prog :: (pre ++ (c :: cs) :: rest)) =
        (Outcome.returned false, { p with options := s })) := by
  refine ⟨?_, ?_, ?_⟩
  · intro p prog pre post c cs s s1 harr hs h
    obtain ⟨hd1, hd2⟩ := dashArg_fail s s1 _ hs h
    refine ⟨?_, ?_, ?_⟩
    · rw [Parse_of_arrive p prog pre _ s harr, mainLoop_dash_cons]
      rcases h with ⟨e, h⟩ | h <;> rw [h]
    · intro hl
      apply hd1
      rcases hl with hl | hl
      · exact Or.inr (Or.inl (by simpa using hl))
      · exact Or.inr (Or.inr (by simp [hl]))
    · intro he hc
      apply hd2
      intro hl
      rcases hl with hl | hl | hl
      · simp only [List.length_cons] at hl
        omega
      · exact he (by simpa using hl)
      · exact hc (by simpa using hl)
  · intro p prog pre rest c cs s i opt opt1 e harr hs hc hpos hloop
    have hi : s[i]? = some opt := by
      unfold GetPositionalArgument at hpos
      cases hf : find_if (fun o : CommandLineOption => o.is_positional) s with
      | none => simp [hf] at hpos
      | some r =>
        simp only [hf, Except.ok.injEq] at hpos
        subst hpos
        exact (find_if_some _ s i opt hf).1
    refine ⟨?_, positionalLoop_fail _ opt opt1 e (hs opt (List.getElem?_mem hi)) hloop⟩
    rw [Parse_of_arrive p prog pre _ s harr, mainLoop_positional s c cs rest hc, hpos]
    simp only [hloop]
  · intro p prog pre rest c cs s harr hc hnone
    rw [Parse_of_arrive p prog pre _ s harr, mainLoop_positional s c cs rest hc,
      GetPositionalArgument_none s hnone]

/-- Instances of `Parse_failure_keeps_progress`: "--flag" then "--unknown" returns false
and leaves the flag true; the cluster "-fz" fails at the unknown `z` after the activation
of `f`, which stays. -/
theorem Parse_failure_keeps_progress_instances :
    Parse flagRegistry ("prog".toList :: (["--flag".toList] ++ "--unknown".toList :: [])) =
      (Outcome.returned false,
        { flagRegistry with
          options := (Parse flagRegistry ["prog".toList, "--flag".toList]).2.options }) ∧
    (Parse flagRegistry ["prog".toList, "--flag".toList, "--unknown".toList]).2.GetFlag
      "flag".toList = Except.ok true ∧
    Parse flagRegistry ("prog".toList :: ([] ++ "-fz".toList :: [])) =
      (Outcome.returned false,
        { flagRegistry with options := activate flagRegistry.options 'f' }) ∧
    (Parse flagRegistry ["prog".toList, "-fz".toList]).2.GetFlag "flag".toList =
      Except.ok true ∧
    flagRegistry.GetFlag "flag".toList = Except.ok false :=
  ⟨(Parse_failure_keeps_progress.1 flagRegistry "prog".toList ["--flag".toList] [] '-'
      "unknown".toList (Parse flagRegistry ["prog".toList, "--flag".toList]).2.options
      (Parse flagRegistry ["prog".toList, "--flag".toList]).2.options
      (by decide) (by decide) (Or.inl ⟨Exn.logic_error, by decide⟩)).1,
   by decide,
   (Parse_failure_keeps_progress.1 flagRegistry "prog".toList [] [] 'f'
      "z".toList flagRegistry.options (activate flagRegistry.options 'f')
      (by decide) (by decide) (Or.inl ⟨Exn.logic_error, by decide⟩)).1,
   by decide, by decide⟩

/-! ## The properties -/

/-- C1 at the input of the claim. With flags `a`, `b` and the Integer option `x`, `Parse`
on "-abx=5" returns true, sets `a` and assigns 5 to `x`, but leaves flag `b` at its
default false: the flag loop stops two characters before the '=' and so skips the
character that stands directly before the value-bearing short name. -/
theorem C1_cluster_value_skips_flag_before_value_name :
    (Parse abxRegistry ["prog".toList, "-abx=5".toList]).1 = Outcome.returned true ∧
    (Parse abxRegistry ["prog".toList, "-abx=5".toList]).2.GetFlag "alpha".toList =
      Except.ok true ∧
    (Parse abxRegistry ["prog".toList, "-abx=5".toList]).2.GetFlag "beta".toList =
      Except.ok false ∧
    (Parse abxRegistry ["prog".toList, "-abx=5".toList]).2.GetIntValue "xray".toList =
      Except.ok 5 := by
  decide

/-- C2 as stated fails: "--" consists of '-' followed by one character and has no '=',
and its character `-` resolves to a Flag option, yet `Parse` returns false and the flag
stays at its default: a token whose second character is '-' is read as a long option. -/
theorem C2_dash_named_flag_not_activated :
    GetOption dashFlagRegistry.options '-' =
      Except.ok (0, CommandLineOption.new OptionType.FlagOption '-' "dash".toList []) ∧
    "--".toList = '-' :: ['-'] ∧ '=' ∉ ['-'] ∧
    Parse dashFlagRegistry ["prog".toList, "--".toList] =
      (Outcome.returned false, dashFlagRegistry) ∧
    dashFlagRegistry.GetFlag "dash".toList = Except.ok false := by
  decide

/-- C2, amended. When the walk stands in front of a token '-' `c` `cs` without '=' whose
first character `c` behind the '-' is not '-', and every character of the cluster resolves
to a coherent option of kind Flag, then the token ends with every named flag set to true
and every other option unchanged, and the walk goes on behind the token: `Parse` continues
from the options `s'` where each option that a character resolves to is in the state that
`SetValue(true)` leaves (its getter returns true), and each option that no character
resolves to is as before. -/
theorem C2_short_flag_cluster (p : ArgParser) (prog : Str) (pre post : List Str) (c : Char)
    (cs : Str) (s : List CommandLineOption)
    (harr : arrive p.options pre = some s) (hc : c ≠ '-') (hne : '=' ∉ c :: cs)
    (hres : ∀ ch ∈ c :: cs, ∃ i o, GetOption s ch = Except.ok (i, o) ∧
      o.option_type = OptionType.FlagOption ∧ o.Coherent = true) :
    Parse p (prog :: (pre ++ ('-' :: c :: cs) :: post)) =
      Parse { p with options := (c :: cs).foldl activate s } (prog :: post) ∧
    ((c :: cs).foldl activate s).length = s.length ∧
    (∀ ch ∈ c :: cs, ∀ i o, GetOption s ch = Except.ok (i, o) →
      ((c :: cs).foldl activate s)[i]? = some (o.SetValueBool true).state ∧
      (o.SetValueBool true).state.GetFlag = Except.ok true) ∧
    (∀ k, (∀ ch ∈ c :: cs, ∀ o, GetOption s ch ≠ Except.ok (k, o)) →
      ((c :: cs).foldl activate s)[k]? = s[k]?) := by
  obtain ⟨h1, h2, h3⟩ := foldl_activate_spec (c :: cs) s
  refine ⟨?_, h1, ?_, h3⟩
  · rw [Parse_of_arrive p prog pre _ s harr, mainLoop_dash_cons,
      dashArg_flag_cluster s c cs hc hne hres]
    rfl
  · intro ch hch i o hg
    refine ⟨h2 ch hch i o hg, ?_⟩
    obtain ⟨i1, o1, hg1, hty, _⟩ := hres ch hch
    rw [hg] at hg1
    simp only [Except.ok.injEq, Prod.mk.injEq] at hg1
    rw [hg1.2]
    exact SetValueBool_state_GetFlag o1 hty

/-- C2 amended, instance: "-ac" with the flags `a`, `b`, `c` returns true with `a` and
`c` true and `b` at its default false. -/
theorem C2_short_flag_cluster_witness :
    Parse abcRegistry ("prog".toList :: ([] ++ "-ac".toList :: [])) =
      Parse { abcRegistry with options := "ac".toList.foldl activate abcRegistry.options }
        ("prog".toList :: []) ∧
    (Parse abcRegistry ["prog".toList, "-ac".toList]).1 = Outcome.returned true ∧
    (Parse abcRegistry ["prog".toList, "-ac".toList]).2.GetFlag "alpha".toList =
      Except.ok true ∧
    (Parse abcRegistry ["prog".toList, "-ac".toList]).2.GetFlag "gamma".toList =
      Except.ok true ∧
    (Parse abcRegistry ["prog".toList, "-ac".toList]).2.GetFlag "beta".toList =
      Except.ok false ∧
    (Parse abcRegistry ["prog".toList, "-ac".toList]).2.options.get? 1 =
      abcRegistry.options.get? 1 :=
  ⟨(C2_short_flag_cluster abcRegistry "prog".toList [] [] 'a' "c".toList abcRegistry.options
      (by decide) (by decide) (by decide)
      (fun ch hch => by
        have h : ch = 'a' ∨ ch = 'c' := by
          rcases List.mem_cons.mp hch with h | h
          · exact Or.inl h
          · exact Or.inr (List.mem_singleton.mp h)
        rcases h with rfl | rfl
        · exact ⟨0, CommandLineOption.new OptionType.FlagOption 'a' "alpha".toList [],
            by decide, by decide, by decide⟩
        · exact ⟨2, CommandLineOption.new OptionType.FlagOption 'c' "gamma".toList [],
            by decide, by decide, by decide⟩)).1,
   by decide, by decide, by decide, by decide, by decide⟩

/-- C3. Help short-circuit. Long form: when the walk stands in front of a token "--name"
(no '=') whose name resolves to an option of kind Help, `Parse` returns true at once.
Short form: when the walk stands in front of a short token, the flag loop reaches
position `j` (the activations before it ran without failure) and the character there
resolves to an option of kind Help, `Parse` returns true at once. In both cases the final
state is the state at the activation with the Help option set to true: the characters
and tokens behind it are not processed and no validity check takes place. -/
theorem C3_help_short_circuit :
    (∀ (p : ArgParser) (prog : Str) (pre post : List Str) (name : Str)
        (s : List CommandLineOption) (i : Nat) (h : CommandLineOption),
      arrive p.options pre = some s → '=' ∉ name → name ≠ [] →
      GetOptionLong s name = Except.ok (i, h) →
      h.option_type = OptionType.HelpOption → h.Coherent = true →
      Parse p (prog :: (pre ++ ('-' :: '-' :: name) :: post)) =
        (Outcome.returned true,
          { p with
            options := s.set i
              ({ h with argument_values := ArgumentStorageType.value (ValueType.bool true) }) })) ∧
    (∀ (p : ArgParser) (prog : Str) (pre post : List Str) (c : Char) (cs : Str)
        (s s1 : List CommandLineOption) (j : Nat) (ch : Char) (i : Nat) (h : CommandLineOption),
      arrive p.options pre = some s → c ≠ '-' →
      eqPos ('-' :: c :: cs) ≠ cs.length + 1 →
      1 ≤ j → j < flagCount ('-' :: c :: cs) (eqPos ('-' :: c :: cs)) →
      flagLoop ('-' :: c :: cs) (j - 1) 1 s = Step.next s1 →
      charAt ('-' :: c :: cs) j = some ch →
      GetOption s1 ch = Except.ok (i, h) →
      h.option_type = OptionType.HelpOption → h.Coherent = true →
      Parse p (prog :: (pre ++ ('-' :: c :: cs) :: post)) =
        (Outcome.returned true,
          { p with
            options := s1.set i
              ({ h with argument_values := ArgumentStorageType.value (ValueType.bool true) }) })) := by
  constructor
  · intro p prog pre post name s i h harr hname hne hget hty hco
    rw [Parse_of_arrive p prog pre _ s harr, mainLoop_dash_cons,
      dashArg_long_flag s name hname hne, hget]
    simp only [SetFlagOption_help h hty hco, hty, if_true]
  · intro p prog pre post c cs s s1 j ch i h harr hc heq h1 h2 hloop hch hget hty hco
    rw [Parse_of_arrive p prog pre _ s harr, mainLoop_dash_cons, dashArg_short s c cs hc heq]
    have hstop : flagLoop ('-' :: c :: cs)
        (flagCount ('-' :: c :: cs) (eqPos ('-' :: c :: cs)) - 1) 1 s
          = Step.ret true (s1.set i
              ({ h with argument_values := ArgumentStorageType.value (ValueType.bool true) })) := by
      rw [flagLoop_at _ _ j s s1 h1 h2 hloop]
      simp only [flagLoop, hch, hget, SetFlagOption_help h hty hco, hty, if_true]
    rw [shortOption_of_loop_stop s _ _ _ (by intro s2; simp) hstop]

/-- C3, instances. With the String option `f` still short of its minimum of one value,
"--help" returns true and the unknown token behind it is not looked at; "-vhz" sets the
flag `v`, returns true at `h`, and the unknown `z` is not looked at. -/
theorem C3_help_short_circuit_witness :
    ((helpRegistry.options.get? 1).map CommandLineOption.IsValid = some (Except.ok false) ∧
      Parse helpRegistry ("prog".toList :: ([] ++ "--help".toList :: ["--unknown".toList])) =
        (Outcome.returned true,
          { helpRegistry with
            options := helpRegistry.options.set 2
              ({ CommandLineOption.new OptionType.HelpOption 'h' "help".toList [] with
                argument_values := ArgumentStorageType.value (ValueType.bool true) }) })) ∧
    (Parse helpRegistry ("prog".toList :: ([] ++ "-vhz".toList :: ["--unknown".toList])) =
        (Outcome.returned true,
          { helpRegistry with
            options := (Parse helpRegistry ["prog".toList, "-v".toList]).2.options.set 2
              ({ CommandLineOption.new OptionType.HelpOption 'h' "help".toList [] with
                argument_values := ArgumentStorageType.value (ValueType.bool true) }) }) ∧
      (Parse helpRegistry ["prog".toList, "-v".toList]).2.GetFlag "verbose".toList =
        Except.ok true) :=
  ⟨⟨by decide,
    C3_help_short_circuit.1 helpRegistry "prog".toList [] ["--unknown".toList]
      "help".toList helpRegistry.options 2
      (CommandLineOption.new OptionType.HelpOption 'h' "help".toList [])
      (by decide) (by decide) (by decide) (by decide) (by decide) (by decide)⟩,
   ⟨C3_help_short_circuit.2 helpRegistry "prog".toList [] ["--unknown".toList] 'v'
      "hz".toList helpRegistry.options
      (Parse helpRegistry ["prog".toList, "-v".toList]).2.options 2 'h' 2
      (CommandLineOption.new OptionType.HelpOption 'h' "help".toList [])
      (by decide) (by decide) (by decide) (by decide) (by decide) (by decide) (by decide)
      (by decide) (by decide) (by decide),
    by decide⟩⟩

/-- C4. When the loop over the tokens behind the program name runs to its end (no token
fails, Help is not activated) and leaves the options `final`, `Parse` ends in the state
`final` and returns true if and only if `IsValid()` is true for every option of `final`;
in a coherent final state it returns false exactly when some option is not valid. -/
theorem C4_post_loop_validation (p : ArgParser) (prog : Str) (rest : List Str)
    (final : List CommandLineOption) (hloop : mainLoop p.options rest = Step.next final) :
    (Parse p (prog :: rest)).2.options = final ∧
    ((Parse p (prog :: rest)).1 = Outcome.returned true ↔
      ∀ o ∈ final, o.IsValid = Except.ok true) ∧
    ((∀ o ∈ final, o.Coherent = true) →
      ((Parse p (prog :: rest)).1 = Outcome.returned false ↔
        ∃ o ∈ final, o.IsValid = Except.ok false)) := by
  simp only [Parse, hloop, validate]
  refine ⟨?_, ?_, ?_⟩
  · cases all_of_IsValid final <;> rfl
  · rw [← all_of_IsValid_eq_true]
    cases h : all_of_IsValid final with
    | error e => simp
    | ok b => simp
  · intro hc
    rw [← all_of_IsValid_eq_false final hc]
    cases h : all_of_IsValid final with
    | error e => simp
    | ok b => simp

/-- C4, instance: "--mult" alone leaves the positional option `N` (minimum 1) without a
value, and `Parse` returns false; the loop ran to its end. -/
theorem C4_post_loop_validation_witness :
    mainLoop sumRegistry.options ["--mult".toList] =
        Step.next (Parse sumRegistry ["Program".toList, "--mult".toList]).2.options ∧
      ((Parse sumRegistry ["Program".toList, "--mult".toList]).1 = Outcome.returned false ∧
      ((Parse sumRegistry ["Program".toList, "--mult".toList]).1 = Outcome.returned true ↔
        ∀ o ∈ (Parse sumRegistry ["Program".toList, "--mult".toList]).2.options,
          o.IsValid = Except.ok true)) :=
  ⟨by decide, by decide,
    (C4_post_loop_validation sumRegistry "Program".toList ["--mult".toList] _ (by decide)).2.1⟩

/-- C5 as stated fails in two ways. The empty token does not start with '-', yet nothing
is passed to the positional option `N`: `Parse` returns false with the registry unchanged.
And of the tokens "7", "x", "9" only "7" is stored: the assignment of "x" throws, `Parse`
returns false, and "9" is never passed to the positional option. -/
theorem C5_slurp_refused_or_cut_short :
    (("".toList.head? ≠ some '-') ∧
      Parse sumRegistry ["Program".toList, "".toList, "1".toList] =
        (Outcome.returned false, sumRegistry)) ∧
    ((Parse sumRegistry ["Program".toList, "7".toList, "x".toList, "9".toList]).1 =
        Outcome.returned false ∧
      (Parse sumRegistry ["Program".toList, "7".toList, "x".toList,
        "9".toList]).2.GetIntValueAt "N".toList 0 = Except.ok 7 ∧
      (Parse sumRegistry ["Program".toList, "7".toList, "x".toList,
        "9".toList]).2.GetIntValueAt "N".toList 1 = Except.error Exn.out_of_range) := by
  decide

/-- C5, amended. When the walk stands in front of a non-empty token that does not start
with '-' and the registry has a positional option, that token and all remaining tokens,
whatever they start with, go in order to the positional option and to no other option,
up to the first assignment that throws: the final options are those at the token with the
positional option replaced by the state the inner loop left. If an assignment throws,
`Parse` returns false. If none throws, the result is that of the validity check, and for
an Integer positional option storing the sequence `prev` the stored sequence becomes
`prev` followed by the integer values of those tokens in order. No assignment throws when
the option is a multi-value Integer option without binding or bound to a vector and every
one of those tokens converts. -/
theorem C5_positional_slurp (p : ArgParser) (prog : Str) (pre rest : List Str) (c : Char)
    (cs : Str) (s : List CommandLineOption) (i : Nat) (opt : CommandLineOption)
    (harr : arrive p.options pre = some s) (hc : c ≠ '-')
    (hpos : GetPositionalArgument s = Except.ok (i, opt)) :
    (Parse p (prog :: (pre ++ (c :: cs) :: rest))).2.options =
        s.set i (positionalLoop opt ((c :: cs) :: rest)).state ∧
    (∀ e o1, positionalLoop opt ((c :: cs) :: rest) = Res.throws e o1 →
      (Parse p (prog :: (pre ++ (c :: cs) :: rest))).1 = Outcome.returned false) ∧
    (∀ opt1, positionalLoop opt ((c :: cs) :: rest) = Res.ok opt1 →
      (Parse p (prog :: (pre ++ (c :: cs) :: rest))).1 = (validate (s.set i opt1)).1 ∧
      ∀ prev, opt.option_type = OptionType.IntegerOption →
        opt.argument_values = ArgumentStorageType.array (ArrayType.ints prev) →
        ∃ vals, List.Forall₂ (fun t v => stoi t = Except.ok v) ((c :: cs) :: rest) vals ∧
          opt1.argument_values = ArgumentStorageType.array (ArrayType.ints (prev ++ vals))) ∧
    (∀ prev vals, opt.option_type = OptionType.IntegerOption →
      opt.argument_values = ArgumentStorageType.array (ArrayType.ints prev) →
      opt.is_multi_value = true →
      (opt.external_values = ExternalStorageType.monostate ∨
        ∃ w, opt.external_values = ExternalStorageType.arrayRef (ArrayRefType.ints w)) →
      List.Forall₂ (fun t v => stoi t = Except.ok v) ((c :: cs) :: rest) vals →
      ∃ opt1, positionalLoop opt ((c :: cs) :: rest) = Res.ok opt1) := by
  have key : mainLoop s ((c :: cs) :: rest) =
      match positionalLoop opt ((c :: cs) :: rest) with
      | Res.throws e opt1 => Step.throw e (s.set i opt1)
      | Res.ok opt1 => Step.next (s.set i opt1) := by
    rw [mainLoop_positional s c cs rest hc, hpos]
  rw [Parse_of_arrive p prog pre _ s harr, key]
  refine ⟨?_, ?_, ?_, ?_⟩
  · cases h : positionalLoop opt ((c :: cs) :: rest) with
    | ok o1 =>
      simp only [Res.state, validate]
      cases all_of_IsValid (s.set i o1) <;> rfl
    | throws e o1 => rfl
  · intro e o1 h
    simp only [h]
  · intro opt1 h
    refine ⟨by simp only [h], ?_⟩
    intro prev hty hav
    exact positionalLoop_int_stored _ opt opt1 prev hty hav h
  · intro prev vals hty hav hmv hev hall
    exact positionalLoop_int_completes _ vals opt prev hty hav hmv hev hall

/-- C5 amended, instance: "--sum", "1", "2", "3" with the flag `sum` and the multi-value
positional Integer option `N` returns true with `sum` true and the values 1, 2, 3. -/
theorem C5_positional_slurp_witness :
    (GetPositionalArgument (Parse sumRegistry ["Program".toList, "--sum".toList]).2.options =
      Except.ok (2, (((CommandLineOption.new OptionType.IntegerOption '\x00' "N".toList
        []).MultiValue 1).state.Positional).state)) ∧
    (Parse sumRegistry ("Program".toList :: (["--sum".toList] ++
        "1".toList :: ["2".toList, "3".toList]))).2.options =
      (Parse sumRegistry ["Program".toList, "--sum".toList]).2.options.set 2
        (positionalLoop (((CommandLineOption.new OptionType.IntegerOption '\x00' "N".toList
          []).MultiValue 1).state.Positional).state
          ["1".toList, "2".toList, "3".toList]).state ∧
    (Parse sumRegistry ["Program".toList, "--sum".toList, "1".toList, "2".toList,
      "3".toList]).1 = Outcome.returned true ∧
    (Parse sumRegistry ["Program".toList, "--sum".toList, "1".toList, "2".toList,
      "3".toList]).2.GetFlag "sum".toList = Except.ok true ∧
    ((Parse sumRegistry ["Program".toList, "--sum".toList, "1".toList, "2".toList,
      "3".toList]).2.options.get? 2).map CommandLineOption.argument_values =
        some (ArgumentStorageType.array (ArrayType.ints [1, 2, 3])) :=
  ⟨by decide,
   (C5_positional_slurp sumRegistry "Program".toList ["--sum".toList]
      ["2".toList, "3".toList] '1' [] (Parse sumRegistry ["Program".toList,
        "--sum".toList]).2.options 2
      (((CommandLineOption.new OptionType.IntegerOption '\x00' "N".toList []).MultiValue
        1).state.Positional).state (by decide) (by decide) (by decide)).1,
   by decide, by decide, by decide⟩

/-- C6. `Parse` returns false for the empty token sequence; and when the main walk stands
(after option tokens processed without failure and without Help) in front of a token that
is empty, is exactly "-", is exactly "--", or starts with '-' and has its first '=' as its
last character, `Parse` returns false and the options are as they were before that token. -/
theorem C6_malformed_token_rejected :
    (∀ p : ArgParser, Parse p [] = (Outcome.returned false, p)) ∧
    (∀ (p : ArgParser) (prog : Str) (pre post : List Str) (tok : Str)
        (s : List CommandLineOption),
      arrive p.options pre = some s →
      (tok = [] ∨ tok = ['-'] ∨ tok = ['-', '-'] ∨
        ∃ body : Str, tok = '-' :: (body ++ ['=']) ∧ '=' ∉ body) →
      Parse p (prog :: (pre ++ tok :: post)) =
        (Outcome.returned false, { p with options := s })) := by
  refine ⟨fun p => rfl, ?_⟩
  intro p prog pre post tok s harr htok
  rw [Parse_of_arrive p prog pre (tok :: post) s harr]
  rcases htok with h | h | h | ⟨body, h, hbody⟩
  · subst h
    simp [mainLoop]
  · subst h
    simp [mainLoop, dashArg]
  · subst h
    simp [mainLoop, dashArg, eqPos, find, longOption]
  · subst h
    have hfind : find ('-' :: (body ++ ['='])) '=' = some (body.length + 1) := by
      have := find_append_of_not_mem '=' body [] hbody
      simp [find, this]
    simp [mainLoop, dashArg, eqPos, hfind]

/-- C6, instance: after the flag token "-a", the token "-x=" is rejected and leaves the
registry as "-a" left it; the token "-b" behind it is not processed. -/
theorem C6_malformed_token_rejected_witness :
    (arrive abxRegistry.options ["-a".toList] =
        some (Parse abxRegistry ["prog".toList, "-a".toList]).2.options ∧
      ("-x=".toList = '-' :: (['x'] ++ ['=']) ∧ '=' ∉ ['x'])) ∧
    Parse abxRegistry ("prog".toList :: (["-a".toList] ++ "-x=".toList :: ["-b".toList])) =
      (Outcome.returned false, { abxRegistry with
        options := (Parse abxRegistry ["prog".toList, "-a".toList]).2.options }) :=
  ⟨⟨by decide, by decide⟩,
    C6_malformed_token_rejected.2 abxRegistry "prog".toList ["-a".toList] ["-b".toList]
      "-x=".toList _ (by decide) (Or.inr (Or.inr (Or.inr ⟨['x'], by decide, by decide⟩)))⟩

/-- C7 as stated fails: "5abc" is not a numeric text, yet both "--count=5abc" and
"-c=5abc" are accepted for the Integer option `count`: `Parse` returns true and the
option holds 5, the number that `std::stoi` reads at the start of the text. -/
theorem C7_text_with_numeric_prefix_accepted :
    isNumeric "5abc".toList = false ∧
    (Parse countRegistry ["prog".toList, "--count=5abc".toList]).1 = Outcome.returned true ∧
    (Parse countRegistry ["prog".toList, "--count=5abc".toList]).2.GetIntValue "count".toList =
      Except.ok 5 ∧
    (Parse countRegistry ["prog".toList, "-c=5abc".toList]).1 = Outcome.returned true ∧
    (Parse countRegistry ["prog".toList, "-c=5abc".toList]).2.GetIntValue "count".toList =
      Except.ok 5 := by
  decide

/-- C7, amended. A value assignment whose resolved option is an Integer option is judged
by the number that the text starts with. Long form: the walk stands in front of
"--name=text". Short form: the walk stands in front of a token "-c...=text" (`c` is not
'-'), the flag loop of the token runs to its end leaving the options `s1`, and the
character before the '=' resolves in `s1` to the Integer option. In both forms: a text
that does not start with a number (no decimal digit stands behind the optional leading
white space and the optional sign) makes `Parse` return false, and the assignment changes
no option; a text that starts with a number outside the range of `int` does the same;
for a text that starts with a number in the range of `int` the token is `SetValue` of
that number on the option, whatever follows the number in the text, and when the option
is coherent with a binding of its cardinality (or none) that call returns and the walk
goes on behind the token. -/
theorem C7_integer_text_judged_by_leading_number :
    (∀ (p : ArgParser) (prog : Str) (pre post : List Str) (name text : Str)
        (s : List CommandLineOption) (i : Nat) (opt : CommandLineOption),
      arrive p.options pre = some s → '=' ∉ name →
      GetOptionLong s name = Except.ok (i, opt) →
      opt.option_type = OptionType.IntegerOption →
      hasNumericPrefix text = false →
      Parse p (prog :: (pre ++ ('-' :: '-' :: (name ++ '=' :: text)) :: post)) =
        (Outcome.returned false, { p with options := s })) ∧
    (∀ (p : ArgParser) (prog : Str) (pre post : List Str) (c : Char) (cs : Str) (e : Nat)
        (s s1 : List CommandLineOption) (x : Char) (i : Nat) (opt : CommandLineOption),
      arrive p.options pre = some s → c ≠ '-' →
      find ('-' :: c :: cs) '=' = some e → e ≠ cs.length + 1 →
      flagLoop ('-' :: c :: cs) (flagCount ('-' :: c :: cs) e - 1) 1 s = Step.next s1 →
      charAt ('-' :: c :: cs) (e - 1) = some x →
      GetOption s1 x = Except.ok (i, opt) →
      opt.option_type = OptionType.IntegerOption →
      hasNumericPrefix (('-' :: c :: cs).drop (e + 1)) = false →
      Parse p (prog :: (pre ++ ('-' :: c :: cs) :: post)) =
        (Outcome.returned false, { p with options := s1 })) ∧
    (∀ (p : ArgParser) (prog : Str) (pre post : List Str) (name text : Str)
        (s : List CommandLineOption) (i : Nat) (opt : CommandLineOption),
      arrive p.options pre = some s → '=' ∉ name →
      GetOptionLong s name = Except.ok (i, opt) →
      opt.option_type = OptionType.IntegerOption →
      hasNumericPrefix text = true →
      (leadingNumber text < INT_MIN ∨ INT_MAX < leadingNumber text →
        Parse p (prog :: (pre ++ ('-' :: '-' :: (name ++ '=' :: text)) :: post)) =
          (Outcome.returned false, { p with options := s })) ∧
      (INT_MIN ≤ leadingNumber text → leadingNumber text ≤ INT_MAX →
        Parse p (prog :: (pre ++ ('-' :: '-' :: (name ++ '=' :: text)) :: post)) =
            afterAssignment p prog post s i (opt.SetValueInt (leadingNumber text)) ∧
          (opt.Coherent = true → opt.bindingMatches = true →
            ∃ o1, opt.SetValueInt (leadingNumber text) = Res.ok o1 ∧
              Parse p (prog :: (pre ++ ('-' :: '-' :: (name ++ '=' :: text)) :: post)) =
                Parse { p with options := s.set i o1 } (prog :: post)))) ∧
    (∀ (p : ArgParser) (prog : Str) (pre post : List Str) (c : Char) (cs : Str) (e : Nat)
        (s s1 : List CommandLineOption) (x : Char) (i : Nat) (opt : CommandLineOption),
      arrive p.options pre = some s → c ≠ '-' →
      find ('-' :: c :: cs) '=' = some e → e ≠ cs.length + 1 →
      flagLoop ('-' :: c :: cs) (flagCount ('-' :: c :: cs) e - 1) 1 s = Step.next s1 →
      charAt ('-' :: c :: cs) (e - 1) = some x →
      GetOption s1 x = Except.ok (i, opt) →
      opt.option_type = OptionType.IntegerOption →
      hasNumericPrefix (('-' :: c :: cs).drop (e + 1)) = true →
      (leadingNumber (('-' :: c :: cs).drop (e + 1)) < INT_MIN ∨
          INT_MAX < leadingNumber (('-' :: c :: cs).drop (e + 1)) →
        Parse p (prog :: (pre ++ ('-' :: c :: cs) :: post)) =
          (Outcome.returned false, { p with options := s1 })) ∧
      (INT_MIN ≤ leadingNumber (('-' :: c :: cs).drop (e + 1)) →
        leadingNumber (('-' :: c :: cs).drop (e + 1)) ≤ INT_MAX →
        Parse p (prog :: (pre ++ ('-' :: c :: cs) :: post)) =
            afterAssignment p prog post s1 i
              (opt.SetValueInt (leadingNumber (('-' :: c :: cs).drop (e + 1)))) ∧
          (opt.Coherent = true → opt.bindingMatches = true →
            ∃ o1, opt.SetValueInt (leadingNumber (('-' :: c :: cs).drop (e + 1))) =
                Res.ok o1 ∧
              Parse p (prog :: (pre ++ ('-' :: c :: cs) :: post)) =
                Parse { p with options := s1.set i o1 } (prog :: post)))) := by
  refine ⟨?_, ?_, ?_, ?_⟩
  · intro p prog pre post name v s i opt harr hname hget hty hnum
    have hi := (GetOptionLong_some s name i opt hget).1
    rw [Parse_of_arrive p prog pre _ s harr, mainLoop_dash_cons]
    by_cases hv : v = []
    · subst hv
      simp [dashArg, eqPos_long_value name [] hname]
    · simp only [dashArg_long_value s name v hname hv, hget,
        SetValueOption_of_no_numeric_prefix opt v hty hnum, set_of_getElem? s i opt hi]
  · intro p prog pre post c cs e s s1 x i opt harr hc hfind he hloop hx hget hty hnum
    have hi := (GetOption_some s1 x i opt hget).1
    rw [Parse_of_arrive p prog pre _ s harr]
    have hne : ('-' :: c :: cs) ≠ [] := by simp
    have hep : eqPos ('-' :: c :: cs) = e := by simp [eqPos, hfind]
    have hstep : dashArg s ('-' :: c :: cs) = Step.throw Exn.invalid_argument s1 := by
      rw [dashArg_short s c cs hc (by rw [hep]; exact he), hep,
        shortOption_value s s1 _ e hfind hloop]
      simp only [hx, hget, SetValueOption_of_no_numeric_prefix opt _ hty hnum,
        set_of_getElem? s1 i opt hi]
    simp only [mainLoop, hne, if_false, List.head?_cons, if_true, hstep]
  · intro p prog pre post name v s i opt harr hname hget hty hnum
    have hi := (GetOptionLong_some s name i opt hget).1
    have hv := hasNumericPrefix_ne_nil v hnum
    have hst := stoi_of_numeric_prefix v hnum
    constructor
    · intro hout
      rw [if_pos hout] at hst
      rw [Parse_of_arrive p prog pre _ s harr, mainLoop_dash_cons]
      simp only [dashArg_long_value s name v hname hv, hget, SetValueOption, hty, if_true,
        hst, set_of_getElem? s i opt hi]
    · intro hlo hhi
      have hin : ¬ (leadingNumber v < INT_MIN ∨ INT_MAX < leadingNumber v) := by
        intro hh
        rcases hh with hh | hh
        · exact absurd hlo (not_le.mpr hh)
        · exact absurd hhi (not_le.mpr hh)
      rw [if_neg hin] at hst
      have hP : Parse p (prog :: (pre ++ ('-' :: '-' :: (name ++ '=' :: v)) :: post)) =
          afterAssignment p prog post s i (opt.SetValueInt (leadingNumber v)) := by
        apply Parse_value_token p prog pre post '-' (name ++ '=' :: v) s i _ harr
        rw [dashArg_long_value s name v hname hv, hget]
        simp [SetValueOption, hty, hst]
      refine ⟨hP, fun hco hbm => ?_⟩
      obtain ⟨o1, ho1, -⟩ := SetValueInt_bound opt (leadingNumber v) hty hco hbm
      exact ⟨o1, ho1, by rw [hP, ho1]; rfl⟩
  · intro p prog pre post c cs e s s1 x i opt harr hc hfind he hloop hx hget hty hnum
    have hi := (GetOption_some s1 x i opt hget).1
    have hep : eqPos ('-' :: c :: cs) = e := by simp [eqPos, hfind]
    have hst := stoi_of_numeric_prefix _ hnum
    have hdash : dashArg s ('-' :: c :: cs) =
        match SetValueOption opt (('-' :: c :: cs).drop (e + 1)) with
        | Res.throws ex opt1 => Step.throw ex (s1.set i opt1)
        | Res.ok opt1 => Step.next (s1.set i opt1) := by
      rw [dashArg_short s c cs hc (by rw [hep]; exact he), hep,
        shortOption_value s s1 _ e hfind hloop]
      simp only [hx, hget]
    constructor
    · intro hout
      rw [if_pos hout] at hst
      rw [Parse_of_arrive p prog pre _ s harr, mainLoop_dash_cons, hdash]
      simp only [SetValueOption, hty, if_true, hst, set_of_getElem? s1 i opt hi]
    · intro hlo hhi
      have hin : ¬ (leadingNumber (('-' :: c :: cs).drop (e + 1)) < INT_MIN ∨
          INT_MAX < leadingNumber (('-' :: c :: cs).drop (e + 1))) := by
        intro hh
        rcases hh with hh | hh
        · exact absurd hlo (not_le.mpr hh)
        · exact absurd hhi (not_le.mpr hh)
      rw [if_neg hin] at hst
      have hP : Parse p (prog :: (pre ++ ('-' :: c :: cs) :: post)) =
          afterAssignment p prog post s1 i
            (opt.SetValueInt (leadingNumber (('-' :: c :: cs).drop (e + 1)))) := by
        apply Parse_cluster_value_token p prog pre post c cs s s1 i _ harr
        rw [hdash]
        simp only [SetValueOption, hty, if_true, hst]
      refine ⟨hP, fun hco hbm => ?_⟩
      obtain ⟨o1, ho1, -⟩ := SetValueInt_bound opt _ hty hco hbm
      exact ⟨o1, ho1, by rw [hP, ho1]; rfl⟩

/-- C7 amended, instances for the Integer option `count`: "--count=abc" and "-c=abc" are
rejected; "--count=2147483648x" starts with a number outside the range of `int` and is
rejected; "--count=5abc" and "-c=5abc" are `SetValue(5)`, after which `Parse` returns
true with the value 5. -/
theorem C7_integer_text_judged_by_leading_number_witness :
    (hasNumericPrefix "abc".toList = false ∧
      Parse countRegistry ("prog".toList :: ([] ++ "--count=abc".toList :: [])) =
        (Outcome.returned false, countRegistry)) ∧
    (hasNumericPrefix ("-c=abc".toList.drop (2 + 1)) = false ∧
      Parse countRegistry ("prog".toList :: ([] ++ "-c=abc".toList :: [])) =
        (Outcome.returned false, countRegistry)) ∧
    (hasNumericPrefix "2147483648x".toList = true ∧
      INT_MAX < leadingNumber "2147483648x".toList ∧
      Parse countRegistry ("prog".toList :: ([] ++ "--count=2147483648x".toList :: [])) =
        (Outcome.returned false, countRegistry)) ∧
    (hasNumericPrefix "5abc".toList = true ∧ leadingNumber "5abc".toList = 5 ∧
      Parse countRegistry ("prog".toList :: ([] ++ "--count=5abc".toList :: [])) =
        afterAssignment countRegistry "prog".toList [] countRegistry.options 0
          ((CommandLineOption.new OptionType.IntegerOption 'c' "count".toList []).SetValueInt
            (leadingNumber "5abc".toList)) ∧
      (Parse countRegistry ["prog".toList, "--count=5abc".toList]).2.GetIntValue
        "count".toList = Except.ok 5) ∧
    (Parse countRegistry ("prog".toList :: ([] ++ "-c=5abc".toList :: [])) =
        afterAssignment countRegistry "prog".toList [] countRegistry.options 0
          ((CommandLineOption.new OptionType.IntegerOption 'c' "count".toList []).SetValueInt
            (leadingNumber ("-c=5abc".toList.drop (2 + 1)))) ∧
      (Parse countRegistry ["prog".toList, "-c=5abc".toList]).1 = Outcome.returned true) :=
  ⟨⟨by decide,
    C7_integer_text_judged_by_leading_number.1 countRegistry "prog".toList [] []
      "count".toList "abc".toList countRegistry.options 0
      (CommandLineOption.new OptionType.IntegerOption 'c' "count".toList [])
      (by decide) (by decide) (by decide) (by decide) (by decide)⟩,
   ⟨by decide,
    C7_integer_text_judged_by_leading_number.2.1 countRegistry "prog".toList [] [] 'c'
      "=abc".toList 2 countRegistry.options countRegistry.options 'c' 0
      (CommandLineOption.new OptionType.IntegerOption 'c' "count".toList [])
      (by decide) (by decide) (by decide) (by decide) (by decide) (by decide) (by decide)
      (by decide) (by decide)⟩,
   ⟨by decide, by decide,
    (C7_integer_text_judged_by_leading_number.2.2.1 countRegistry "prog".toList [] []
      "count".toList "2147483648x".toList countRegistry.options 0
      (CommandLineOption.new OptionType.IntegerOption 'c' "count".toList [])
      (by decide) (by decide) (by decide) (by decide) (by decide)).1
      (Or.inr (by decide))⟩,
   ⟨by decide, by decide,
    ((C7_integer_text_judged_by_leading_number.2.2.1 countRegistry "prog".toList [] []
      "count".toList "5abc".toList countRegistry.options 0
      (CommandLineOption.new OptionType.IntegerOption 'c' "count".toList [])
      (by decide) (by decide) (by decide) (by decide) (by decide)).2
      (by decide) (by decide)).1,
    by decide⟩,
   ⟨((C7_integer_text_judged_by_leading_number.2.2.2 countRegistry "prog".toList [] [] 'c'
      "=5abc".toList 2 countRegistry.options countRegistry.options 'c' 0
      (CommandLineOption.new OptionType.IntegerOption 'c' "count".toList [])
      (by decide) (by decide) (by decide) (by decide) (by decide) (by decide) (by decide)
      (by decide) (by decide)).2 (by decide) (by decide)).1,
    by decide⟩⟩

/-- C8. Unknown names fail. Long form: when the walk stands in front of a token "--name" or
"--name=v" whose name is the long name of no declared option, `Parse` returns false.
Short form: when the walk stands in front of a short token (second character not '-',
first '=' not last) and a character that the token processes is the short name of no
declared option, `Parse` returns false; the processed characters are those at the flag
positions `1 ≤ j < flagCount` that the flag loop reaches, and the character before the
'=' once the flag loop has run to its end. The options stay as they were when the
unknown name was looked up. -/
theorem C8_unknown_names_fail :
    (∀ (p : ArgParser) (prog : Str) (pre post : List Str) (name tail : Str)
        (s : List CommandLineOption),
      arrive p.options pre = some s → '=' ∉ name → (tail = [] ∨ ∃ v, tail = '=' :: v) →
      (∀ o ∈ s, o.long_opt ≠ name) →
      Parse p (prog :: (pre ++ ('-' :: '-' :: (name ++ tail)) :: post)) =
        (Outcome.returned false, { p with options := s })) ∧
    (∀ (p : ArgParser) (prog : Str) (pre post : List Str) (c : Char) (cs : Str)
        (s s1 : List CommandLineOption) (j : Nat) (ch : Char),
      arrive p.options pre = some s → c ≠ '-' →
      eqPos ('-' :: c :: cs) ≠ cs.length + 1 →
      1 ≤ j → j < flagCount ('-' :: c :: cs) (eqPos ('-' :: c :: cs)) →
      flagLoop ('-' :: c :: cs) (j - 1) 1 s = Step.next s1 →
      charAt ('-' :: c :: cs) j = some ch →
      (∀ o ∈ s, o.short_opt ≠ ch) →
      Parse p (prog :: (pre ++ ('-' :: c :: cs) :: post)) =
        (Outcome.returned false, { p with options := s1 })) ∧
    (∀ (p : ArgParser) (prog : Str) (pre post : List Str) (c : Char) (cs : Str) (e : Nat)
        (s s1 : List CommandLineOption) (ch : Char),
      arrive p.options pre = some s → c ≠ '-' →
      find ('-' :: c :: cs) '=' = some e → e ≠ cs.length + 1 →
      flagLoop ('-' :: c :: cs) (flagCount ('-' :: c :: cs) e - 1) 1 s = Step.next s1 →
      charAt ('-' :: c :: cs) (e - 1) = some ch →
      (∀ o ∈ s, o.short_opt ≠ ch) →
      Parse p (prog :: (pre ++ ('-' :: c :: cs) :: post)) =
        (Outcome.returned false, { p with options := s1 })) := by
  refine ⟨?_, ?_, ?_⟩
  · intro p prog pre post name tail s harr hname htail hunk
    rw [Parse_of_arrive p prog pre _ s harr, mainLoop_dash_cons]
    have hget := GetOptionLong_unknown s name hunk
    rcases htail with rfl | ⟨v, rfl⟩
    · by_cases hn : name = []
      · subst hn
        simp [dashArg, eqPos, find, longOption]
      · rw [List.append_nil, dashArg_long_flag s name hname hn, hget]
    · by_cases hv : v = []
      · subst hv
        have hep := eqPos_long_value name [] hname
        simp [dashArg, hep]
      · rw [dashArg_long_value s name v hname hv, hget]
  · intro p prog pre post c cs s s1 j ch harr hc heq h1 h2 hloop hch hunk
    rw [Parse_of_arrive p prog pre _ s harr, mainLoop_dash_cons, dashArg_short s c cs hc heq]
    have hunk1 := short_opt_unknown_of_map s s1 ch (flagLoop_short_opts _ _ _ s s1 hloop) hunk
    have hstop : flagLoop ('-' :: c :: cs)
        (flagCount ('-' :: c :: cs) (eqPos ('-' :: c :: cs)) - 1) 1 s
          = Step.throw Exn.logic_error s1 := by
      rw [flagLoop_at _ _ j s s1 h1 h2 hloop]
      simp only [flagLoop, hch, GetOption_unknown s1 ch hunk1]
    rw [shortOption_of_loop_stop s _ _ _ (by intro s2; simp) hstop]
  · intro p prog pre post c cs e s s1 ch harr hc hfind he hloop hch hunk
    have hep : eqPos ('-' :: c :: cs) = e := by simp [eqPos, hfind]
    rw [Parse_of_arrive p prog pre _ s harr, mainLoop_dash_cons,
      dashArg_short s c cs hc (by rw [hep]; exact he), hep,
      shortOption_value s s1 _ e hfind hloop]
    have hunk1 := short_opt_unknown_of_map s s1 ch (flagLoop_short_opts _ _ _ s s1 hloop) hunk
    simp only [hch, GetOption_unknown s1 ch hunk1]

/-- C8, instances: "--unknown" and "--unknown=1" (no such long name), "-az" (the flag
loop sets `a`, then `z` is no short name) and "-z=1" (`z` is no short name). -/
theorem C8_unknown_names_fail_witness :
    (Parse abxRegistry ("prog".toList :: ([] ++ "--unknown".toList :: ["-b".toList])) =
        (Outcome.returned false, abxRegistry) ∧
      Parse abxRegistry ("prog".toList :: ([] ++ "--unknown=1".toList :: ["-b".toList])) =
        (Outcome.returned false, abxRegistry)) ∧
    (Parse abxRegistry ("prog".toList :: ([] ++ "-az".toList :: ["-b".toList])) =
        (Outcome.returned false, (Parse abxRegistry ["prog".toList, "-a".toList]).2) ∧
      (Parse abxRegistry ["prog".toList, "-a".toList]).2.GetFlag "alpha".toList =
        Except.ok true) ∧
    Parse abxRegistry ("prog".toList :: ([] ++ "-z=1".toList :: ["-b".toList])) =
      (Outcome.returned false, abxRegistry) :=
  ⟨⟨C8_unknown_names_fail.1 abxRegistry "prog".toList [] ["-b".toList] "unknown".toList []
      abxRegistry.options (by decide) (by decide) (Or.inl rfl) (by decide),
    C8_unknown_names_fail.1 abxRegistry "prog".toList [] ["-b".toList] "unknown".toList
      "=1".toList abxRegistry.options (by decide) (by decide) (Or.inr ⟨"1".toList, by decide⟩)
      (by decide)⟩,
   ⟨C8_unknown_names_fail.2.1 abxRegistry "prog".toList [] ["-b".toList] 'a' "z".toList
      abxRegistry.options (Parse abxRegistry ["prog".toList, "-a".toList]).2.options 2 'z'
      (by decide) (by decide) (by decide) (by decide) (by decide) (by decide) (by decide)
      (by decide),
    by decide⟩,
   C8_unknown_names_fail.2.2 abxRegistry "prog".toList [] ["-b".toList] 'z' "=1".toList 2
      abxRegistry.options abxRegistry.options 'z' (by decide) (by decide) (by decide)
      (by decide) (by decide) (by decide) (by decide)⟩

/-- C9. A value assignment whose resolved option is of kind Flag or Help makes `Parse`
return false and changes no option. Long form: the walk stands in front of "--name=v"
(`name` without '=') and `name` resolves to such an option. Short form: the
walk stands in front of a token "-c...=v" (`c` is not '-', the first '=' is not the last
character), the flag loop of the token runs to its end leaving the options `s1`, and the
character before the '=' resolves in `s1` to such an option. -/
theorem C9_flags_take_no_value :
    (∀ (p : ArgParser) (prog : Str) (pre post : List Str) (name v : Str)
        (s : List CommandLineOption) (i : Nat) (opt : CommandLineOption),
      arrive p.options pre = some s → '=' ∉ name →
      GetOptionLong s name = Except.ok (i, opt) →
      (opt.option_type = OptionType.FlagOption ∨ opt.option_type = OptionType.HelpOption) →
      Parse p (prog :: (pre ++ ('-' :: '-' :: (name ++ '=' :: v)) :: post)) =
          (Outcome.returned false, { p with options := s }) ∧
        s[i]? = some opt) ∧
    (∀ (p : ArgParser) (prog : Str) (pre post : List Str) (c : Char) (cs : Str) (e : Nat)
        (s s1 : List CommandLineOption) (x : Char) (i : Nat) (opt : CommandLineOption),
      arrive p.options pre = some s → c ≠ '-' →
      find ('-' :: c :: cs) '=' = some e → e ≠ cs.length + 1 →
      flagLoop ('-' :: c :: cs) (flagCount ('-' :: c :: cs) e - 1) 1 s = Step.next s1 →
      charAt ('-' :: c :: cs) (e - 1) = some x →
      GetOption s1 x = Except.ok (i, opt) →
      (opt.option_type = OptionType.FlagOption ∨ opt.option_type = OptionType.HelpOption) →
      Parse p (prog :: (pre ++ ('-' :: c :: cs) :: post)) =
          (Outcome.returned false, { p with options := s1 }) ∧
        s1[i]? = some opt) := by
  constructor
  · intro p prog pre post name v s i opt harr hname hget hty
    have hi := (GetOptionLong_some s name i opt hget).1
    refine ⟨?_, hi⟩
    rw [Parse_of_arrive p prog pre _ s harr, mainLoop_dash_cons]
    by_cases hv : v = []
    · subst hv
      simp [dashArg, eqPos_long_value name [] hname]
    · simp only [dashArg_long_value s name v hname hv, hget, SetValueOption_of_flag opt v hty,
        set_of_getElem? s i opt hi]
  · intro p prog pre post c cs e s s1 x i opt harr hc hfind he hloop hx hget hty
    have hi := (GetOption_some s1 x i opt hget).1
    refine ⟨?_, hi⟩
    rw [Parse_of_arrive p prog pre _ s harr]
    have hne : ('-' :: c :: cs) ≠ [] := by simp
    have hep : eqPos ('-' :: c :: cs) = e := by simp [eqPos, hfind]
    have hstep : dashArg s ('-' :: c :: cs) = Step.throw Exn.logic_error s1 := by
      rw [dashArg_short s c cs hc (by rw [hep]; exact he), hep,
        shortOption_value s s1 _ e hfind hloop]
      simp only [hx, hget, SetValueOption_of_flag opt _ hty, set_of_getElem? s1 i opt hi]
    simp only [mainLoop, hne, if_false, List.head?_cons, if_true, hstep]

/-- C9, instances: "--alpha=1" and "-a=1" address the flag `a`; `Parse` returns false
and the registry is unchanged. -/
theorem C9_flags_take_no_value_witness :
    (GetOptionLong abxRegistry.options "alpha".toList =
        Except.ok (0, CommandLineOption.new OptionType.FlagOption 'a' "alpha".toList []) ∧
      Parse abxRegistry ("prog".toList :: ([] ++ "--alpha=1".toList :: ["-b".toList])) =
        (Outcome.returned false, abxRegistry)) ∧
    (GetOption abxRegistry.options 'a' =
        Except.ok (0, CommandLineOption.new OptionType.FlagOption 'a' "alpha".toList []) ∧
      Parse abxRegistry ("prog".toList :: ([] ++ "-a=1".toList :: ["-b".toList])) =
        (Outcome.returned false, abxRegistry)) :=
  ⟨⟨by decide,
    (C9_flags_take_no_value.1 abxRegistry "prog".toList [] ["-b".toList] "alpha".toList
      "1".toList abxRegistry.options 0
      (CommandLineOption.new OptionType.FlagOption 'a' "alpha".toList [])
      (by decide) (by decide) (by decide) (Or.inl (by decide))).1⟩,
   ⟨by decide,
    (C9_flags_take_no_value.2 abxRegistry "prog".toList [] ["-b".toList] 'a' "=1".toList 2
      abxRegistry.options abxRegistry.options 'a' 0
      (CommandLineOption.new OptionType.FlagOption 'a' "alpha".toList [])
      (by decide) (by decide) (by decide) (by decide) (by decide) (by decide) (by decide)
      (Or.inl (by decide))).1⟩⟩

/-- C10 as stated fails where the text of the token is cut differently from the names of
the registry. `-` is the short name of an Integer option and "5" coerces to 5, yet for the
token "--=5" (the form "-x=v" with `x` the character `-`) `Parse` returns false and assigns
nothing: a token whose second character is `-` is read as a long option, here with the
empty name. With the short name `=` the token "-==5" has its first '=' at position 1 and
is refused likewise. And for the long name "a=b" the token "--a=b=5" is cut at its first
'=' into the unknown name "a". -/
theorem C10_named_option_not_assigned :
    (GetOption dashNameRegistry.options '-' =
        Except.ok (0, CommandLineOption.new OptionType.IntegerOption '-' "negative".toList []) ∧
      stoi "5".toList = Except.ok 5 ∧
      "--=5".toList = '-' :: '-' :: '=' :: "5".toList ∧
      Parse dashNameRegistry ["prog".toList, "--=5".toList] =
        (Outcome.returned false, dashNameRegistry)) ∧
    (GetOption eqNameRegistry.options '=' =
        Except.ok (0, CommandLineOption.new OptionType.IntegerOption '=' "equals".toList []) ∧
      "-==5".toList = '-' :: '=' :: '=' :: "5".toList ∧
      Parse eqNameRegistry ["prog".toList, "-==5".toList] =
        (Outcome.returned false, eqNameRegistry)) ∧
    (GetOptionLong eqLongRegistry.options "a=b".toList =
        Except.ok (0, CommandLineOption.new OptionType.StringOption '\x00' "a=b".toList []) ∧
      "--a=b=5".toList = '-' :: '-' :: ("a=b".toList ++ '=' :: "5".toList) ∧
      Parse eqLongRegistry ["prog".toList, "--a=b=5".toList] =
        (Outcome.returned false, eqLongRegistry)) := by
  decide

/-- C10, amended. When the walk stands in front of a token "-x=v" with `v` not empty and
`x` neither '-' nor '=', and `x` resolves to an option of kind Integer (with `v` coercing
to `n`) or String, the token does exactly one thing: `SetValue(n)`, respectively
`SetValue(v)`, on that option. No flag is activated and no other option changes; the walk
goes on behind the token when `SetValue` returned. The same holds for the long form
"--name=v" with `name` free of '=' and resolving to such an option. -/
theorem C10_single_value_assignment :
    (∀ (p : ArgParser) (prog : Str) (pre post : List Str) (x : Char) (v : Str)
        (s : List CommandLineOption) (i : Nat) (opt : CommandLineOption),
      arrive p.options pre = some s → x ≠ '-' → x ≠ '=' → v ≠ [] →
      GetOption s x = Except.ok (i, opt) →
      (opt.option_type = OptionType.IntegerOption → ∀ n : Int, stoi v = Except.ok n →
        Parse p (prog :: (pre ++ ('-' :: x :: '=' :: v) :: post)) =
          afterAssignment p prog post s i (opt.SetValueInt n)) ∧
      (opt.option_type = OptionType.StringOption →
        Parse p (prog :: (pre ++ ('-' :: x :: '=' :: v) :: post)) =
          afterAssignment p prog post s i (opt.SetValueString v))) ∧
    (∀ (p : ArgParser) (prog : Str) (pre post : List Str) (name v : Str)
        (s : List CommandLineOption) (i : Nat) (opt : CommandLineOption),
      arrive p.options pre = some s → '=' ∉ name → v ≠ [] →
      GetOptionLong s name = Except.ok (i, opt) →
      (opt.option_type = OptionType.IntegerOption → ∀ n : Int, stoi v = Except.ok n →
        Parse p (prog :: (pre ++ ('-' :: '-' :: (name ++ '=' :: v)) :: post)) =
          afterAssignment p prog post s i (opt.SetValueInt n)) ∧
      (opt.option_type = OptionType.StringOption →
        Parse p (prog :: (pre ++ ('-' :: '-' :: (name ++ '=' :: v)) :: post)) =
          afterAssignment p prog post s i (opt.SetValueString v))) := by
  constructor
  · intro p prog pre post x v s i opt harr hx hxe hv hget
    constructor
    · intro hty n hn
      apply Parse_value_token p prog pre post x ('=' :: v) s i _ harr
      rw [dashArg_short_single_value s x v hx hxe hv, hget]
      simp [SetValueOption, hty, hn]
    · intro hty
      apply Parse_value_token p prog pre post x ('=' :: v) s i _ harr
      rw [dashArg_short_single_value s x v hx hxe hv, hget]
      simp [SetValueOption, hty]
  · intro p prog pre post name v s i opt harr hname hv hget
    constructor
    · intro hty n hn
      apply Parse_value_token p prog pre post '-' (name ++ '=' :: v) s i _ harr
      rw [dashArg_long_value s name v hname hv, hget]
      simp [SetValueOption, hty, hn]
    · intro hty
      apply Parse_value_token p prog pre post '-' (name ++ '=' :: v) s i _ harr
      rw [dashArg_long_value s name v hname hv, hget]
      simp [SetValueOption, hty]

/-- C10 amended, instances: after "-a", the tokens "-x=7" and "--xray=7" assign 7 to the
Integer option `x` of the registry and the walk goes on with "-b". -/
theorem C10_single_value_assignment_witness :
    (stoi "7".toList = Except.ok 7 ∧
      Parse abxRegistry ("prog".toList :: (["-a".toList] ++ "-x=7".toList :: ["-b".toList])) =
        afterAssignment abxRegistry "prog".toList ["-b".toList]
          (Parse abxRegistry ["prog".toList, "-a".toList]).2.options 2
          ((CommandLineOption.new OptionType.IntegerOption 'x' "xray".toList []).SetValueInt 7)) ∧
    (Parse abxRegistry ("prog".toList :: (["-a".toList] ++ "--xray=7".toList :: ["-b".toList])) =
        afterAssignment abxRegistry "prog".toList ["-b".toList]
          (Parse abxRegistry ["prog".toList, "-a".toList]).2.options 2
          ((CommandLineOption.new OptionType.IntegerOption 'x' "xray".toList []).SetValueInt 7) ∧
      (Parse abxRegistry ["prog".toList, "-a".toList, "--xray=7".toList,
        "-b".toList]).2.GetIntValue "xray".toList = Except.ok 7) :=
  ⟨⟨by decide,
    ((C10_single_value_assignment.1 abxRegistry "prog".toList ["-a".toList] ["-b".toList] 'x'
      "7".toList (Parse abxRegistry ["prog".toList, "-a".toList]).2.options 2
      (CommandLineOption.new OptionType.IntegerOption 'x' "xray".toList [])
      (by decide) (by decide) (by decide) (by decide) (by decide)).1 (by decide) 7 (by decide))⟩,
   ⟨((C10_single_value_assignment.2 abxRegistry "prog".toList ["-a".toList] ["-b".toList]
      "xray".toList "7".toList (Parse abxRegistry ["prog".toList, "-a".toList]).2.options 2
      (CommandLineOption.new OptionType.IntegerOption 'x' "xray".toList [])
      (by decide) (by decide) (by decide) (by decide)).1 (by decide) 7 (by decide)),
    by decide⟩⟩

/-- C11. Multi-value validity. `MultiValue(n)` on a coherent option of kind Integer or
String succeeds and leaves a multi-value option with minimum `n` and no stored value. For
every coherent multi-value option of kind Integer or String, `IsValid()` returns, and
returns true exactly when the number of stored values is at least the minimum. A
`SetValue` of the option's kind keeps the configuration and stores one value more. -/
theorem C11_multi_value_validity :
    (∀ (o : CommandLineOption) (n : Nat),
      (o.option_type = OptionType.IntegerOption ∨ o.option_type = OptionType.StringOption) →
      o.Coherent = true →
      ∃ o1, o.MultiValue n = Res.ok o1 ∧ o1.option_type = o.option_type ∧
        o1.is_multi_value = true ∧ o1.min_args_count = n ∧ o1.valueCount = 0 ∧
        o1.Coherent = true) ∧
    (∀ (o : CommandLineOption),
      (o.option_type = OptionType.IntegerOption ∨ o.option_type = OptionType.StringOption) →
      o.Coherent = true → o.is_multi_value = true →
      o.IsValid = Except.ok (decide (o.min_args_count ≤ o.valueCount))) ∧
    (∀ (o : CommandLineOption) (v : Int), o.option_type = OptionType.IntegerOption →
      o.Coherent = true → o.is_multi_value = true →
      (o.SetValueInt v).state.valueCount = o.valueCount + 1 ∧
      (o.SetValueInt v).state.is_multi_value = true ∧
      (o.SetValueInt v).state.min_args_count = o.min_args_count) ∧
    (∀ (o : CommandLineOption) (v : Str), o.option_type = OptionType.StringOption →
      o.Coherent = true → o.is_multi_value = true →
      (o.SetValueString v).state.valueCount = o.valueCount + 1 ∧
      (o.SetValueString v).state.is_multi_value = true ∧
      (o.SetValueString v).state.min_args_count = o.min_args_count) := by
  refine ⟨?_, ?_, ?_, ?_⟩
  · intro o n hty hco
    obtain ⟨ty, sh, lo, de, dv, av, ev, ip, mv, mn⟩ := o
    rcases hty with hty | hty <;> simp only at hty <;> subst hty <;>
      rcases ev with _ | (_ | _ | _) | (_ | _ | _) <;>
      simp_all [CommandLineOption.Coherent, CommandLineOption.storageCoherent,
        CommandLineOption.bindingCoherent, CommandLineOption.MultiValue,
        CommandLineOption.valueCount]
  · intro o hty hco hmv
    obtain ⟨ty, sh, lo, de, dv, av, ev, ip, mv, mn⟩ := o
    simp only at hmv
    subst hmv
    rcases hty with hty | hty <;> simp only at hty <;> subst hty <;>
      rcases av with (_ | _ | _ | _) | (_ | _ | _) <;>
      simp_all [CommandLineOption.Coherent, CommandLineOption.storageCoherent,
        CommandLineOption.IsValid, CommandLineOption.storedCount,
        CommandLineOption.valueCount] <;>
      split <;> simp_all
  · intro o v hty hco hmv
    obtain ⟨ty, sh, lo, de, dv, av, ev, ip, mv, mn⟩ := o
    simp only at hmv hty
    subst hmv hty
    rcases av with (_ | _ | _ | _) | (_ | _ | _) <;>
      rcases ev with _ | (_ | _ | _) | (_ | _ | _) <;>
      simp_all [CommandLineOption.Coherent, CommandLineOption.storageCoherent,
        CommandLineOption.bindingCoherent, CommandLineOption.SetValueInt,
        CommandLineOption.storeInt, CommandLineOption.mirrorInt, Res.state,
        CommandLineOption.valueCount]
  · intro o v hty hco hmv
    obtain ⟨ty, sh, lo, de, dv, av, ev, ip, mv, mn⟩ := o
    simp only at hmv hty
    subst hmv hty
    rcases av with (_ | _ | _ | _) | (_ | _ | _) <;>
      rcases ev with _ | (_ | _ | _) | (_ | _ | _) <;>
      simp_all [CommandLineOption.Coherent, CommandLineOption.storageCoherent,
        CommandLineOption.bindingCoherent, CommandLineOption.SetValueString,
        CommandLineOption.storeString, CommandLineOption.mirrorString, Res.state,
        CommandLineOption.valueCount]

/-- C11, instance: the option `N` with `MultiValue(1)` is invalid with no stored value
and valid after one `SetValue`. -/
theorem C11_multi_value_validity_witness :
    (optionN.min_args_count = 1 ∧ optionN.valueCount = 0 ∧
      optionN.IsValid = Except.ok (decide (optionN.min_args_count ≤ optionN.valueCount)) ∧
      optionN.IsValid = Except.ok false) ∧
    (optionN.SetValueInt 5).state.IsValid = Except.ok true :=
  ⟨⟨by decide, by decide,
    C11_multi_value_validity.2.1 optionN (Or.inl (by decide)) (by decide) (by decide),
    by decide⟩, by decide⟩

/-- C12. Default fallback. For a non-multi option that has received no value: `IsValid()`
is true when the option has a default and false when it has none (so a non-multi Integer
or String option with neither a stored value nor a default is invalid); and when it has a
default (of its kind, as in every reachable state) the getter of its kind returns that
default. -/
theorem C12_default_fallback (o : CommandLineOption) (hmv : o.is_multi_value = false)
    (hno : o.argument_values = ArgumentStorageType.value ValueType.monostate) :
    (o.HasDefault = true → o.IsValid = Except.ok true) ∧
    (o.HasDefault = false → o.IsValid = Except.ok false) ∧
    (o.option_type = OptionType.FlagOption → o.defaultCoherent = true → o.HasDefault = true →
      ∃ d, o.default_value = ValueType.bool d ∧ o.GetDefaultFlag = Except.ok d ∧
        o.GetFlag = Except.ok d) ∧
    (o.option_type = OptionType.IntegerOption → o.defaultCoherent = true →
      o.HasDefault = true →
      ∃ d, o.default_value = ValueType.int d ∧ o.GetDefaultInt = Except.ok d ∧
        o.GetInt = Except.ok d) ∧
    (o.option_type = OptionType.StringOption → o.defaultCoherent = true →
      o.HasDefault = true →
      ∃ d, o.default_value = ValueType.string d ∧ o.GetDefaultString = Except.ok d ∧
        o.GetString = Except.ok d) := by
  obtain ⟨ty, sh, lo, de, dv, av, ev, ip, mv, mn⟩ := o
  simp only at hmv hno
  subst hmv hno
  refine ⟨?_, ?_, ?_, ?_, ?_⟩
  · intro h
    simp [CommandLineOption.IsValid, h]
  · intro h
    simp [CommandLineOption.IsValid, h]
  · intro hty hdc hd
    simp only at hty
    subst hty
    rcases dv with _ | _ | _ | _ <;>
      simp_all [CommandLineOption.defaultCoherent, CommandLineOption.HasDefault,
        CommandLineOption.GetFlag, CommandLineOption.GetDefaultFlag]
  · intro hty hdc hd
    simp only at hty
    subst hty
    rcases dv with _ | _ | _ | _ <;>
      simp_all [CommandLineOption.defaultCoherent, CommandLineOption.HasDefault,
        CommandLineOption.GetInt, CommandLineOption.GetDefaultInt]
  · intro hty hdc hd
    simp only at hty
    subst hty
    rcases dv with _ | _ | _ | _ <;>
      simp_all [CommandLineOption.defaultCoherent, CommandLineOption.HasDefault,
        CommandLineOption.GetString, CommandLineOption.GetDefaultString]

/-- C12, instances: a flag declared with `Default(true)` and not set reads true; an
Integer option with `Default(7)` reads 7 and is valid; without default it is invalid. -/
theorem C12_default_fallback_witness :
    (((CommandLineOption.new OptionType.FlagOption 'v' "verbose".toList []).DefaultBool
        true).state.GetFlag = Except.ok true ∧
      ((CommandLineOption.new OptionType.IntegerOption 'c' "count".toList []).DefaultInt
        7).state.GetInt = Except.ok 7 ∧
      ((CommandLineOption.new OptionType.IntegerOption 'c' "count".toList []).DefaultInt
        7).state.IsValid = Except.ok true) ∧
    ((CommandLineOption.new OptionType.IntegerOption 'c' "count".toList []).HasDefault =
        false ∧
      (CommandLineOption.new OptionType.IntegerOption 'c' "count".toList []).IsValid =
        Except.ok false) :=
  ⟨⟨by decide, by decide,
    (C12_default_fallback
      ((CommandLineOption.new OptionType.IntegerOption 'c' "count".toList []).DefaultInt
        7).state (by decide) (by decide)).1 (by decide)⟩,
   ⟨by decide,
    (C12_default_fallback (CommandLineOption.new OptionType.IntegerOption 'c' "count".toList [])
      (by decide) (by decide)).2.1 (by decide)⟩⟩

/-- C13. Round trip. Whenever `SetValue(v)` returns, the getter of the kind called next
returns `v`: for the `bool` overload on any option, and for the `int` and string overloads
on a coherent non-multi option; the default and the value stored before play no part.
The call does return on a coherent non-multi option of the matching kind whose binding,
if any, is a variable. -/
theorem C13_round_trip :
    (∀ (o o1 : CommandLineOption) (v : Bool), o.SetValueBool v = Res.ok o1 →
      o1.GetFlag = Except.ok v) ∧
    (∀ (o o1 : CommandLineOption) (v : Int), o.is_multi_value = false → o.Coherent = true →
      o.SetValueInt v = Res.ok o1 → o1.GetInt = Except.ok v) ∧
    (∀ (o o1 : CommandLineOption) (v : Str), o.is_multi_value = false → o.Coherent = true →
      o.SetValueString v = Res.ok o1 → o1.GetString = Except.ok v) ∧
    (∀ (o : CommandLineOption) (v : Bool),
      (o.option_type = OptionType.FlagOption ∨ o.option_type = OptionType.HelpOption) →
      o.Coherent = true → ∃ o1, o.SetValueBool v = Res.ok o1) ∧
    (∀ (o : CommandLineOption) (v : Int), o.option_type = OptionType.IntegerOption →
      o.is_multi_value = false → o.Coherent = true → o.bindingMatches = true →
      ∃ o1, o.SetValueInt v = Res.ok o1) ∧
    (∀ (o : CommandLineOption) (v : Str), o.option_type = OptionType.StringOption →
      o.is_multi_value = false → o.Coherent = true → o.bindingMatches = true →
      ∃ o1, o.SetValueString v = Res.ok o1) := by
  refine ⟨?_, ?_, ?_, ?_, ?_, ?_⟩
  · intro o o1 v h
    obtain ⟨ty, sh, lo, de, dv, av, ev, ip, mv, mn⟩ := o
    cases ty <;> rcases ev with _ | (_ | _ | _) | (_ | _ | _) <;>
      simp [CommandLineOption.SetValueBool] at h <;> subst h <;> rfl
  · intro o o1 v hmv hco h
    obtain ⟨ty, sh, lo, de, dv, av, ev, ip, mv, mn⟩ := o
    simp only at hmv
    subst hmv
    cases ty <;> rcases av with (_ | _ | _ | _) | (_ | _ | _) <;>
      rcases ev with _ | (_ | _ | _) | (_ | _ | _) <;>
      simp_all [CommandLineOption.Coherent, CommandLineOption.storageCoherent,
        CommandLineOption.bindingCoherent, CommandLineOption.SetValueInt,
        CommandLineOption.storeInt, CommandLineOption.mirrorInt] <;>
      subst h <;> rfl
  · intro o o1 v hmv hco h
    obtain ⟨ty, sh, lo, de, dv, av, ev, ip, mv, mn⟩ := o
    simp only at hmv
    subst hmv
    cases ty <;> rcases av with (_ | _ | _ | _) | (_ | _ | _) <;>
      rcases ev with _ | (_ | _ | _) | (_ | _ | _) <;>
      simp_all [CommandLineOption.Coherent, CommandLineOption.storageCoherent,
        CommandLineOption.bindingCoherent, CommandLineOption.SetValueString,
        CommandLineOption.storeString, CommandLineOption.mirrorString] <;>
      subst h <;> rfl
  · intro o v hty hco
    obtain ⟨ty, sh, lo, de, dv, av, ev, ip, mv, mn⟩ := o
    rcases hty with hty | hty <;> simp only at hty <;> subst hty <;>
      rcases ev with _ | (_ | _ | _) | (_ | _ | _) <;>
      simp_all [CommandLineOption.Coherent, CommandLineOption.bindingCoherent,
        CommandLineOption.SetValueBool]
  · intro o v hty hmv hco hbm
    obtain ⟨ty, sh, lo, de, dv, av, ev, ip, mv, mn⟩ := o
    simp only at hmv hty
    subst hmv hty
    rcases av with (_ | _ | _ | _) | (_ | _ | _) <;>
      rcases ev with _ | (_ | _ | _) | (_ | _ | _) <;>
      simp_all [CommandLineOption.Coherent, CommandLineOption.storageCoherent,
        CommandLineOption.bindingCoherent, CommandLineOption.bindingMatches,
        CommandLineOption.SetValueInt, CommandLineOption.storeInt, CommandLineOption.mirrorInt]
  · intro o v hty hmv hco hbm
    obtain ⟨ty, sh, lo, de, dv, av, ev, ip, mv, mn⟩ := o
    simp only at hmv hty
    subst hmv hty
    rcases av with (_ | _ | _ | _) | (_ | _ | _) <;>
      rcases ev with _ | (_ | _ | _) | (_ | _ | _) <;>
      simp_all [CommandLineOption.Coherent, CommandLineOption.storageCoherent,
        CommandLineOption.bindingCoherent, CommandLineOption.bindingMatches,
        CommandLineOption.SetValueString, CommandLineOption.storeString,
        CommandLineOption.mirrorString]

/-- C13, instance: an Integer option with default 7 that already stores 1 reads 2 after
`SetValue(2)`. -/
theorem C13_round_trip_witness :
    ((((CommandLineOption.new OptionType.IntegerOption 'c' "count".toList []).DefaultInt
        7).state.SetValueInt 1).state.SetValueInt 2 =
      Res.ok ((((CommandLineOption.new OptionType.IntegerOption 'c' "count".toList
        []).DefaultInt 7).state.SetValueInt 1).state.SetValueInt 2).state) ∧
    (((((CommandLineOption.new OptionType.IntegerOption 'c' "count".toList []).DefaultInt
        7).state.SetValueInt 1).state.SetValueInt 2).state.GetInt = Except.ok 2) :=
  ⟨by decide,
   C13_round_trip.2.1
     (((CommandLineOption.new OptionType.IntegerOption 'c' "count".toList []).DefaultInt
        7).state.SetValueInt 1).state _ 2 (by decide) (by decide) (by decide)⟩

/-- C14. Multi-value append and indexed access. For an Integer option storing the
sequence `prev` (in particular the empty sequence that `MultiValue` leaves), after
`SetValue(v1)`, ..., `SetValue(vn)` the indexed getter `GetInt(i)` returns the element `i`
of `prev` followed by `v1 ... vn`, and throws `std::out_of_range` for every `i` at or
past its length; with no value stored before, `GetInt(i)` is `v(i+1)` for `i < n` and
out of range for `i ≥ n`. The same holds for a String option and `GetString(i)`. -/
theorem C14_multi_value_append_and_index :
    (∀ (o : CommandLineOption) (prev vs : List Int),
      o.option_type = OptionType.IntegerOption →
      o.argument_values = ArgumentStorageType.array (ArrayType.ints prev) →
      (∀ (i : Nat) (x : Int), (prev ++ vs)[i]? = some x →
        (o.setEachInt vs).GetIntAt i = Except.ok x) ∧
      (∀ i : Nat, (prev ++ vs).length ≤ i →
        (o.setEachInt vs).GetIntAt i = Except.error Exn.out_of_range)) ∧
    (∀ (o : CommandLineOption) (prev vs : List Str),
      o.option_type = OptionType.StringOption →
      o.argument_values = ArgumentStorageType.array (ArrayType.strings prev) →
      (∀ (i : Nat) (x : Str), (prev ++ vs)[i]? = some x →
        (o.setEachString vs).GetStringAt i = Except.ok x) ∧
      (∀ i : Nat, (prev ++ vs).length ≤ i →
        (o.setEachString vs).GetStringAt i = Except.error Exn.out_of_range)) := by
  constructor
  · intro o prev vs hty hav
    have hst := setEachInt_stored vs o prev hty hav
    constructor
    · intro i x hx
      simp [CommandLineOption.GetIntAt, hst, hx]
    · intro i hi
      have hnone : (prev ++ vs)[i]? = none := List.getElem?_eq_none hi
      simp [CommandLineOption.GetIntAt, hst, hnone]
  · intro o prev vs hty hav
    have hst := setEachString_stored vs o prev hty hav
    constructor
    · intro i x hx
      simp [CommandLineOption.GetStringAt, hst, hx]
    · intro i hi
      have hnone : (prev ++ vs)[i]? = none := List.getElem?_eq_none hi
      simp [CommandLineOption.GetStringAt, hst, hnone]

/-- C14, instance: after `SetValue(4)`, `SetValue(5)`, `SetValue(6)` on the option `N`
with no stored value, `GetInt(1)` is 5 and `GetInt(3)` is out of range. -/
theorem C14_multi_value_append_and_index_witness :
    (optionN.argument_values = ArgumentStorageType.array (ArrayType.ints []) ∧
      (optionN.setEachInt [4, 5, 6]).GetIntAt 1 = Except.ok 5) ∧
    (optionN.setEachInt [4, 5, 6]).GetIntAt 3 = Except.error Exn.out_of_range :=
  ⟨⟨by decide,
    (C14_multi_value_append_and_index.1 optionN [] [4, 5, 6] (by decide) (by decide)).1 1 5
      (by decide)⟩,
   (C14_multi_value_append_and_index.1 optionN [] [4, 5, 6] (by decide) (by decide)).2 3
      (by decide)⟩

/-- C15. Type-mismatch rejection. `SetValue(bool)` on an option that is neither Flag nor
Help, `SetValue(int)` on an option that is not Integer and `SetValue(string)` on an option
that is not String throw `std::logic_error` and leave the whole option (stored value,
default, binding and its target) as it was. -/
theorem C15_type_mismatch_rejected :
    (∀ (o : CommandLineOption) (v : Bool), o.option_type ≠ OptionType.FlagOption →
      o.option_type ≠ OptionType.HelpOption →
      o.SetValueBool v = Res.throws Exn.logic_error o) ∧
    (∀ (o : CommandLineOption) (v : Int), o.option_type ≠ OptionType.IntegerOption →
      o.SetValueInt v = Res.throws Exn.logic_error o) ∧
    (∀ (o : CommandLineOption) (v : Str), o.option_type ≠ OptionType.StringOption →
      o.SetValueString v = Res.throws Exn.logic_error o) := by
  refine ⟨?_, ?_, ?_⟩
  · intro o v h1 h2
    simp [CommandLineOption.SetValueBool, h1, h2]
  · intro o v h
    simp [CommandLineOption.SetValueInt, h]
  · intro o v h
    simp [CommandLineOption.SetValueString, h]

/-- C15, instances: `SetValue(true)` and `SetValue("x")` on the Integer option `N`, and
`SetValue(3)` on a flag. -/
theorem C15_type_mismatch_rejected_witness :
    optionN.SetValueBool true = Res.throws Exn.logic_error optionN ∧
    (CommandLineOption.new OptionType.FlagOption 'v' "verbose".toList []).SetValueInt 3 =
      Res.throws Exn.logic_error
        (CommandLineOption.new OptionType.FlagOption 'v' "verbose".toList []) ∧
    optionN.SetValueString "x".toList = Res.throws Exn.logic_error optionN :=
  ⟨C15_type_mismatch_rejected.1 optionN true (by decide) (by decide),
   C15_type_mismatch_rejected.2.1
     (CommandLineOption.new OptionType.FlagOption 'v' "verbose".toList []) 3 (by decide),
   C15_type_mismatch_rejected.2.2 optionN "x".toList (by decide)⟩

/-- C16 as stated fails in its last part: `StoreValues` binds the caller's vector with
the contents it has. After one `SetValue(1)` on an option bound to a vector holding
`[9]`, the vector holds `[9, 1]`, while the values written since the binding are `[1]`. -/
theorem C16_prefilled_vector_keeps_its_contents :
    prefilledOption.is_multi_value = true ∧
    prefilledOption.external_values = ExternalStorageType.arrayRef (ArrayRefType.ints [9]) ∧
    prefilledOption.SetValueInt 1 = Res.ok (prefilledOption.SetValueInt 1).state ∧
    (prefilledOption.SetValueInt 1).state.external_values =
      ExternalStorageType.arrayRef (ArrayRefType.ints [9, 1]) ∧
    (prefilledOption.SetValueInt 1).state.argument_values =
      ArgumentStorageType.array (ArrayType.ints [1]) := by
  decide

/-- C16, amended. External binding mirror. Every `SetValue(v)` that returns writes `v` to
the bound variable of a non-multi option and appends `v` to the bound vector of a
multi-value option. On a coherent Integer or String option whose binding has the
cardinality of the option the call does return. Hence after `SetValue(v1)`, ...,
`SetValue(vn)` the bound vector holds the contents it had at the time of the binding
followed by `v1 ... vn` in order. -/
theorem C16_external_binding_mirror :
    (∀ (o o1 : CommandLineOption) (v b0 : Bool),
      o.external_values = ExternalStorageType.valueRef (ValueRefType.bool b0) →
      o.SetValueBool v = Res.ok o1 →
      o1.external_values = ExternalStorageType.valueRef (ValueRefType.bool v)) ∧
    (∀ (o o1 : CommandLineOption) (v x0 : Int), o.is_multi_value = false →
      o.external_values = ExternalStorageType.valueRef (ValueRefType.int x0) →
      o.SetValueInt v = Res.ok o1 →
      o1.external_values = ExternalStorageType.valueRef (ValueRefType.int v)) ∧
    (∀ (o o1 : CommandLineOption) (v : Int) (w : List Int), o.is_multi_value = true →
      o.external_values = ExternalStorageType.arrayRef (ArrayRefType.ints w) →
      o.SetValueInt v = Res.ok o1 →
      o1.external_values = ExternalStorageType.arrayRef (ArrayRefType.ints (w ++ [v]))) ∧
    (∀ (o o1 : CommandLineOption) (v x0 : Str), o.is_multi_value = false →
      o.external_values = ExternalStorageType.valueRef (ValueRefType.string x0) →
      o.SetValueString v = Res.ok o1 →
      o1.external_values = ExternalStorageType.valueRef (ValueRefType.string v)) ∧
    (∀ (o o1 : CommandLineOption) (v : Str) (w : List Str), o.is_multi_value = true →
      o.external_values = ExternalStorageType.arrayRef (ArrayRefType.strings w) →
      o.SetValueString v = Res.ok o1 →
      o1.external_values =
        ExternalStorageType.arrayRef (ArrayRefType.strings (w ++ [v]))) ∧
    (∀ (o : CommandLineOption) (v : Int), o.option_type = OptionType.IntegerOption →
      o.Coherent = true → o.bindingMatches = true → ∃ o1, o.SetValueInt v = Res.ok o1) ∧
    (∀ (o : CommandLineOption) (v : Str), o.option_type = OptionType.StringOption →
      o.Coherent = true → o.bindingMatches = true → ∃ o1, o.SetValueString v = Res.ok o1) ∧
    (∀ (o : CommandLineOption) (w vs : List Int), o.option_type = OptionType.IntegerOption →
      o.Coherent = true → o.is_multi_value = true →
      o.external_values = ExternalStorageType.arrayRef (ArrayRefType.ints w) →
      (o.setEachInt vs).external_values =
        ExternalStorageType.arrayRef (ArrayRefType.ints (w ++ vs))) ∧
    (∀ (o : CommandLineOption) (w vs : List Str), o.option_type = OptionType.StringOption →
      o.Coherent = true → o.is_multi_value = true →
      o.external_values = ExternalStorageType.arrayRef (ArrayRefType.strings w) →
      (o.setEachString vs).external_values =
        ExternalStorageType.arrayRef (ArrayRefType.strings (w ++ vs))) := by
  refine ⟨?_, ?_, ?_, ?_, ?_, ?_, ?_, ?_, ?_⟩
  · intro o o1 v b0 hev h
    obtain ⟨ty, sh, lo, de, dv, av, ev, ip, mv, mn⟩ := o
    simp only at hev
    subst hev
    cases ty <;> simp [CommandLineOption.SetValueBool] at h <;> subst h <;> rfl
  · intro o o1 v x0 hmv hev h
    obtain ⟨ty, sh, lo, de, dv, av, ev, ip, mv, mn⟩ := o
    simp only at hev hmv
    subst hev hmv
    cases ty <;> rcases av with (_ | _ | _ | _) | (_ | _ | _) <;>
      simp [CommandLineOption.SetValueInt, CommandLineOption.storeInt,
        CommandLineOption.mirrorInt] at h <;> subst h <;> rfl
  · intro o o1 v w hmv hev h
    obtain ⟨ty, sh, lo, de, dv, av, ev, ip, mv, mn⟩ := o
    simp only at hev hmv
    subst hev hmv
    cases ty <;> rcases av with (_ | _ | _ | _) | (_ | _ | _) <;>
      simp [CommandLineOption.SetValueInt, CommandLineOption.storeInt,
        CommandLineOption.mirrorInt] at h <;> subst h <;> rfl
  · intro o o1 v x0 hmv hev h
    obtain ⟨ty, sh, lo, de, dv, av, ev, ip, mv, mn⟩ := o
    simp only at hev hmv
    subst hev hmv
    cases ty <;> rcases av with (_ | _ | _ | _) | (_ | _ | _) <;>
      simp [CommandLineOption.SetValueString, CommandLineOption.storeString,
        CommandLineOption.mirrorString] at h <;> subst h <;> rfl
  · intro o o1 v w hmv hev h
    obtain ⟨ty, sh, lo, de, dv, av, ev, ip, mv, mn⟩ := o
    simp only at hev hmv
    subst hev hmv
    cases ty <;> rcases av with (_ | _ | _ | _) | (_ | _ | _) <;>
      simp [CommandLineOption.SetValueString, CommandLineOption.storeString,
        CommandLineOption.mirrorString] at h <;> subst h <;> rfl
  · intro o v hty hco hbm
    obtain ⟨o1, h1, _⟩ := SetValueInt_bound o v hty hco hbm
    exact ⟨o1, h1⟩
  · intro o v hty hco hbm
    obtain ⟨o1, h1, _⟩ := SetValueString_bound o v hty hco hbm
    exact ⟨o1, h1⟩
  · intro o w vs hty hco hmv hev
    exact setEachInt_bound vs o w hty hco (by simp [CommandLineOption.bindingMatches, hev, hmv]) hev
  · intro o w vs hty hco hmv hev
    exact setEachString_bound vs o w hty hco
      (by simp [CommandLineOption.bindingMatches, hev, hmv]) hev

/-- C16 amended, instance: bound to an empty vector, the option shows 4, 5, 6 through
the binding after `SetValue(4)`, `SetValue(5)`, `SetValue(6)`. -/
theorem C16_external_binding_mirror_witness :
    ((optionN.StoreValuesInt []).state.external_values =
        ExternalStorageType.arrayRef (ArrayRefType.ints []) ∧
      (optionN.StoreValuesInt []).state.is_multi_value = true) ∧
    ((optionN.StoreValuesInt []).state.setEachInt [4, 5, 6]).external_values =
      ExternalStorageType.arrayRef (ArrayRefType.ints ([] ++ [4, 5, 6])) :=
  ⟨⟨by decide, by decide⟩,
   C16_external_binding_mirror.2.2.2.2.2.2.2.1 (optionN.StoreValuesInt []).state [] [4, 5, 6]
     (by decide) (by decide) (by decide) (by decide)⟩

/-- C17. Builder configuration errors. `Default`, `StoreValue` and `StoreValues` succeed,
recording the default respectively the binding, when the value or element type is that of
the option's kind (`bool` for Flag, `int` for Integer, string for String), and otherwise
throw `std::logic_error` leaving the option as it was. `Positional` succeeds, setting the
mark, on Integer and String options and throws otherwise. `MultiValue(n)` succeeds on
Integer and String options, recording the minimum and an empty sequence, and throws
`std::logic_error` on every other kind (by then the multi-value mark and the minimum are
already written). -/
theorem C17_builder_configuration_errors (o : CommandLineOption) :
    (∀ v, (o.option_type = OptionType.FlagOption →
        o.DefaultBool v = Res.ok { o with default_value := ValueType.bool v }) ∧
      (o.option_type ≠ OptionType.FlagOption →
        o.DefaultBool v = Res.throws Exn.logic_error o)) ∧
    (∀ v, (o.option_type = OptionType.IntegerOption →
        o.DefaultInt v = Res.ok { o with default_value := ValueType.int v }) ∧
      (o.option_type ≠ OptionType.IntegerOption →
        o.DefaultInt v = Res.throws Exn.logic_error o)) ∧
    (∀ v, (o.option_type = OptionType.StringOption →
        o.DefaultString v = Res.ok { o with default_value := ValueType.string v }) ∧
      (o.option_type ≠ OptionType.StringOption →
        o.DefaultString v = Res.throws Exn.logic_error o)) ∧
    (∀ r, (o.option_type = OptionType.FlagOption →
        o.StoreValueBool r = Res.ok { o with
          external_values := ExternalStorageType.valueRef (ValueRefType.bool r) }) ∧
      (o.option_type ≠ OptionType.FlagOption →
        o.StoreValueBool r = Res.throws Exn.logic_error o)) ∧
    (∀ r, (o.option_type = OptionType.IntegerOption →
        o.StoreValueInt r = Res.ok { o with
          external_values := ExternalStorageType.valueRef (ValueRefType.int r) }) ∧
      (o.option_type ≠ OptionType.IntegerOption →
        o.StoreValueInt r = Res.throws Exn.logic_error o)) ∧
    (∀ r, (o.option_type = OptionType.StringOption →
        o.StoreValueString r = Res.ok { o with
          external_values := ExternalStorageType.valueRef (ValueRefType.string r) }) ∧
      (o.option_type ≠ OptionType.StringOption →
        o.StoreValueString r = Res.throws Exn.logic_error o)) ∧
    (∀ r, (o.option_type = OptionType.IntegerOption →
        o.StoreValuesInt r = Res.ok { o with
          external_values := ExternalStorageType.arrayRef (ArrayRefType.ints r) }) ∧
      (o.option_type ≠ OptionType.IntegerOption →
        o.StoreValuesInt r = Res.throws Exn.logic_error o)) ∧
    (∀ r, (o.option_type = OptionType.StringOption →
        o.StoreValuesString r = Res.ok { o with
          external_values := ExternalStorageType.arrayRef (ArrayRefType.strings r) }) ∧
      (o.option_type ≠ OptionType.StringOption →
        o.StoreValuesString r = Res.throws Exn.logic_error o)) ∧
    ((o.option_type = OptionType.IntegerOption ∨ o.option_type = OptionType.StringOption →
        o.Positional = Res.ok { o with is_positional := true }) ∧
      (o.option_type ≠ OptionType.IntegerOption → o.option_type ≠ OptionType.StringOption →
        o.Positional = Res.throws Exn.logic_error o)) ∧
    (∀ n, (o.option_type = OptionType.IntegerOption →
        o.MultiValue n = Res.ok { o with
          is_multi_value := true
          min_args_count := n
          argument_values := ArgumentStorageType.array (ArrayType.ints []) }) ∧
      (o.option_type = OptionType.StringOption →
        o.MultiValue n = Res.ok { o with
          is_multi_value := true
          min_args_count := n
          argument_values := ArgumentStorageType.array (ArrayType.strings []) }) ∧
      (o.option_type ≠ OptionType.IntegerOption → o.option_type ≠ OptionType.StringOption →
        o.MultiValue n =
          Res.throws Exn.logic_error { o with is_multi_value := true, min_args_count := n })) := by
  obtain ⟨ty, sh, lo, de, dv, av, ev, ip, mv, mn⟩ := o
  cases ty <;>
    simp [CommandLineOption.DefaultBool, CommandLineOption.DefaultInt,
      CommandLineOption.DefaultString, CommandLineOption.MultiValue,
      CommandLineOption.Positional, CommandLineOption.StoreValueBool,
      CommandLineOption.StoreValueInt, CommandLineOption.StoreValueString,
      CommandLineOption.StoreValuesInt, CommandLineOption.StoreValuesString, Res.succeeded]

/-- C17, instances: `Default("x")` on a flag throws and changes nothing; `MultiValue(2)`
on an Integer option succeeds; `Positional()` on the Help option throws. -/
theorem C17_builder_configuration_errors_witness :
    (CommandLineOption.new OptionType.FlagOption 'v' "verbose".toList []).DefaultString
        "x".toList =
      Res.throws Exn.logic_error
        (CommandLineOption.new OptionType.FlagOption 'v' "verbose".toList []) ∧
    ((CommandLineOption.new OptionType.IntegerOption 'c' "count".toList []).MultiValue
        2).succeeded = true ∧
    (CommandLineOption.new OptionType.HelpOption 'h' "help".toList []).Positional =
      Res.throws Exn.logic_error
        (CommandLineOption.new OptionType.HelpOption 'h' "help".toList []) :=
  ⟨((C17_builder_configuration_errors
      (CommandLineOption.new OptionType.FlagOption 'v' "verbose".toList [])).2.2.1
        "x".toList).2 (by decide),
   by decide,
   (C17_builder_configuration_errors
      (CommandLineOption.new OptionType.HelpOption 'h' "help".toList [])).2.2.2.2.2.2.2.2.1.2
        (by decide) (by decide)⟩

/-- C18 as stated fails: declaring the flag `-v` / `--verbose` a second time succeeds,
and the registry then holds two options with the same long name and the same short
name. -/
theorem C18_duplicate_names_accepted :
    (duplicateRegistry.options.map (fun o => (o.short_opt, o.long_opt)) =
      [('v', "verbose".toList), ('v', "verbose".toList)]) ∧
    duplicateRegistry.options.length = 2 := by
  decide

/-- C18, amended. `AddIntArgument`, `AddStringArgument`, `AddFlag` and `AddHelp` compare no
names and never fail: each appends the new option, with the names given, behind the
options declared so far. A name that was already declared keeps resolving to the option
declared first, for long and for short names. -/
theorem C18_add_appends_without_name_check (p : ArgParser) (shortOpt : Char)
    (longOpt desc : Str) :
    ((p.AddIntArgument shortOpt longOpt desc).options =
        p.options ++ [CommandLineOption.new OptionType.IntegerOption shortOpt longOpt desc] ∧
      (p.AddStringArgument shortOpt longOpt desc).options =
        p.options ++ [CommandLineOption.new OptionType.StringOption shortOpt longOpt desc] ∧
      (p.AddFlag shortOpt longOpt desc).options =
        p.options ++ [CommandLineOption.new OptionType.FlagOption shortOpt longOpt desc] ∧
      (p.AddHelp shortOpt longOpt desc).options =
        p.options ++ [CommandLineOption.new OptionType.HelpOption shortOpt longOpt desc]) ∧
    (∀ (added : CommandLineOption) (name : Str) (r : Nat × CommandLineOption),
      GetOptionLong p.options name = Except.ok r →
      GetOptionLong (p.options ++ [added]) name = Except.ok r) ∧
    (∀ (added : CommandLineOption) (ch : Char) (r : Nat × CommandLineOption),
      GetOption p.options ch = Except.ok r →
      GetOption (p.options ++ [added]) ch = Except.ok r) := by
  refine ⟨⟨rfl, rfl, rfl, rfl⟩, ?_, ?_⟩
  · intro added name r h
    unfold GetOptionLong at h ⊢
    cases hf : find_if (fun o : CommandLineOption => decide (o.long_opt = name)) p.options with
    | none => simp [hf] at h
    | some r1 =>
      simp only [hf, Except.ok.injEq] at h
      subst h
      simp only [find_if_append_of_some _ [added] p.options r1 hf]
  · intro added ch r h
    unfold GetOption at h ⊢
    cases hf : find_if (fun o : CommandLineOption => decide (o.short_opt = ch)) p.options with
    | none => simp [hf] at h
    | some r1 =>
      simp only [hf, Except.ok.injEq] at h
      subst h
      simp only [find_if_append_of_some _ [added] p.options r1 hf]

/-- C18 amended, instance: after the second declaration of `--verbose` / `-v`, both names
still resolve to the option declared first. -/
theorem C18_add_appends_without_name_check_witness :
    GetOptionLong duplicateRegistry.options "verbose".toList =
      Except.ok (0, CommandLineOption.new OptionType.FlagOption 'v' "verbose".toList []) ∧
    GetOption duplicateRegistry.options 'v' =
      Except.ok (0, CommandLineOption.new OptionType.FlagOption 'v' "verbose".toList []) :=
  ⟨(C18_add_appends_without_name_check
      ((ArgParser.new "prog".toList).AddFlag 'v' "verbose".toList []) 'v' "verbose".toList
      "declared again".toList).2.1
      (CommandLineOption.new OptionType.FlagOption 'v' "verbose".toList
        "declared again".toList) "verbose".toList _ (by decide),
   (C18_add_appends_without_name_check
      ((ArgParser.new "prog".toList).AddFlag 'v' "verbose".toList []) 'v' "verbose".toList
      "declared again".toList).2.2
      (CommandLineOption.new OptionType.FlagOption 'v' "verbose".toList
        "declared again".toList) 'v' _ (by decide)⟩

/-- C19 as stated fails: after `Positional()` on two declared options, both have
`IsPositional()` true. -/
theorem C19_two_positional_options :
    twoPositionalRegistry.options.map (fun o => o.is_positional) = [true, true] ∧
    (twoPositionalRegistry.options.filter (fun o => o.is_positional)).length = 2 := by
  decide

/-- C19, amended. `Positional()` looks at the kind of its own option only: it succeeds on
every Integer or String option, whatever else is declared, so any number of options can
be positional. `GetPositionalArgument` resolves to the positional option declared
first, and fails when none is positional. -/
theorem C19_positional_not_exclusive :
    (∀ o : CommandLineOption,
      (o.option_type = OptionType.IntegerOption ∨ o.option_type = OptionType.StringOption) →
      o.Positional = Res.ok { o with is_positional := true }) ∧
    (∀ (before behind : List CommandLineOption) (o : CommandLineOption),
      (∀ x ∈ before, x.is_positional = false) → o.is_positional = true →
      GetPositionalArgument (before ++ o :: behind) = Except.ok (before.length, o)) ∧
    (∀ options : List CommandLineOption, (∀ x ∈ options, x.is_positional = false) →
      GetPositionalArgument options = Except.error Exn.logic_error) := by
  refine ⟨?_, ?_, ?_⟩
  · intro o hty
    rcases hty with hty | hty <;> simp [CommandLineOption.Positional, hty]
  · intro before behind o hb ho
    simp [GetPositionalArgument,
      find_if_append_of_none (fun x : CommandLineOption => x.is_positional) o behind before
        hb ho]
  · intro options h
    simp [GetPositionalArgument,
      find_if_none (fun x : CommandLineOption => x.is_positional) options h]

/-- C19 amended, instance: with two positional options the tokens go to the one declared
first. -/
theorem C19_positional_not_exclusive_witness :
    GetPositionalArgument ([] ++
        (CommandLineOption.new OptionType.IntegerOption 'a' "first".toList []).Positional.state ::
        [(CommandLineOption.new OptionType.StringOption 'b' "second".toList
          []).Positional.state]) =
      Except.ok (0,
        (CommandLineOption.new OptionType.IntegerOption 'a' "first".toList
          []).Positional.state) ∧
    (Parse twoPositionalRegistry ["prog".toList, "7".toList]).2.GetIntValue "first".toList =
      Except.ok 7 :=
  ⟨C19_positional_not_exclusive.2.1 [] _ _ (by decide) (by decide), by decide⟩

/-- C20. The failing step itself writes when a binding has the wrong cardinality. The
multi-value option `--num` is bound to an `int` variable, so for "--num=5" `SetValue(5)`
appends 5 and then throws at the write through the binding. `Parse` returns false and the
flag set before stays true, but the final state is not the state reached just before the
failing step: in front of "--num=5" the option `--num` stores nothing, in the final state
it stores 5. -/
theorem C20_failing_assignment_leaves_its_write :
    (Parse mismatchRegistry ["prog".toList, "--flag".toList, "--num=5".toList]).1 =
      Outcome.returned false ∧
    (Parse mismatchRegistry ["prog".toList, "--flag".toList,
      "--num=5".toList]).2.GetFlag "flag".toList = Except.ok true ∧
    (Parse mismatchRegistry ["prog".toList, "--flag".toList,
      "--num=5".toList]).2.GetIntValueAt "num".toList 0 = Except.ok 5 ∧
    arrive mismatchRegistry.options ["--flag".toList] =
      some (Parse mismatchRegistry ["prog".toList, "--flag".toList]).2.options ∧
    (Parse mismatchRegistry ["prog".toList, "--flag".toList]).2.GetIntValueAt "num".toList 0 =
      Except.error Exn.out_of_range ∧
    (Parse mismatchRegistry ["prog".toList, "--flag".toList, "--num=5".toList]).2.options ≠
      (Parse mismatchRegistry ["prog".toList, "--flag".toList]).2.options := by
  decide

/-- C21, counterexample. The registry `usedRegistry` holds one multi-value Integer option
whose stored sequence is [9]. Two passes over the tokens "Program", "1" leave [9, 1, 1]:
the second pass appended to what the first left, but the stored sequence is not the
contribution [1] repeated twice, which is what two passes leave in the fresh registry. -/
theorem C21_earlier_values_stay_in_front :
    usedRegistry.options[2]?.map CommandLineOption.argument_values =
      some (ArgumentStorageType.array (ArrayType.ints [9])) ∧
    (usedRegistry.options[2]?.map CommandLineOption.is_multi_value) = some true ∧
    (Parse usedRegistry ["Program".toList, "1".toList]).2.options[2]?.map
      CommandLineOption.argument_values =
      some (ArgumentStorageType.array (ArrayType.ints [9, 1])) ∧
    (Parse (Parse usedRegistry ["Program".toList, "1".toList]).2
      ["Program".toList, "1".toList]).2.options[2]?.map CommandLineOption.argument_values =
      some (ArgumentStorageType.array (ArrayType.ints [9, 1, 1])) ∧
    (Parse (Parse sumRegistry ["Program".toList, "1".toList]).2
      ["Program".toList, "1".toList]).2.options[2]?.map CommandLineOption.argument_values =
      some (ArgumentStorageType.array (ArrayType.ints [1, 1])) := by
  decide

/-- C21, amended. `Parse` does not reset stored values. For every registry, every token
sequence and every Integer option that holds a sequence `prev` (the storage of a
multi-value option), there is a sequence `c`, the contribution of the tokens, such that
one pass leaves `prev ++ c` and a second pass over the same tokens leaves
`prev ++ c ++ c`; the same holds for String options. Whether a pass fails, and where,
makes no difference. -/
theorem C21_second_pass_appends :
    (∀ (p : ArgParser) (args : List Str) (k : Nat) (o : CommandLineOption)
        (prev : List Int),
      p.options[k]? = some o → o.option_type = OptionType.IntegerOption →
      o.argument_values = ArgumentStorageType.array (ArrayType.ints prev) →
      ∃ c : List Int,
        (Parse p args).2.options[k]?.map CommandLineOption.argument_values =
          some (ArgumentStorageType.array (ArrayType.ints (prev ++ c))) ∧
        (Parse (Parse p args).2 args).2.options[k]?.map CommandLineOption.argument_values =
          some (ArgumentStorageType.array (ArrayType.ints (prev ++ c ++ c)))) ∧
    (∀ (p : ArgParser) (args : List Str) (k : Nat) (o : CommandLineOption)
        (prev : List Str),
      p.options[k]? = some o → o.option_type = OptionType.StringOption →
      o.argument_values = ArgumentStorageType.array (ArrayType.strings prev) →
      ∃ c : List Str,
        (Parse p args).2.options[k]?.map CommandLineOption.argument_values =
          some (ArgumentStorageType.array (ArrayType.strings (prev ++ c))) ∧
        (Parse (Parse p args).2 args).2.options[k]?.map CommandLineOption.argument_values =
          some (ArgumentStorageType.array (ArrayType.strings (prev ++ c ++ c)))) := by
  constructor
  · intro p args k o prev h hty hav
    obtain ⟨o1, o2, d, e, ho1, ho2, hs1, hs2, a1, a2, -, -⟩ :=
      Parse_twice_stored p args k o h
    have e0 : o.storedInts = prev := by simp [CommandLineOption.storedInts, hty, hav]
    obtain ⟨ht1, hv1⟩ := ints_of_shape o o1 prev hty hav hs1
    obtain ⟨-, hv2⟩ := ints_of_shape o1 o2 _ ht1 hv1 hs2
    refine ⟨d, ?_, ?_⟩
    · rw [ho1, Option.map_some', hv1, a1, e0]
    · rw [ho2, Option.map_some', hv2, a2, a1, e0]
  · intro p args k o prev h hty hav
    obtain ⟨o1, o2, d, e, ho1, ho2, hs1, hs2, -, -, a3, a4⟩ :=
      Parse_twice_stored p args k o h
    have e0 : o.storedStrings = prev := by simp [CommandLineOption.storedStrings, hty, hav]
    obtain ⟨ht1, hv1⟩ := strings_of_shape o o1 prev hty hav hs1
    obtain ⟨-, hv2⟩ := strings_of_shape o1 o2 _ ht1 hv1 hs2
    refine ⟨e, ?_, ?_⟩
    · rw [ho1, Option.map_some', hv1, a3, e0]
    · rw [ho2, Option.map_some', hv2, a4, a3, e0]

/-- C21, instance: in `sumRegistry` the positional multi-value Integer option (position 2)
starts with the empty sequence; two passes over "Program", "1", "2" leave 1, 2, 1, 2. In
`helpRegistry` the multi-value String option `file` (position 1) collects "a" twice from
two passes over "prog", "--file=a". -/
theorem C21_second_pass_appends_witness :
    (∃ c : List Int,
      (Parse sumRegistry ["Program".toList, "1".toList, "2".toList]).2.options[2]?.map
        CommandLineOption.argument_values =
        some (ArgumentStorageType.array (ArrayType.ints ([] ++ c))) ∧
      (Parse (Parse sumRegistry ["Program".toList, "1".toList, "2".toList]).2
        ["Program".toList, "1".toList, "2".toList]).2.options[2]?.map
        CommandLineOption.argument_values =
        some (ArgumentStorageType.array (ArrayType.ints ([] ++ c ++ c)))) ∧
    (∃ c : List Str,
      (Parse helpRegistry ["prog".toList, "--file=a".toList]).2.options[1]?.map
        CommandLineOption.argument_values =
        some (ArgumentStorageType.array (ArrayType.strings ([] ++ c))) ∧
      (Parse (Parse helpRegistry ["prog".toList, "--file=a".toList]).2
        ["prog".toList, "--file=a".toList]).2.options[1]?.map
        CommandLineOption.argument_values =
        some (ArgumentStorageType.array (ArrayType.strings ([] ++ c ++ c)))) ∧
    (Parse (Parse sumRegistry ["Program".toList, "1".toList, "2".toList]).2
      ["Program".toList, "1".toList, "2".toList]).2.options[2]?.map
      CommandLineOption.argument_values =
      some (ArgumentStorageType.array (ArrayType.ints [1, 2, 1, 2])) ∧
    (Parse (Parse helpRegistry ["prog".toList, "--file=a".toList]).2
      ["prog".toList, "--file=a".toList]).2.options[1]?.map
      CommandLineOption.argument_values =
      some (ArgumentStorageType.array (ArrayType.strings ["a".toList, "a".toList])) :=
  ⟨C21_second_pass_appends.1 sumRegistry ["Program".toList, "1".toList, "2".toList] 2
      (((CommandLineOption.new OptionType.IntegerOption '\x00' "N".toList []).MultiValue
        1).state.Positional).state [] (by decide) (by decide) (by decide),
   C21_second_pass_appends.2 helpRegistry ["prog".toList, "--file=a".toList] 1
      ((CommandLineOption.new OptionType.StringOption 'f' "file".toList []).MultiValue
        1).state [] (by decide) (by decide) (by decide),
   by decide, by decide⟩

/-- C22. With flags named `=` and `v` and a flag declared without a short name, `Parse`
over the tokens "prog", "-=v" does not return a boolean: the flag loop runs past the end
of the token and the behaviour is undefined. Without the flag that has no short name the
same tokens give the result false. -/
theorem C22_parse_undefined_on_wrapped_cluster :
    (Parse wrapRegistry ["prog".toList, "-=v".toList]).1 = Outcome.undefined ∧
    (Parse { wrapRegistry with options := wrapRegistry.options.take 2 }
      ["prog".toList, "-=v".toList]).1 = Outcome.returned false := by
  decide

/-- C23. Token 0 is ignored: two token sequences that differ only in their first token
give the same verdict and the same final state. -/
theorem C23_token_zero_ignored (p : ArgParser) (first first1 : Str) (rest : List Str) :
    Parse p (first :: rest) = Parse p (first1 :: rest) := by
  rfl

/-- C24. Value options cannot be activated as flags. Long form: when the walk stands in
front of a token "--name" (no '=') whose name resolves to an option of kind Integer or
String, `Parse` returns false and no option changes. Short form: when the flag loop of a
short token reaches position `j` and the character there resolves to an option of kind
Integer or String, `Parse` returns false and the options stay as the activations before
it left them; the resolved option is unchanged. -/
theorem C24_value_option_not_a_flag :
    (∀ (p : ArgParser) (prog : Str) (pre post : List Str) (name : Str)
        (s : List CommandLineOption) (i : Nat) (opt : CommandLineOption),
      arrive p.options pre = some s → '=' ∉ name → name ≠ [] →
      GetOptionLong s name = Except.ok (i, opt) →
      (opt.option_type = OptionType.IntegerOption ∨
        opt.option_type = OptionType.StringOption) →
      Parse p (prog :: (pre ++ ('-' :: '-' :: name) :: post)) =
          (Outcome.returned false, { p with options := s }) ∧
        s[i]? = some opt) ∧
    (∀ (p : ArgParser) (prog : Str) (pre post : List Str) (c : Char) (cs : Str)
        (s s1 : List CommandLineOption) (j : Nat) (ch : Char) (i : Nat)
        (opt : CommandLineOption),
      arrive p.options pre = some s → c ≠ '-' →
      eqPos ('-' :: c :: cs) ≠ cs.length + 1 →
      1 ≤ j → j < flagCount ('-' :: c :: cs) (eqPos ('-' :: c :: cs)) →
      flagLoop ('-' :: c :: cs) (j - 1) 1 s = Step.next s1 →
      charAt ('-' :: c :: cs) j = some ch →
      GetOption s1 ch = Except.ok (i, opt) →
      (opt.option_type = OptionType.IntegerOption ∨
        opt.option_type = OptionType.StringOption) →
      Parse p (prog :: (pre ++ ('-' :: c :: cs) :: post)) =
          (Outcome.returned false, { p with options := s1 }) ∧
        s1[i]? = some opt) := by
  constructor
  · intro p prog pre post name s i opt harr hname hne hget hty
    have hi := (GetOptionLong_some s name i opt hget).1
    refine ⟨?_, hi⟩
    rw [Parse_of_arrive p prog pre _ s harr, mainLoop_dash_cons,
      dashArg_long_flag s name hname hne, hget]
    simp only [SetFlagOption_of_value opt hty, set_of_getElem? s i opt hi]
  · intro p prog pre post c cs s s1 j ch i opt harr hc heq h1 h2 hloop hch hget hty
    have hi := (GetOption_some s1 ch i opt hget).1
    refine ⟨?_, hi⟩
    rw [Parse_of_arrive p prog pre _ s harr, mainLoop_dash_cons, dashArg_short s c cs hc heq]
    have hstop : flagLoop ('-' :: c :: cs)
        (flagCount ('-' :: c :: cs) (eqPos ('-' :: c :: cs)) - 1) 1 s
          = Step.throw Exn.logic_error s1 := by
      rw [flagLoop_at _ _ j s s1 h1 h2 hloop]
      simp only [flagLoop, hch, hget, SetFlagOption_of_value opt hty,
        set_of_getElem? s1 i opt hi]
    rw [shortOption_of_loop_stop s _ _ _ (by intro s2; simp) hstop]

/-- C24, instances: "--xray" and the cluster "-ax" address the Integer option `x` as a
flag; `Parse` returns false, in the second case with the flag `a` already set. -/
theorem C24_value_option_not_a_flag_witness :
    Parse abxRegistry ("prog".toList :: ([] ++ "--xray".toList :: ["-b".toList])) =
      (Outcome.returned false, abxRegistry) ∧
    Parse abxRegistry ("prog".toList :: ([] ++ "-ax".toList :: ["-b".toList])) =
      (Outcome.returned false,
        { abxRegistry with
          options := (Parse abxRegistry ["prog".toList, "-a".toList]).2.options }) ∧
    (Parse abxRegistry ["prog".toList, "-ax".toList, "-b".toList]).2.GetIntValue
      "xray".toList = Except.error Exn.bad_variant_access :=
  ⟨(C24_value_option_not_a_flag.1 abxRegistry "prog".toList [] ["-b".toList] "xray".toList
      abxRegistry.options 2
      (CommandLineOption.new OptionType.IntegerOption 'x' "xray".toList [])
      (by decide) (by decide) (by decide) (by decide) (Or.inl (by decide))).1,
   (C24_value_option_not_a_flag.2 abxRegistry "prog".toList [] ["-b".toList] 'a' "x".toList
      abxRegistry.options (Parse abxRegistry ["prog".toList, "-a".toList]).2.options 2 'x' 2
      (CommandLineOption.new OptionType.IntegerOption 'x' "xray".toList [])
      (by decide) (by decide) (by decide) (by decide) (by decide) (by decide) (by decide)
      (by decide) (Or.inl (by decide))).1,
   by decide⟩

/-- C25. `MultiValue(1)` on a Flag or Help option throws the configuration error after it
has written the multi-value mark and the minimum: the option left behind differs from
the one before the call, `IsMultiValue()` is true and `IsValid()` is false, and `Parse`
over no tokens at all returns false for a registry holding such a flag. -/
theorem C25_multivalue_marks_flag_before_throwing :
    (CommandLineOption.new OptionType.FlagOption 'v' "verbose".toList []).MultiValue 1 =
      Res.throws Exn.logic_error
        { CommandLineOption.new OptionType.FlagOption 'v' "verbose".toList [] with
          is_multi_value := true, min_args_count := 1 } ∧
    multiFlag ≠ CommandLineOption.new OptionType.FlagOption 'v' "verbose".toList [] ∧
    multiFlag.is_multi_value = true ∧
    multiFlag.IsValid = Except.ok false ∧
    (CommandLineOption.new OptionType.FlagOption 'v' "verbose".toList []).IsValid =
      Except.ok true ∧
    (CommandLineOption.new OptionType.HelpOption 'h' "help".toList []).MultiValue 1 =
      Res.throws Exn.logic_error
        { CommandLineOption.new OptionType.HelpOption 'h' "help".toList [] with
          is_multi_value := true, min_args_count := 1 } ∧
    multiHelp.is_multi_value = true ∧
    multiHelp.IsValid = Except.ok false ∧
    (Parse multiFlagRegistry ["prog".toList]).1 = Outcome.returned false := by
  decide

/-- C26. `SetValue` stores before it writes through the binding. On a multi-value Integer
option bound with `StoreValue(int&)` (both builder calls successful) `SetValue(5)` throws
the variant-access error and leaves 5 appended to the stored sequence; on a single-value
String option bound with `StoreValues(vector&)` `SetValue("a")` throws and leaves "a"
stored where there was no value. -/
theorem C26_setvalue_stores_before_mirror_throws :
    ((CommandLineOption.new OptionType.IntegerOption 'n' "num".toList []).MultiValue
      0).succeeded = true ∧
    (((CommandLineOption.new OptionType.IntegerOption 'n' "num".toList []).MultiValue
      0).state.StoreValueInt 0).succeeded = true ∧
    scalarBoundMulti.argument_values = ArgumentStorageType.array (ArrayType.ints []) ∧
    scalarBoundMulti.SetValueInt 5 =
      Res.throws Exn.bad_variant_access
        { scalarBoundMulti with
          argument_values := ArgumentStorageType.array (ArrayType.ints [5]) } ∧
    ((CommandLineOption.new OptionType.StringOption 's' "name".toList []).StoreValuesString
      []).succeeded = true ∧
    vectorBoundSingle.argument_values = ArgumentStorageType.value ValueType.monostate ∧
    vectorBoundSingle.SetValueString "a".toList =
      Res.throws Exn.bad_variant_access
        { vectorBoundSingle with
          argument_values := ArgumentStorageType.value (ValueType.string "a".toList) } := by
  decide

/-- C27. For the token "-=v" the position of '=' is 1 and the loop bound `eq_pos - 2`
wraps to 2^64 - 1. With flags named `=` and `v` and a flag declared without a short name,
the loop activates `=` (position 1) and `v` (position 2), reads the terminator at
position 3, the token's length, which resolves to the flag without a short name, and goes
on to position 4, past the terminator: the step is undefined, with all three flags set. -/
theorem C27_cluster_bound_wraps_and_reads_past_end :
    eqPos "-=v".toList = 1 ∧
    flagCount "-=v".toList (eqPos "-=v".toList) = 2 ^ 64 - 1 ∧
    "-=v".toList.length = 3 ∧
    charAt "-=v".toList 3 = some '\x00' ∧
    charAt "-=v".toList 4 = none ∧
    flagLoop "-=v".toList 3 1 wrapRegistry.options =
      Step.next (activate (activate (activate wrapRegistry.options '=') 'v') '\x00') ∧
    flagLoop "-=v".toList 4 1 wrapRegistry.options =
      Step.undefined (activate (activate (activate wrapRegistry.options '=') 'v') '\x00') ∧
    mainLoop wrapRegistry.options ["-=v".toList] =
      Step.undefined (activate (activate (activate wrapRegistry.options '=') 'v') '\x00') := by
  decide

end ArgumentParser
